import Mathlib

/-!
# HDRE cubemap loader (src/extra/hdre.cpp)

A shallow embedding of the decoder of the HDRE file format: the header checks
and the partition of the raw float payload into mip levels and faces done by
HDRE::load, the orientation pass flipY / flipYsides, and the accessors.

Conventions of the embedding.

* A float is an element of an arbitrary type `α`: the code only copies floats
  and never computes with them.
* A float buffer (`float*`) is a `List α`; an array of buffer pointers
  (`float**`, `float* faces_array[N_LEVELS]`) is a function from the slot
  index to the buffer the slot points to, and storing a pointer in a slot is
  `Function.update`.
* `int` and `unsigned int` are 32 bits wide. Arithmetic on `unsigned int` is
  exact arithmetic followed by reduction modulo 2^32 (`wrapU32`); storing an
  unsigned value in an `int` reads the same 32 bits in two's complement
  (`toInt32`). Arithmetic on `int` whose exact result does not fit is undefined
  in C++ (signed overflow) and yields `none` (`checkedInt`).
* Every access to a buffer is checked: an operation whose behaviour is
  undefined in C++ because it reads or writes outside a buffer yields `none`.
  `new float[n]` always succeeds and yields a buffer of `n` floats whose
  content is not specified: cell `k` of the allocation stored in member `b`
  holds `uninit b k`, for an arbitrary parameter `uninit`.
* The header version is a `float` that is only compared with 2.0 and 3.0; it
  is embedded as the rational number it denotes.
* `N_LEVELS` is a macro of hdre.h, which is not part of the sources at hand; it
  is the parameter `nLevels` of the operations that use it.
-/

namespace Hdre

variable {α : Type}

/-! ## Loops -/

/-- The loop `for (i = start; i < start + count; ++i) body`, threading a state
through a body that may be undefined (`none`). -/
def forLoop {σ : Type} (body : Nat → σ → Option σ) : Nat → Nat → σ → Option σ
  | 0, _, s => some s
  | count + 1, i, s => (body i s).bind (forLoop body count (i + 1))

/-! ## Machine integers -/

/-- The value of an `unsigned int` expression whose exact value is `x`:
unsigned arithmetic is arithmetic modulo 2^32. -/
def wrapU32 (x : Nat) : Nat := x % 4294967296

/-- The value of an `int` variable that is assigned the integer `x` modulo
2^32, as in `int lastpos = <unsigned expression>` and `pos += <unsigned>`: the
representative of `x` between -2^31 and 2^31 - 1. -/
def toInt32 (x : Int) : Int := (x + 2147483648) % 4294967296 - 2147483648

/-- The value of an `int` expression with non-negative operands whose exact
value is `x`: undefined (signed overflow) when `x` does not fit in an `int`. -/
def checkedInt (x : Nat) : Option Nat := if x < 2147483648 then some x else none

/-- The number of low bits of `x` that do not fit in the 24 bits of precision
of a `float`: the number of halvings that bring `x` below 2^24. -/
def floatExp : Nat → Nat → Nat
  | 0, _ => 0
  | fuel + 1, x => if x < 16777216 then 0 else floatExp fuel (x / 2) + 1

/-- The conversion of a non-negative `int` to `float` (24 bits of precision,
round to nearest, ties to even) and back to an integer, as in
`float size = (int)(...)`: exact below 2^24. -/
def toFloat (x : Nat) : Nat :=
  let e := floatExp x x
  let q := x / 2 ^ e
  let r := x % 2 ^ e
  if 2 * r < 2 ^ e ∨ (2 * r = 2 ^ e ∧ q % 2 = 0) then q * 2 ^ e else (q + 1) * 2 ^ e

/-! ## Raw memory operations (units are floats, i.e. 4 bytes) -/

/-- Read `n` floats of `buf` starting at float offset `off`; undefined when the
range leaves the buffer. -/
def readFloats (buf : List α) (off : Int) (n : Nat) : Option (List α) :=
  if 0 ≤ off ∧ off + n ≤ buf.length then some ((buf.drop off.toNat).take n) else none

/-- Overwrite `buf` from float offset `off` on with the floats `src`; undefined
when the range leaves the buffer. -/
def writeFloats (buf : List α) (off : Int) (src : List α) : Option (List α) :=
  if 0 ≤ off ∧ off + src.length ≤ buf.length then
    some (buf.take off.toNat ++ src ++ buf.drop (off.toNat + src.length))
  else none

/-- The call `memcpy(dst + doff, src + soff, 4 * n)`: the source range is read
and then written over the destination range. flipY calls it with ranges that
are whole rows, so two ranges are disjoint or the same range; copying a range
onto itself leaves the buffer as it is. -/
def memcpy (dst : List α) (doff : Int) (src : List α) (soff : Int) (n : Nat) :
    Option (List α) :=
  (readFloats src soff n).bind (writeFloats dst doff)

/-- The assignment `buf[i] = v`; undefined when `i` is outside the buffer. -/
def storeAt (buf : List α) (i : Nat) (v : α) : Option (List α) :=
  if i < buf.length then some (buf.set i v) else none

/-! ## Constants and records of hdre.h -/

/-- Modelled from the spec: the macro `N_FACES` of hdre.h (the header is not
among the sources); the spec fixes the number of cubemap faces to 6, and flipY
hard-codes the same 6. -/
def N_FACES : Nat := 6

/-- Modelled from the spec: the record `sHDREHeader` of hdre.h (the header is
not among the sources), with the fields HDRE::load reads. `type` is the format
tag, `headerSize` the byte offset of the payload. The integer types of the
fields are not known; `width`, `height` and `numChannels` hold the non-negative
values the spec gives them. -/
structure sHDREHeader where
  type : Int
  version : ℚ
  numChannels : Nat
  bitsPerChannel : Nat
  maxLuminance : ℚ
  includesSH : Bool
  numCoeffs : ℚ
  coeffs : List ℚ
  width : Nat
  height : Nat
  headerSize : Nat

/-- Modelled from the spec: the record `sHDRELevel` of hdre.h returned by
getLevel. -/
structure sHDRELevel (α : Type) where
  width : Nat
  height : Nat
  data : List α
  faces : Nat → List α

/-- Modelled from the spec: the member variables of class `HDRE` (declared in
hdre.h), as HDRE::load, HDRE::clean and the accessors use them. `data` is
`none` for a null pointer. -/
structure HDRE (α : Type) where
  header : sHDREHeader
  version : ℚ
  numChannels : Nat
  bitsPerChannel : Nat
  maxLuminance : ℚ
  type : Int
  numCoeffs : ℚ
  coeffs : List ℚ
  width : Nat
  height : Nat
  data : Option (List α)
  faces_array : Nat → List α
  pixels : Nat → Nat → List α

/-- A file as HDRE::load sees it: the header block read at offset 0 and the
floats stored from byte offset `headerSize` to the end of the file. -/
structure HDREFile (α : Type) where
  header : sHDREHeader
  payload : List α

/-! ## flipYsides and flipY -/

/-- The function `flipYsides(data, size, num_channels)`. `face_size` is the
byte count `size * size * num_channels * 4`, computed in `unsigned int`; each of
the three memcpy calls copies `face_size / 4` floats, through a temporary
buffer of `face_size` floats. -/
def flipYsides (data : Nat → List α) (size num_channels : Nat) : Option (Nat → List α) := do
  let face_size := wrapU32 (size * size * num_channels * 4)
  let temp ← readFloats (data 2) 0 (face_size / 4)
  let d2 ← memcpy (data 2) 0 (data 3) 0 (face_size / 4)
  let d3 ← writeFloats (data 3) 0 temp
  some (Function.update (Function.update data 2 d2) 3 d3)

/-- The variables of flipY that live across iterations: the six face buffers
and the two row offsets, which are `int` variables. -/
structure FlipState (α : Type) where
  data : Nat → List α
  pos : Int
  lastpos : Int

/-- The value `size * (size - 1) * num_channels`, an `unsigned int` product,
stored in `int lastpos`. (For `size = 0` the factor `size - 1` wraps to
2^32 - 1 and the product is 0, as with the truncated subtraction here.) -/
def flipYLast (size num_channels : Nat) : Int :=
  toInt32 (wrapU32 (size * (size - 1) * num_channels))

/-- One iteration of the inner loop of flipY on face `f`. `row_size` is the
byte count `size * num_channels * 4`, computed in `unsigned int`; each memcpy
copies `row_size / 4` floats, which never exceeds the `size * num_channels`
floats of `temp`. The offsets are advanced by the unsigned value
`size * num_channels` and stored back in `int`. -/
def flipYBody (size num_channels f : Nat) (s : FlipState α) : Option (FlipState α) := do
  let fdata := s.data f
  let row := wrapU32 (size * num_channels)
  let row_size := wrapU32 (size * num_channels * 4)
  let temp ← readFloats fdata s.pos (row_size / 4)
  let fdata1 ← memcpy fdata s.pos fdata s.lastpos (row_size / 4)
  let fdata2 ← writeFloats fdata1 s.lastpos temp
  let data := Function.update s.data f fdata2
  let pos := toInt32 (s.pos + (row : Int))
  let lastpos := toInt32 (s.lastpos - (row : Int))
  if pos > lastpos then
    some ⟨data, 0, flipYLast size num_channels⟩
  else
    some ⟨data, pos, lastpos⟩

/-- The double loop of flipY: for each of the 6 faces, `l = floor(size * 0.5)`
iterations of the body. -/
def flipYLoop (size num_channels : Nat) (s : FlipState α) : Option (FlipState α) :=
  forLoop (fun f s1 => forLoop (fun _ s2 => flipYBody size num_channels f s2) (size / 2) 0 s1)
    6 0 s

/-- The function `flipY(data, size, num_channels, flip_sides)`, for the values
of its `unsigned int size` and of its `short num_channels`, taken as
non-negative. -/
def flipY (data : Nat → List α) (size num_channels : Nat) (flip_sides : Bool) :
    Option (Nat → List α) := do
  let s ← flipYLoop size num_channels ⟨data, 0, flipYLast size num_channels⟩
  if flip_sides then flipYsides s.data size num_channels else some s.data

/-! ## HDRE::load -/

/-- The allocations an HDRE object owns, named by the member that points to
them: `data`, `faces_array[i]` and `pixels[i][j]`. -/
inductive Buffer where
  | data : Buffer
  | faces_array (i : Nat) : Buffer
  | pixels (i j : Nat) : Buffer
deriving DecidableEq

/-- The buffer `new float[n]` returns: `n` floats that nothing has written yet,
cell `k` holding `content k`. -/
def newFloats (content : Nat → α) (n : Nat) : List α := (List.range n).map content

/-- The expression `(int)(width / pow(2.0, mip_level))` for a non-negative
width: the division by a power of two is exact in double precision and the
cast truncates. -/
def levelWidth (width mip_level : Nat) : Nat := width / 2 ^ mip_level

/-- The first loop of load: the pair (dataSize, w) after `nLevels` iterations.
The statement `dataSize += w * w * N_FACES * numChannels` is `int` arithmetic:
three products and a sum, each undefined when it overflows. (A compiler that
wraps on overflow computes 96038 instead of 4295063334 for width 23354, one
channel and three levels; the run is undefined, and nothing is derived from
that value.) -/
def dataSizeLoop (nLevels width numChannels : Nat) : Option (Nat × Nat) :=
  forLoop (fun i (st : Nat × Nat) => do
      let mip_level := i + 1
      let ww ← checkedInt (st.2 * st.2)
      let wwf ← checkedInt (ww * N_FACES)
      let levelSize ← checkedInt (wwf * numChannels)
      let dataSize ← checkedInt (st.1 + levelSize)
      some (dataSize, levelWidth width mip_level))
    nLevels 0 (0, width)

/-- The value of `dataSize` when load allocates the raw buffer. -/
def loadDataSize (nLevels width numChannels : Nat) : Option Nat :=
  (dataSizeLoop nLevels width numChannels).map Prod.fst

/-- The raw buffer after `new float[n]` and `fread(data, 4 * n, 1, f)`, whose
result load ignores: the floats the file has, and behind them the cells of the
fresh allocation that the read did not reach, with the content they had. -/
def freadFloats (content : Nat → α) (payload : List α) (n : Nat) : List α :=
  payload.take n ++ (newFloats content n).drop payload.length

/-- The variables of the face loop of load for one level: the six face slots
`pixels[i]`, the packed buffer `faces_array[i]`, `faceOffset`, `facePixel`. -/
structure CopyState (α : Type) where
  pixels_i : Nat → List α
  faces_i : List α
  faceOffset : Nat
  facePixel : Nat

/-- One iteration of the `k` loop of load (face `j`, level offset `mapOffset`).
The index `mapOffset + faceOffset + k` and the counter `facePixel` are `int`
values; each is checked against the length of the buffer it indexes. -/
def copyBody (data : List α) (mapOffset j k : Nat) (s : CopyState α) : Option (CopyState α) := do
  let value ← data[mapOffset + s.faceOffset + k]?
  let pj ← storeAt (s.pixels_i j) k value
  let fa ← storeAt s.faces_i s.facePixel value
  some ⟨Function.update s.pixels_i j pj, fa, s.faceOffset, s.facePixel + 1⟩

/-- One iteration of the `j` loop of load at level `i`: allocate face `j`, copy
`faceSize` floats, advance `faceOffset` (which stays at most `mapSize`, an `int`
value). -/
def faceBody (uninit : Buffer → Nat → α) (i : Nat) (data : List α) (mapOffset faceSize j : Nat)
    (s : CopyState α) : Option (CopyState α) := do
  let s1 : CopyState α :=
    ⟨Function.update s.pixels_i j (newFloats (uninit (Buffer.pixels i j)) faceSize), s.faces_i,
      s.faceOffset, s.facePixel⟩
  let s2 ← forLoop (copyBody data mapOffset j) faceSize 0 s1
  some ⟨s2.pixels_i, s2.faces_i, s2.faceOffset + faceSize, s2.facePixel⟩

/-- The variables of the level loop of load: the object, `w` and `mapOffset`. -/
structure LevelState (α : Type) where
  self : HDRE α
  w : Nat
  mapOffset : Nat

/-- The `int` values `faceSize = w * w * numChannels` and
`mapSize = faceSize * N_FACES` of a level of edge `w`: undefined when a product
overflows. -/
def levelSizes (w numChannels : Nat) : Option (Nat × Nat) := do
  let ww ← checkedInt (w * w)
  let faceSize ← checkedInt (ww * numChannels)
  let mapSize ← checkedInt (faceSize * N_FACES)
  some (faceSize, mapSize)

/-- One iteration of the level loop of load. -/
def levelBody (uninit : Buffer → Nat → α) (HDREHeader : sHDREHeader) (i : Nat)
    (s : LevelState α) : Option (LevelState α) := do
  let mip_level := i + 1
  let (faceSize, mapSize) ← levelSizes s.w HDREHeader.numChannels
  let data ← s.self.data
  let c ← forLoop (faceBody uninit i data s.mapOffset faceSize) N_FACES 0
    ⟨s.self.pixels i, newFloats (uninit (Buffer.faces_array i)) mapSize, 0, 0⟩
  let mapOffset ← checkedInt (s.mapOffset + mapSize)
  let pixels_i ←
    if s.self.version < 3 then flipY c.pixels_i s.w s.self.numChannels true
    else if i ≠ 0 then flipY c.pixels_i s.w s.self.numChannels false
    else some c.pixels_i
  let self : HDRE α :=
    { s.self with
      faces_array := Function.update s.self.faces_array i c.faces_i
      pixels := Function.update s.self.pixels i pixels_i }
  some ⟨self, levelWidth HDREHeader.width mip_level, mapOffset⟩

/-- The object after all the assignments load makes for a header that passes
both checks (`header` and `version`, which it assigns before the version check,
and the fields it assigns after it), up to and including the allocation and
read of the raw buffer of `dataSize` floats. -/
def loadFields (dataSize : Nat) (uninit : Buffer → Nat → α) (self : HDRE α)
    (file : HDREFile α) : HDRE α :=
  let HDREHeader := file.header
  let self2 : HDRE α :=
    { self with
      header := HDREHeader
      version := HDREHeader.version
      numChannels := HDREHeader.numChannels
      bitsPerChannel := HDREHeader.bitsPerChannel
      maxLuminance := HDREHeader.maxLuminance
      type := HDREHeader.type }
  let self3 : HDRE α :=
    if HDREHeader.includesSH then
      { self2 with numCoeffs := HDREHeader.numCoeffs, coeffs := HDREHeader.coeffs }
    else self2
  { self3 with
    width := HDREHeader.width
    height := HDREHeader.height
    data := some (freadFloats (uninit Buffer.data) file.payload dataSize) }

/-- The part of load behind the two checks, cut after the first `n` iterations
of the level loop (`n = nLevels` is the whole loop): the first loop computes
`dataSize`, the raw buffer is allocated and read, and the level loop starts
with `w = width` and `mapOffset = 0`. -/
def loadLevels (nLevels : Nat) (uninit : Buffer → Nat → α) (self : HDRE α) (file : HDREFile α)
    (n : Nat) : Option (LevelState α) := do
  let dataSize ← loadDataSize nLevels file.header.width file.header.numChannels
  forLoop (levelBody uninit file.header) n 0
    ⟨loadFields dataSize uninit self file, file.header.width, 0⟩

/-- The method `HDRE::load(filename)` on the object `self`: the returned flag
and the object afterwards. `fs` maps a file name to the file, or to `none` when
it cannot be opened. -/
def load (nLevels : Nat) (uninit : Buffer → Nat → α) (fs : String → Option (HDREFile α))
    (self : HDRE α) (filename : String) : Option (Bool × HDRE α) :=
  match fs filename with
  | none => some (false, self)
  | some file =>
    let HDREHeader := file.header
    if HDREHeader.type ≠ 3 then some (false, self)
    else
      let self1 : HDRE α := { self with header := HDREHeader, version := HDREHeader.version }
      if self1.version < 2 then some (false, self1)
      else
        (loadLevels nLevels uninit self file nLevels).bind fun s => some (true, s.self)

/-! ## Accessors -/

/-- The method `HDRE::getFaces(level)`. -/
def getFaces (self : HDRE α) (level : Nat) : Nat → List α := self.pixels level

/-- The method `HDRE::getFace(level, face)`. -/
def getFace (self : HDRE α) (level face : Nat) : List α := self.pixels level face

/-- The method `HDRE::getData()`. -/
def getData (self : HDRE α) : Option (List α) := self.data

/-- The method `HDRE::getLevel(n)`: the edge is computed as an `int`, stored in
the local `float size` and assigned from there to `width` and `height`. -/
def getLevel (self : HDRE α) (n : Nat) : sHDRELevel α :=
  let size := toFloat (levelWidth self.width n)
  { width := size, height := size, data := self.faces_array n, faces := getFaces self n }

/-! ## HDRE::clean and the destructor -/

/-- An object together with the record of those of its allocations that are
not live: released already, or never made. The record is no member of the
class: `delete` changes the heap and leaves the pointer that was deleted as it
is, and a member that was never assigned holds a pointer to no allocation. -/
structure Owned (α : Type) where
  self : HDRE α
  released : List Buffer

/-- The statement `delete p` for the pointer of the member `b`: the allocation
is released; deleting a pointer whose allocation is not live is undefined. -/
def release (b : Buffer) (s : Owned α) : Option (Owned α) :=
  if b ∈ s.released then none else some { s with released := b :: s.released }

/-- The method `HDRE::clean()`: the returned flag, the object and the released
allocations afterwards. No statement of clean assigns to a member. -/
def clean (nLevels : Nat) (s : Owned α) : Option (Bool × Owned α) :=
  match s.self.data with
  | none => some (false, s)
  | some _ => do
    let s1 ← release Buffer.data s
    let s2 ← forLoop (fun i t => do
        let t1 ← release (Buffer.faces_array i) t
        forLoop (fun j u => release (Buffer.pixels i j) u) N_FACES 0 t1)
      nLevels 0 s1
    some (true, s2)

/-- The members of an object that can point to an allocation. -/
def allBuffers (nLevels : Nat) : List Buffer :=
  Buffer.data :: (List.range nLevels).flatMap fun i =>
    Buffer.faces_array i :: (List.range N_FACES).map (Buffer.pixels i)

/-- The statement `delete hdre` of Get, on the object for which load has just
returned false: the destructor `~HDRE()` calls clean. load returns false only
before its first `new`, and the constructor `HDRE::HDRE()` assigns no member,
so no member of that object points to a live allocation; `data` is whatever the
memory of the new object held. -/
def deleteUnloaded (nLevels : Nat) (self : HDRE α) : Option Unit :=
  (clean nLevels ⟨self, allBuffers nLevels⟩).map fun _ => ()

/-! ## The registry -/

/-- The static method `HDRE::Get(filename)`: the returned pointer (`none` for
NULL) and the map `sHDRELoaded` afterwards. `fresh` is the object that
`new HDRE()` creates; when load fails that object is deleted and NULL is
returned. -/
def Get (nLevels : Nat) (uninit : Buffer → Nat → α) (fs : String → Option (HDREFile α))
    (sHDRELoaded : List (String × HDRE α)) (fresh : HDRE α) (filename : String) :
    Option (Option (HDRE α) × List (String × HDRE α)) :=
  match sHDRELoaded.lookup filename with
  | some hdre => some (some hdre, sHDRELoaded)
  | none =>
    (load nLevels uninit fs fresh filename).bind fun r =>
      if r.1 = false then
        (deleteUnloaded nLevels r.2).bind fun _ => some (none, sHDRELoaded)
      else some (some r.2, sHDRELoaded)

/-! ## Notions used to state and prove the properties -/

/-- Cut a buffer into `n` consecutive rows of `rs` floats. -/
def toRows (rs : Nat) : Nat → List α → List (List α)
  | 0, _ => []
  | n + 1, buf => buf.take rs :: toRows rs n (buf.drop rs)

/-- The rows `rows[σ 0], rows[σ 1], ...`: row `j` of the result is row `σ j`
of the argument. -/
def permRows (σ : Nat → Nat) (rows : List (List α)) : List (List α) :=
  (List.range rows.length).map fun j => rows.getD (σ j) []

/-- The transposition of the indices `p` and `q`. -/
def swapIdx (p q j : Nat) : Nat := if j = p then q else if j = q then p else j

/-- The row index of `pos` after an iteration of flipY that started at row `p`,
for faces whose last row has index `N`: `pos` and `lastpos` move one row
inwards and are reset once `pos` has passed `lastpos`. -/
def nextRow (N p : Nat) : Nat := if N < 2 * p + 2 then 0 else p + 1

/-- The row index of `pos` at the start of iteration number `t` of flipY,
counted across all faces. -/
def rowAt (N : Nat) : Nat → Nat
  | 0 => 0
  | t + 1 => nextRow N (rowAt N t)

/-- The row permutation accumulated by `i` consecutive iterations of flipY
starting at iteration number `t0`. -/
def stepPerm (N t0 : Nat) : Nat → Nat → Nat
  | 0, j => j
  | i + 1, j => stepPerm N t0 i (swapIdx (rowAt N (t0 + i)) (N - rowAt N (t0 + i)) j)

/-- The row permutation flipY applies to face `g` of a level of edge `size`. -/
def facePerm (size g : Nat) : Nat → Nat :=
  stepPerm (size - 1) (g * (size / 2)) (size / 2)

/-- The index of the row opposite to row `j` in a face whose last row is `N`. -/
def mirror (N j : Nat) : Nat := if j ≤ N then N - j else j

/-- The number of floats of the levels `0 .. i-1`: the value of `mapOffset`
when load starts level `i`. -/
def levelOffset (width numChannels : Nat) : Nat → Nat
  | 0 => 0
  | i + 1 => levelOffset width numChannels i +
      levelWidth width i * levelWidth width i * numChannels * N_FACES

/-- The face exchanged with face `j` by flipYsides. -/
def sideOf (j : Nat) : Nat := if j = 2 then 3 else if j = 3 then 2 else j

/-- The functions on row indices that can arise from exchanging rows with their
opposite rows: each index stays or goes to the opposite index, compatibly with
the reflection. -/
def MirrorLike (N : Nat) (σ : Nat → Nat) : Prop :=
  ∀ j, (σ j = j ∨ σ j = mirror N j) ∧ σ (mirror N j) = mirror N (σ j)

/-- The buffer of face `g` after the double loop of flipY, for a face of `size`
rows of `size * nc` floats: its rows permuted by `facePerm size g`. -/
def flipFace (size nc g : Nat) (buf : List α) : List α :=
  (permRows (facePerm size g) (toRows (size * nc) size buf)).flatten

/-- The face buffers after the double loop of flipY: the six faces have their
rows permuted, any other slot is untouched. -/
def flipFaces (size nc : Nat) (data : Nat → List α) : Nat → List α :=
  fun g => if g < 6 then flipFace size nc g (data g) else data g

/-- The `faceSize` floats of face `j` of the level that starts at offset `off`
of the raw buffer. -/
def faceSlice (data : List α) (off faceSize j : Nat) : List α :=
  (data.drop (off + j * faceSize)).take faceSize

/-- The `mapSize` floats of the level that starts at offset `off` of the raw
buffer. -/
def levelSlice (data : List α) (off mapSize : Nat) : List α :=
  (data.drop off).take mapSize

/-- The face slots of a level as the face loop of load leaves them: the six
faces are slices of the raw buffer, any other slot keeps its content. -/
def levelFaces (data : List α) (off faceSize : Nat) (old : Nat → List α) : Nat → List α :=
  fun g => if g < N_FACES then faceSlice data off faceSize g else old g

/-- The orientation pass load applies to the faces of level `i`. -/
def orient (version : ℚ) (i w nc : Nat) (faces : Nat → List α) : Nat → List α :=
  if version < 3 then fun g => flipFaces w nc faces (sideOf g)
  else if i ≠ 0 then flipFaces w nc faces
  else faces

/-- No `int` of load overflows: at every level the product `w * w * N_FACES`
and the running total of the level sizes fit in an `int` (the other products
and sums of load are bounded by these). -/
def noOverflow (nLevels width numChannels : Nat) : Prop :=
  ∀ i, i < nLevels →
    levelWidth width i * levelWidth width i * N_FACES < 2147483648 ∧
    levelOffset width numChannels (i + 1) < 2147483648

instance (nLevels width numChannels : Nat) : Decidable (noOverflow nLevels width numChannels) := by
  unfold noOverflow; infer_instance

/-- The object during the level loop of load, once the levels `0 .. n-1` are
done: the fields set from the header, the raw buffer, and for each finished
level the packed buffer and the oriented faces. -/
def loadedLevels (nLevels : Nat) (uninit : Buffer → Nat → α) (self : HDRE α)
    (file : HDREFile α) (n : Nat) : HDRE α :=
  let W := file.header.width
  let C := file.header.numChannels
  let dataSize := levelOffset W C nLevels
  let data := freadFloats (uninit Buffer.data) file.payload dataSize
  { loadFields dataSize uninit self file with
    faces_array := fun lev =>
      if lev < n then
        levelSlice data (levelOffset W C lev)
          (levelWidth W lev * levelWidth W lev * C * N_FACES)
      else self.faces_array lev
    pixels := fun lev =>
      if lev < n then
        orient file.header.version lev (levelWidth W lev) C
          (levelFaces data (levelOffset W C lev) (levelWidth W lev * levelWidth W lev * C)
            (self.pixels lev))
      else self.pixels lev }
/-! ## The loops at a given iteration -/

/-- The variables of flipY when iteration `i` of the inner loop starts for face
`f`: the faces `0 .. f-1` are done, and `i` iterations of face `f`. -/
def flipYAt (size num_channels : Nat) (data : Nat → List α) (f i : Nat) :
    Option (FlipState α) :=
  (forLoop (fun g s1 => forLoop (fun _ s2 => flipYBody size num_channels g s2) (size / 2) 0 s1)
      f 0 ⟨data, 0, flipYLast size num_channels⟩).bind
    (forLoop (fun _ s2 => flipYBody size num_channels f s2) i 0)

/-- The variables of load when iteration `k` of the copy loop starts for face
`j` of level `i`: the level variables and the variables of the face loop. -/
def loadAt (nLevels : Nat) (uninit : Buffer → Nat → α) (self : HDRE α) (file : HDREFile α)
    (i j k : Nat) : Option (LevelState α × CopyState α) := do
  let s ← loadLevels nLevels uninit self file i
  let (faceSize, mapSize) ← levelSizes s.w file.header.numChannels
  let data ← s.self.data
  let c1 ← forLoop (faceBody uninit i data s.mapOffset faceSize) j 0
    ⟨s.self.pixels i, newFloats (uninit (Buffer.faces_array i)) mapSize, 0, 0⟩
  let c2 ← forLoop (copyBody data s.mapOffset j) k 0
    ⟨Function.update c1.pixels_i j (newFloats (uninit (Buffer.pixels i j)) faceSize),
      c1.faces_i, c1.faceOffset, c1.facePixel⟩
  some (s, c2)

/-! ## Concrete inputs -/

/-- A header with format tag 3, one channel and the given version and width. -/
def sampleHeader (version : ℚ) (width : Nat) : sHDREHeader :=
  { type := 3, version := version, numChannels := 1, bitsPerChannel := 32, maxLuminance := 1,
    includesSH := false, numCoeffs := 0, coeffs := [], width := width, height := width,
    headerSize := 256 }

/-- A file whose payload is the floats `0, 1, ..., n-1`. -/
def sampleFile (version : ℚ) (width n : Nat) : HDREFile Nat :=
  ⟨sampleHeader version width, List.range n⟩

/-- A file system with the single file `env.hdre`. -/
def sampleFs (file : HDREFile Nat) : String → Option (HDREFile Nat) :=
  fun name => if name = "env.hdre" then some file else none

/-- An object whose fields are all zero, null or empty. -/
def blankHDRE : HDRE Nat :=
  { header := sampleHeader 0 0, version := 0, numChannels := 0, bitsPerChannel := 0,
    maxLuminance := 0, type := 0, numCoeffs := 0, coeffs := [], width := 0, height := 0,
    data := none, faces_array := fun _ => [], pixels := fun _ _ => [] }

/-- A file whose header has format tag 2 (and version 3.0, width 4, one
channel), with the payload `0, 1, ..., 125`. -/
def wrongTagFile : HDREFile Nat :=
  ⟨{ sampleHeader 3 4 with type := 2 }, List.range 126⟩

/-- An object as `new HDRE()` can leave it: the constructor assigns nothing, and
here the memory of `data` holds a non-null pointer, to no allocation. -/
def unsetHDRE : HDRE Nat := { blankHDRE with data := some [] }

/-- A file of version 3.0, width 5 (levels of edge 5, 2 and 1) and one channel,
with the payload `0, 1, ..., 179`. -/
def file5 : HDREFile Nat := sampleFile 3 5 180
/-! # Theorems -/

/-! ## Loop rule -/

theorem forLoop_inv {σ : Type} (body : Nat → σ → Option σ) (Inv : Nat → σ → Prop) :
    ∀ (count i : Nat) (s : σ), Inv i s →
      (∀ k s1, i ≤ k → k < i + count → Inv k s1 → ∃ s2, body k s1 = some s2 ∧ Inv (k + 1) s2) →
      ∃ s2, forLoop body count i s = some s2 ∧ Inv (i + count) s2 := by
  intro count
  induction count with
  | zero => intro i s h _; exact ⟨s, rfl, by simpa using h⟩
  | succ n ih =>
    intro i s h hstep
    obtain ⟨s1, hs1, hinv1⟩ := hstep i s (le_refl _) (by omega) h
    obtain ⟨s2, hs2, hinv2⟩ := ih (i + 1) s1 hinv1
      (fun k s3 hk1 hk2 hk3 => hstep k s3 (by omega) (by omega) hk3)
    refine ⟨s2, ?_, ?_⟩
    · simp [forLoop, hs1, hs2]
    · have : i + (n + 1) = i + 1 + n := by omega
      rw [this]; exact hinv2

theorem forLoop_some_idx {σ : Type} (body : Nat → σ → Option σ) (Inv : Nat → σ → Prop)
    (hbody : ∀ k s s1, body k s = some s1 → Inv k s → Inv (k + 1) s1) :
    ∀ (count i : Nat) (s s1 : σ), forLoop body count i s = some s1 → Inv i s →
      Inv (i + count) s1 := by
  intro count
  induction count with
  | zero =>
    intro i s s1 h hp
    simp only [forLoop, Option.some.injEq] at h
    rw [← h]; exact hp
  | succ n ih =>
    intro i s s1 h hp
    simp only [forLoop] at h
    cases hb : body i s with
    | none => rw [hb] at h; simp at h
    | some s2 =>
      rw [hb] at h
      have := ih (i + 1) s2 s1 h (hbody i s s2 hb hp)
      have e : i + (n + 1) = i + 1 + n := by omega
      rw [e]; exact this

/-! ## Rows of a buffer -/

theorem length_flatten_rows (rs : Nat) (rows : List (List α))
    (h : ∀ r ∈ rows, r.length = rs) : rows.flatten.length = rows.length * rs := by
  induction rows with
  | nil => simp
  | cons r t ih =>
    have hr : r.length = rs := h r (by simp)
    have ht := ih (fun x hx => h x (by simp [hx]))
    simp [List.flatten, hr, ht, Nat.succ_mul]; omega

theorem toRows_length (rs : Nat) : ∀ (n : Nat) (buf : List α), (toRows rs n buf).length = n := by
  intro n
  induction n with
  | zero => intro buf; rfl
  | succ n ih => intro buf; simp [toRows, ih]

theorem toRows_row_length (rs : Nat) : ∀ (n : Nat) (buf : List α), buf.length = n * rs →
    ∀ r ∈ toRows rs n buf, r.length = rs := by
  intro n
  induction n with
  | zero => intro buf _ r hr; simp [toRows] at hr
  | succ n ih =>
    intro buf hlen r hr
    simp only [toRows, List.mem_cons] at hr
    rcases hr with hr | hr
    · subst hr
      rw [List.length_take, hlen, Nat.succ_mul]; omega
    · exact ih (buf.drop rs) (by rw [List.length_drop, hlen, Nat.succ_mul]; omega) r hr

theorem toRows_flatten (rs : Nat) : ∀ (n : Nat) (buf : List α), buf.length = n * rs →
    (toRows rs n buf).flatten = buf := by
  intro n
  induction n with
  | zero =>
    intro buf hlen
    have : buf = [] := List.length_eq_zero.mp (by simpa using hlen)
    simp [toRows, this]
  | succ n ih =>
    intro buf hlen
    have h := ih (buf.drop rs) (by rw [List.length_drop, hlen, Nat.succ_mul]; omega)
    simp [toRows, List.flatten, h]

theorem drop_flatten_rows (rs : Nat) : ∀ (rows : List (List α)) (p : Nat),
    (∀ r ∈ rows, r.length = rs) → rows.flatten.drop (p * rs) = (rows.drop p).flatten := by
  intro rows
  induction rows with
  | nil => intro p _; simp
  | cons r t ih =>
    intro p h
    cases p with
    | zero => simp
    | succ p =>
      have hr : r.length = rs := h r (by simp)
      have ht := ih p (fun x hx => h x (by simp [hx]))
      have e : (p + 1) * rs = r.length + p * rs := by rw [hr, Nat.succ_mul]; omega
      simp only [List.flatten, List.drop_succ_cons]
      rw [e, List.drop_append, ht]

theorem take_flatten_rows (rs : Nat) : ∀ (rows : List (List α)) (p : Nat),
    (∀ r ∈ rows, r.length = rs) → rows.flatten.take (p * rs) = (rows.take p).flatten := by
  intro rows
  induction rows with
  | nil => intro p _; simp
  | cons r t ih =>
    intro p h
    cases p with
    | zero => simp
    | succ p =>
      have hr : r.length = rs := h r (by simp)
      have ht := ih p (fun x hx => h x (by simp [hx]))
      have e : (p + 1) * rs = r.length + p * rs := by rw [hr, Nat.succ_mul]; omega
      simp only [List.flatten, List.take_succ_cons]
      rw [e, List.take_append, ht]

theorem readFloats_rows (rs : Nat) (rows : List (List α)) (p : Nat)
    (h : ∀ r ∈ rows, r.length = rs) (hp : p < rows.length) :
    readFloats rows.flatten ((p * rs : Nat) : Int) rs = some (rows.getD p []) := by
  have hlen := length_flatten_rows rs rows h
  have hb : p * rs + rs ≤ rows.length * rs := by
    have : (p + 1) * rs ≤ rows.length * rs := Nat.mul_le_mul_right rs hp
    rw [Nat.succ_mul] at this; exact this
  have hcond : (0 : Int) ≤ ((p * rs : Nat) : Int) ∧
      ((p * rs : Nat) : Int) + (rs : Int) ≤ ((rows.flatten.length : Nat) : Int) := by
    rw [hlen]; constructor
    · exact Int.natCast_nonneg _
    · exact_mod_cast hb
  unfold readFloats
  rw [if_pos hcond, Int.toNat_ofNat, drop_flatten_rows rs rows p h]
  have hd : rows.drop p = rows[p] :: rows.drop (p + 1) := by
    simp
  rw [hd]
  have hr : (rows[p]).length = rs := h _ (List.getElem_mem hp)
  simp [List.flatten, hr, List.getD_eq_getElem?_getD, hp]

theorem writeFloats_rows (rs : Nat) (rows : List (List α)) (p : Nat) (row : List α)
    (h : ∀ r ∈ rows, r.length = rs) (hp : p < rows.length) (hrow : row.length = rs) :
    writeFloats rows.flatten ((p * rs : Nat) : Int) row = some (rows.set p row).flatten := by
  have hlen := length_flatten_rows rs rows h
  have hb : p * rs + rs ≤ rows.length * rs := by
    have : (p + 1) * rs ≤ rows.length * rs := Nat.mul_le_mul_right rs hp
    rw [Nat.succ_mul] at this; exact this
  have hcond : (0 : Int) ≤ ((p * rs : Nat) : Int) ∧
      ((p * rs : Nat) : Int) + (row.length : Int) ≤ ((rows.flatten.length : Nat) : Int) := by
    rw [hlen, hrow]; constructor
    · exact Int.natCast_nonneg _
    · exact_mod_cast hb
  unfold writeFloats
  rw [if_pos hcond, Int.toNat_ofNat, hrow]
  have e : p * rs + rs = (p + 1) * rs := by rw [Nat.succ_mul]
  rw [e, drop_flatten_rows rs rows (p + 1) h, take_flatten_rows rs rows p h,
    List.set_eq_take_append_cons_drop, if_pos hp]
  simp [List.flatten_append]

theorem set_row_length (rs : Nat) (rows : List (List α)) (p : Nat) (row : List α)
    (h : ∀ r ∈ rows, r.length = rs) (hrow : row.length = rs) :
    ∀ r ∈ rows.set p row, r.length = rs := by
  intro r hr
  rcases List.mem_or_eq_of_mem_set hr with h1 | h1
  · exact h r h1
  · rw [h1]; exact hrow

theorem getD_row_length (rs : Nat) (rows : List (List α)) (p : Nat)
    (h : ∀ r ∈ rows, r.length = rs) (hp : p < rows.length) : (rows.getD p []).length = rs := by
  rw [List.getD_eq_getElem?_getD, List.getElem?_eq_getElem hp]
  exact h _ (List.getElem_mem hp)

/-! ## Permuting rows -/

theorem permRows_length (σ : Nat → Nat) (rows : List (List α)) :
    (permRows σ rows).length = rows.length := by
  simp [permRows]

theorem permRows_getElem? (σ : Nat → Nat) (rows : List (List α)) (j : Nat) :
    (permRows σ rows)[j]? = if j < rows.length then some (rows.getD (σ j) []) else none := by
  unfold permRows
  by_cases hj : j < rows.length
  · simp [hj, List.getElem?_range hj]
  · simp [hj]
    omega

theorem permRows_row_length (rs : Nat) (σ : Nat → Nat) (rows : List (List α))
    (h : ∀ r ∈ rows, r.length = rs) (hσ : ∀ j, j < rows.length → σ j < rows.length) :
    ∀ r ∈ permRows σ rows, r.length = rs := by
  intro r hr
  simp only [permRows, List.mem_map, List.mem_range] at hr
  obtain ⟨j, hj, rfl⟩ := hr
  exact getD_row_length rs rows (σ j) h (hσ j hj)

theorem permRows_congr (σ τ : Nat → Nat) (rows : List (List α))
    (h : ∀ j, j < rows.length → σ j = τ j) : permRows σ rows = permRows τ rows := by
  apply List.ext_getElem?
  intro j
  rw [permRows_getElem?, permRows_getElem?]
  by_cases hj : j < rows.length
  · simp [hj, h j hj]
  · simp [hj]

theorem permRows_id (σ : Nat → Nat) (rows : List (List α))
    (h : ∀ j, j < rows.length → σ j = j) : permRows σ rows = rows := by
  apply List.ext_getElem?
  intro j
  rw [permRows_getElem?]
  by_cases hj : j < rows.length
  · simp [hj, h j hj, List.getD_eq_getElem?_getD]
  · simp [hj]
    omega

theorem permRows_comp (σ τ : Nat → Nat) (rows : List (List α))
    (hτ : ∀ j, j < rows.length → τ j < rows.length) :
    permRows τ (permRows σ rows) = permRows (fun j => σ (τ j)) rows := by
  apply List.ext_getElem?
  intro j
  rw [permRows_getElem?, permRows_getElem?, permRows_length]
  by_cases hj : j < rows.length
  · simp only [hj, if_true]
    rw [List.getD_eq_getElem?_getD, permRows_getElem?, if_pos (hτ j hj)]
    simp
  · simp [hj]

theorem permRows_reverse (σ : Nat → Nat) (rows : List (List α))
    (h : ∀ j, j < rows.length → σ j = rows.length - 1 - j) :
    permRows σ rows = rows.reverse := by
  apply List.ext_getElem?
  intro j
  rw [permRows_getElem?]
  by_cases hj : j < rows.length
  · rw [if_pos hj, List.getElem?_reverse hj, h j hj, List.getD_eq_getElem?_getD]
    have : rows.length - 1 - j < rows.length := by omega
    simp [List.getElem?_eq_getElem this]
  · rw [if_neg hj]
    symm
    apply List.getElem?_eq_none
    simp; omega

theorem swap_eq_permRows (rows : List (List α)) (p q : Nat) (hp : p < rows.length)
    (hq : q < rows.length) :
    (rows.set p (rows.getD q [])).set q (rows.getD p []) = permRows (swapIdx p q) rows := by
  apply List.ext_getElem?
  intro j
  rw [permRows_getElem?, List.getElem?_set, List.getElem?_set]
  simp only [List.length_set, swapIdx]
  by_cases hj : j < rows.length
  · rw [if_pos hj]
    by_cases h1 : q = j
    · subst h1
      by_cases h2 : q = p
      · subst h2; simp [hq]
      · simp [hq, h2]
    · by_cases h2 : p = j
      · subst h2; simp [h1, hp]
      · have h3 : ¬ j = p := fun e => h2 e.symm
        have h4 : ¬ j = q := fun e => h1 e.symm
        simp [h1, h2, h3, h4, List.getD_eq_getElem?_getD, List.getElem?_eq_getElem hj]
  · rw [if_neg hj]
    have h1 : ¬ q = j := by omega
    have h2 : ¬ p = j := by omega
    simp [h1, h2]
    omega

/-! ## One iteration of flipY on the rows of a face -/

theorem toInt32_natCast (x : Nat) (h : x < 2147483648) : toInt32 (x : Int) = x := by
  unfold toInt32; omega

theorem wrapU32_of_lt (x : Nat) (h : x < 4294967296) : wrapU32 x = x :=
  Nat.mod_eq_of_lt h

theorem checkedInt_of_lt (x : Nat) (h : x < 2147483648) : checkedInt x = some x := by
  simp [checkedInt, h]

theorem checkedInt_eq_some (x y : Nat) (h : checkedInt x = some y) :
    y = x ∧ x < 2147483648 := by
  unfold checkedInt at h
  split_ifs at h with hx
  exact ⟨by simpa using h.symm, hx⟩

theorem flipYLast_eq (size nc : Nat) (hb : size * size * nc < 2147483648) :
    flipYLast size nc = (((size - 1) * (size * nc) : Nat) : Int) := by
  have hreset : size * (size - 1) * nc = (size - 1) * (size * nc) := by
    rw [Nat.mul_comm size (size - 1), Nat.mul_assoc]
  have hle : (size - 1) * (size * nc) ≤ size * (size * nc) :=
    Nat.mul_le_mul_right _ (Nat.sub_le size 1)
  have hmul : size * size * nc = size * (size * nc) := Nat.mul_assoc _ _ _
  unfold flipYLast
  rw [hreset, wrapU32_of_lt _ (by omega), toInt32_natCast _ (by omega)]

theorem flipYBody_rows (size nc f p : Nat) (data : Nat → List α) (rows : List (List α))
    (hb : size * size * nc < 2147483648)
    (hsize : 2 ≤ size) (hp : 2 * p ≤ size - 1)
    (hdata : data f = rows.flatten) (hlen : rows.length = size)
    (hrows : ∀ r ∈ rows, r.length = size * nc) :
    flipYBody size nc f
        ⟨data, ((p * (size * nc) : Nat) : Int), (((size - 1 - p) * (size * nc) : Nat) : Int)⟩ =
      some ⟨Function.update data f (permRows (swapIdx p (size - 1 - p)) rows).flatten,
        ((nextRow (size - 1) p * (size * nc) : Nat) : Int),
        (((size - 1 - nextRow (size - 1) p) * (size * nc) : Nat) : Int)⟩ := by
  have hpl : p < rows.length := by omega
  have hql : size - 1 - p < rows.length := by omega
  have h1 := readFloats_rows (size * nc) rows p hrows hpl
  have h2 := readFloats_rows (size * nc) rows (size - 1 - p) hrows hql
  have h3 := writeFloats_rows (size * nc) rows p (rows.getD (size - 1 - p) []) hrows hpl
    (getD_row_length _ rows _ hrows hql)
  have h4 := writeFloats_rows (size * nc) (rows.set p (rows.getD (size - 1 - p) [])) (size - 1 - p)
    (rows.getD p []) (set_row_length _ rows _ _ hrows (getD_row_length _ rows _ hrows hql))
    (by simpa using hql) (getD_row_length _ rows _ hrows hpl)
  rw [swap_eq_permRows rows p (size - 1 - p) hpl hql] at h4
  have hmul : size * size * nc = size * (size * nc) := Nat.mul_assoc _ _ _
  have h2R : 2 * (size * nc) ≤ size * (size * nc) := Nat.mul_le_mul_right _ hsize
  have hrow : wrapU32 (size * nc) = size * nc := wrapU32_of_lt _ (by omega)
  have hrs : wrapU32 (size * nc * 4) / 4 = size * nc := by unfold wrapU32; omega
  obtain ⟨q, hq⟩ : ∃ q, size - 1 - p = q + 1 := ⟨size - 1 - p - 1, by omega⟩
  have hpb : (p + 1) * (size * nc) ≤ size * (size * nc) :=
    Nat.mul_le_mul_right _ (by omega)
  have hqb : q * (size * nc) ≤ size * (size * nc) := Nat.mul_le_mul_right _ (by omega)
  have hA : (((p * (size * nc) : Nat) : Int) + ((size * nc : Nat) : Int)) =
      (((p + 1) * (size * nc) : Nat) : Int) := by
    push_cast; ring
  have hB : ((((size - 1 - p) * (size * nc) : Nat) : Int) - ((size * nc : Nat) : Int)) =
      ((q * (size * nc) : Nat) : Int) := by
    rw [hq]; push_cast; ring
  simp only [flipYBody]
  rw [hrow, hrs, flipYLast_eq size nc hb, hA, hB, toInt32_natCast _ (by omega),
    toInt32_natCast _ (by omega)]
  simp only [memcpy, hdata, h1, h2, h3, h4, Option.bind_eq_bind, Option.some_bind,
    Option.pure_def, Option.bind_some]
  generalize size * nc = rs
  by_cases hnext : size - 1 < 2 * p + 2
  · have hn : nextRow (size - 1) p = 0 := by simp [nextRow, hnext]
    rw [hn]
    rcases Nat.eq_zero_or_pos rs with h0 | hpos
    · subst h0; simp
    · have hlt : q * rs < (p + 1) * rs := Nat.mul_lt_mul_of_pos_right (by omega) hpos
      have hc : (((p + 1) * rs : Nat) : Int) > ((q * rs : Nat) : Int) := by exact_mod_cast hlt
      rw [if_pos hc]
      simp
  · have hn : nextRow (size - 1) p = p + 1 := by simp [nextRow, hnext]
    rw [hn]
    have hle : (p + 1) * rs ≤ q * rs := Nat.mul_le_mul_right rs (by omega)
    have hc : ¬ ((((p + 1) * rs : Nat) : Int) > ((q * rs : Nat) : Int)) := by
      have : (((p + 1) * rs : Nat) : Int) ≤ ((q * rs : Nat) : Int) := by exact_mod_cast hle
      omega
    rw [if_neg hc]
    have hq2 : size - 1 - (p + 1) = q := by omega
    rw [hq2]

/-! ## The row schedule of flipY -/

theorem nextRow_le (N p : Nat) : 2 * nextRow N p ≤ N := by
  unfold nextRow; split_ifs <;> omega

theorem rowAt_le (N : Nat) : ∀ t, 2 * rowAt N t ≤ N := by
  intro t
  cases t with
  | zero => simp [rowAt]
  | succ t => exact nextRow_le N _

theorem mirrorLike_id (N : Nat) : MirrorLike N (fun j => j) := by
  intro j; simp

theorem mirrorLike_swap (N p : Nat) (hp : p ≤ N) : MirrorLike N (swapIdx p (N - p)) := by
  intro j
  unfold swapIdx mirror
  constructor
  · split_ifs <;> omega
  · split_ifs <;> omega

theorem mirrorLike_comp (N : Nat) (σ τ : Nat → Nat) (hσ : MirrorLike N σ) (hτ : MirrorLike N τ) :
    MirrorLike N (fun j => σ (τ j)) := by
  intro j
  have hmm : ∀ k, mirror N (mirror N k) = k := by
    intro k; unfold mirror; split_ifs <;> omega
  obtain ⟨h1, h2⟩ := hτ j
  obtain ⟨h3, h4⟩ := hσ (τ j)
  obtain ⟨h5, h6⟩ := hσ j
  constructor
  · show σ (τ j) = j ∨ σ (τ j) = mirror N j
    rcases h1 with h1 | h1
    · rw [h1]; exact h5
    · rcases h3 with h3 | h3
      · right; rw [h3, h1]
      · left; rw [h3, h1, hmm]
  · show σ (τ (mirror N j)) = mirror N (σ (τ j))
    rw [h2, h4]

theorem mirrorLike_stepPerm (N t0 : Nat) : ∀ i, MirrorLike N (stepPerm N t0 i) := by
  intro i
  induction i with
  | zero => exact mirrorLike_id N
  | succ i ih =>
    have hp : rowAt N (t0 + i) ≤ N := by have := rowAt_le N (t0 + i); omega
    exact mirrorLike_comp N (stepPerm N t0 i)
      (swapIdx (rowAt N (t0 + i)) (N - rowAt N (t0 + i))) ih (mirrorLike_swap N _ hp)

theorem mirrorLike_invol (N : Nat) (σ : Nat → Nat) (h : MirrorLike N σ) (j : Nat) :
    σ (σ j) = j := by
  have hmm : ∀ k, mirror N (mirror N k) = k := by
    intro k; unfold mirror; split_ifs <;> omega
  obtain ⟨h1, h2⟩ := h j
  rcases h1 with h1 | h1
  · rw [h1, h1]
  · rw [h1, h2, h1, hmm]

theorem mirrorLike_le (N : Nat) (σ : Nat → Nat) (h : MirrorLike N σ) (j : Nat) (hj : j ≤ N) :
    σ j ≤ N := by
  obtain ⟨h1, _⟩ := h j
  unfold mirror at h1
  rcases h1 with h1 | h1
  · omega
  · rw [if_pos hj] at h1; omega

theorem facePerm_mirrorLike (size g : Nat) : MirrorLike (size - 1) (facePerm size g) :=
  mirrorLike_stepPerm _ _ _

theorem facePerm_lt (size g j : Nat) (hj : j < size) : facePerm size g j < size := by
  have := mirrorLike_le (size - 1) _ (facePerm_mirrorLike size g) j (by omega)
  omega

theorem facePerm_invol (size g j : Nat) : facePerm size g (facePerm size g j) = j :=
  mirrorLike_invol _ _ (facePerm_mirrorLike size g) j

/-! ## The loops of flipY on the rows of the faces -/

theorem flipY_inner (size nc f t0 : Nat) (data0 : Nat → List α) (rows0 : List (List α))
    (hb : size * size * nc < 2147483648)
    (hdata : data0 f = rows0.flatten) (hlen : rows0.length = size)
    (hrows : ∀ r ∈ rows0, r.length = size * nc) (count : Nat) (hc : 0 < count → 2 ≤ size) :
    ∃ s, forLoop (fun _ s2 => flipYBody size nc f s2) count 0
        ⟨data0, ((rowAt (size - 1) t0 * (size * nc) : Nat) : Int),
          (((size - 1 - rowAt (size - 1) t0) * (size * nc) : Nat) : Int)⟩ = some s ∧
      s.pos = ((rowAt (size - 1) (t0 + count) * (size * nc) : Nat) : Int) ∧
      s.lastpos = (((size - 1 - rowAt (size - 1) (t0 + count)) * (size * nc) : Nat) : Int) ∧
      s.data = Function.update data0 f (permRows (stepPerm (size - 1) t0 count) rows0).flatten := by
  have key := forLoop_inv (fun _ s2 => flipYBody size nc f s2)
    (fun k (s : FlipState α) =>
      s.pos = ((rowAt (size - 1) (t0 + k) * (size * nc) : Nat) : Int) ∧
      s.lastpos = (((size - 1 - rowAt (size - 1) (t0 + k)) * (size * nc) : Nat) : Int) ∧
      s.data = Function.update data0 f (permRows (stepPerm (size - 1) t0 k) rows0).flatten)
    count 0
    ⟨data0, ((rowAt (size - 1) t0 * (size * nc) : Nat) : Int),
      (((size - 1 - rowAt (size - 1) t0) * (size * nc) : Nat) : Int)⟩
    (by
      refine ⟨rfl, rfl, ?_⟩
      have : permRows (stepPerm (size - 1) t0 0) rows0 = rows0 :=
        permRows_id _ _ (fun j _ => rfl)
      show data0 = _
      rw [this, ← hdata, Function.update_eq_self])
    (by
      intro k s1 _ hk ⟨hpos, hlast, hd⟩
      have hsize : 2 ≤ size := hc (by omega)
      obtain ⟨d, ps, lp⟩ := s1
      simp only at hpos hlast hd
      subst hpos hlast
      have hσ := mirrorLike_stepPerm (size - 1) t0 k
      have hwf : ∀ r ∈ permRows (stepPerm (size - 1) t0 k) rows0, r.length = size * nc :=
        permRows_row_length _ _ _ hrows (fun j hj => by
          have := mirrorLike_le (size - 1) _ hσ j (by omega); omega)
      have hstep := flipYBody_rows size nc f (rowAt (size - 1) (t0 + k)) d
        (permRows (stepPerm (size - 1) t0 k) rows0) hb hsize (rowAt_le _ _)
        (by rw [hd]; simp) (by rw [permRows_length, hlen]) hwf
      refine ⟨_, hstep, rfl, rfl, ?_⟩
      show Function.update d f _ = _
      rw [hd, Function.update_idem, permRows_comp]
      · rfl
      · intro j hj
        have hp := rowAt_le (size - 1) (t0 + k)
        have hsw : swapIdx (rowAt (size - 1) (t0 + k)) (size - 1 - rowAt (size - 1) (t0 + k)) j
            ≤ size - 1 :=
          mirrorLike_le (size - 1) _ (mirrorLike_swap (size - 1) _ (by omega)) j (by omega)
        omega)
  simpa using key

theorem flipYLoop_rows (size nc : Nat) (data : Nat → List α) (rowsFn : Nat → List (List α))
    (hb : size * size * nc < 2147483648)
    (hdata : ∀ g, g < 6 → data g = (rowsFn g).flatten)
    (hlen : ∀ g, g < 6 → (rowsFn g).length = size)
    (hrows : ∀ g, g < 6 → ∀ r ∈ rowsFn g, r.length = size * nc) :
    ∃ s, flipYLoop size nc ⟨data, 0, flipYLast size nc⟩ = some s ∧
      ∀ g, s.data g =
        if g < 6 then (permRows (facePerm size g) (rowsFn g)).flatten else data g := by
  have hreset : flipYLast size nc =
      (((size - 1 - rowAt (size - 1) 0) * (size * nc) : Nat) : Int) := by
    rw [flipYLast_eq size nc hb]; simp [rowAt]
  have key := forLoop_inv
    (fun f s1 => forLoop (fun _ s2 => flipYBody size nc f s2) (size / 2) 0 s1)
    (fun g (s : FlipState α) =>
      s.pos = ((rowAt (size - 1) (g * (size / 2)) * (size * nc) : Nat) : Int) ∧
      s.lastpos =
        (((size - 1 - rowAt (size - 1) (g * (size / 2))) * (size * nc) : Nat) : Int) ∧
      ∀ h, s.data h =
        if h < g then (permRows (facePerm size h) (rowsFn h)).flatten else data h)
    6 0 ⟨data, 0, flipYLast size nc⟩
    (by
      refine ⟨by simp [rowAt], ?_, fun h => by simp⟩
      show flipYLast size nc = _
      rw [hreset]; simp)
    (by
      intro g s1 _ hg ⟨hpos, hlast, hd⟩
      obtain ⟨d, ps, lp⟩ := s1
      simp only at hpos hlast hd
      subst hpos hlast
      have hg6 : g < 6 := by omega
      obtain ⟨s2, hs2, hp2, hl2, hd2⟩ := flipY_inner size nc g (g * (size / 2)) d (rowsFn g) hb
        (by rw [hd g, if_neg (lt_irrefl g)]; exact hdata g hg6) (hlen g hg6) (hrows g hg6)
        (size / 2) (by intro h; omega)
      refine ⟨s2, hs2, ?_, ?_, ?_⟩
      · rw [hp2, Nat.succ_mul]
      · rw [hl2, Nat.succ_mul]
      · intro h
        rw [hd2, Function.update_apply]
        by_cases hh : h = g
        · subst hh; simp [facePerm]
        · rw [if_neg hh, hd h]
          by_cases h1 : h < g
          · have : h < g + 1 := by omega
            simp [h1, this]
          · have : ¬ h < g + 1 := by omega
            simp [h1, this])
  obtain ⟨s, hs, _, _, hd⟩ := key
  exact ⟨s, hs, fun g => by simpa using hd g⟩

theorem flipYLoop_faces (size nc : Nat) (data : Nat → List α)
    (hb : size * size * nc < 2147483648)
    (hlen : ∀ f, f < 6 → (data f).length = size * size * nc) :
    ∃ s, flipYLoop size nc ⟨data, 0, flipYLast size nc⟩ = some s ∧
      s.data = flipFaces size nc data := by
  have hl : ∀ f, f < 6 → (data f).length = size * (size * nc) := by
    intro f hf; rw [hlen f hf, Nat.mul_assoc]
  obtain ⟨s, hs, hd⟩ := flipYLoop_rows size nc data
    (fun g => toRows (size * nc) size (data g)) hb
    (fun g hg => (toRows_flatten _ _ _ (hl g hg)).symm)
    (fun g _ => toRows_length _ _ _)
    (fun g hg => toRows_row_length _ _ _ (hl g hg))
  exact ⟨s, hs, funext fun g => hd g⟩

/-! ## The row schedule for an even edge -/

theorem rowAt_run (m t : Nat) (h0 : rowAt (2 * m - 1) t = 0) :
    ∀ i, i < m → rowAt (2 * m - 1) (t + i) = i := by
  intro i
  induction i with
  | zero => intro _; simpa using h0
  | succ i ih =>
    intro hi
    have h := ih (by omega)
    show nextRow (2 * m - 1) (rowAt (2 * m - 1) (t + i)) = i + 1
    rw [h]; unfold nextRow
    rw [if_neg (by omega)]

theorem rowAt_face_start (m : Nat) (hm : 0 < m) : ∀ g, rowAt (2 * m - 1) (g * m) = 0 := by
  intro g
  induction g with
  | zero => simp [rowAt]
  | succ g ih =>
    have h := rowAt_run m (g * m) ih (m - 1) (by omega)
    have e : (g + 1) * m = (g * m + (m - 1)) + 1 := by rw [Nat.succ_mul]; omega
    rw [e]
    show nextRow (2 * m - 1) (rowAt (2 * m - 1) (g * m + (m - 1))) = 0
    rw [h]; unfold nextRow
    rw [if_pos (by omega)]

theorem stepPerm_even (m g : Nat) (hm : 0 < m) :
    ∀ i, i ≤ m → ∀ j, stepPerm (2 * m - 1) (g * m) i j =
      if j < i ∨ (2 * m - 1 - i < j ∧ j ≤ 2 * m - 1) then 2 * m - 1 - j else j := by
  intro i
  induction i with
  | zero =>
    intro _ j
    show j = _
    rw [if_neg (by omega)]
  | succ i ih =>
    intro hi j
    have hrow := rowAt_run m (g * m) (rowAt_face_start m hm g) i (by omega)
    show stepPerm (2 * m - 1) (g * m) i
      (swapIdx (rowAt (2 * m - 1) (g * m + i)) (2 * m - 1 - rowAt (2 * m - 1) (g * m + i)) j) = _
    rw [hrow, ih (by omega)]
    unfold swapIdx
    split_ifs <;> omega

theorem facePerm_even (size g j : Nat) (hsize : Even size ∨ size ≤ 1) (hj : j < size) :
    facePerm size g j = size - 1 - j := by
  by_cases h1 : size ≤ 1
  · have : size / 2 = 0 := by omega
    simp only [facePerm, this, stepPerm]
    omega
  · have hev : Even size := by
      rcases hsize with h | h
      · exact h
      · exact absurd h h1
    obtain ⟨m, hm⟩ := hev
    have hm2 : size = 2 * m := by omega
    subst hm2
    have hdiv : 2 * m / 2 = m := by omega
    simp only [facePerm, hdiv]
    rw [stepPerm_even m g (by omega) m (le_refl m) j]
    rw [if_pos (by omega)]

/-! ## Indexing a buffer by row and column -/

theorem flatten_getElem? (rs : Nat) (rows : List (List α)) (r c : Nat)
    (h : ∀ x ∈ rows, x.length = rs) (hr : r < rows.length) (hc : c < rs) :
    rows.flatten[r * rs + c]? = (rows.getD r [])[c]? := by
  have h1 : rows.flatten[r * rs + c]? = (rows.flatten.drop (r * rs))[c]? := by
    rw [List.getElem?_drop]
  rw [h1, drop_flatten_rows rs rows r h]
  have hd : rows.drop r = rows[r] :: rows.drop (r + 1) := by simp
  have hl : (rows[r]).length = rs := h _ (List.getElem_mem hr)
  rw [hd, List.flatten, List.getElem?_append_left (by omega), List.getD_eq_getElem?_getD,
    List.getElem?_eq_getElem hr]
  rfl

theorem toRows_unique (rs : Nat) : ∀ (rows : List (List α)), (∀ x ∈ rows, x.length = rs) →
    toRows rs rows.length rows.flatten = rows := by
  intro rows
  induction rows with
  | nil => intro _; rfl
  | cons r t ih =>
    intro h
    have hr : r.length = rs := h r (by simp)
    have ht := ih (fun x hx => h x (by simp [hx]))
    simp only [List.length_cons, toRows, List.flatten]
    rw [List.take_left' hr, List.drop_left' hr, ht]

/-! ## The face buffers after flipY -/

theorem flipFace_length (size nc g : Nat) (buf : List α) (h : buf.length = size * size * nc) :
    (flipFace size nc g buf).length = size * size * nc := by
  have hl : buf.length = size * (size * nc) := by rw [h, Nat.mul_assoc]
  unfold flipFace
  rw [length_flatten_rows (size * nc), permRows_length, toRows_length, Nat.mul_assoc]
  apply permRows_row_length _ _ _ (toRows_row_length _ _ _ hl)
  intro j hj
  rw [toRows_length] at hj ⊢
  exact facePerm_lt size g j hj

theorem flipFace_flipFace (size nc g : Nat) (buf : List α) (h : buf.length = size * size * nc) :
    flipFace size nc g (flipFace size nc g buf) = buf := by
  have hl : buf.length = size * (size * nc) := by rw [h, Nat.mul_assoc]
  have hrange : ∀ j, j < (toRows (size * nc) size buf).length →
      facePerm size g j < (toRows (size * nc) size buf).length := by
    intro j hj
    rw [toRows_length] at hj ⊢
    exact facePerm_lt size g j hj
  have hwf := permRows_row_length (size * nc) (facePerm size g) _
    (toRows_row_length (size * nc) size buf hl) hrange
  have hu := toRows_unique (size * nc) _ hwf
  rw [permRows_length, toRows_length] at hu
  unfold flipFace
  rw [hu, permRows_comp _ _ _ hrange, permRows_id, toRows_flatten _ _ _ hl]
  intro j _
  exact facePerm_invol size g j

theorem flipFace_even (size nc g : Nat) (buf : List α) (hsize : Even size ∨ size ≤ 1) :
    flipFace size nc g buf = (toRows (size * nc) size buf).reverse.flatten := by
  unfold flipFace
  rw [permRows_reverse]
  intro j hj
  rw [toRows_length] at hj ⊢
  exact facePerm_even size g j hsize hj

theorem reverse_rows_getElem? (size nc : Nat) (buf : List α) (r c : Nat)
    (h : buf.length = size * size * nc) (hr : r < size) (hc : c < size * nc) :
    ((toRows (size * nc) size buf).reverse.flatten)[r * (size * nc) + c]? =
      buf[(size - 1 - r) * (size * nc) + c]? := by
  have hl : buf.length = size * (size * nc) := by rw [h, Nat.mul_assoc]
  have hwf := toRows_row_length (size * nc) size buf hl
  have hlen := toRows_length (size * nc) size buf
  have hwfr : ∀ x ∈ (toRows (size * nc) size buf).reverse, x.length = size * nc := by
    intro x hx; exact hwf x (List.mem_reverse.mp hx)
  rw [flatten_getElem? (size * nc) _ r c hwfr (by simpa [hlen] using hr) hc]
  conv_rhs => rw [← toRows_flatten (size * nc) size buf hl]
  rw [flatten_getElem? (size * nc) _ (size - 1 - r) c hwf (by rw [hlen]; omega) hc]
  congr 1
  rw [List.getD_eq_getElem?_getD, List.getD_eq_getElem?_getD,
    List.getElem?_reverse (by rw [hlen]; exact hr), hlen]

theorem flipFaces_length (size nc : Nat) (data : Nat → List α)
    (hlen : ∀ f, f < 6 → (data f).length = size * size * nc) :
    ∀ f, f < 6 → (flipFaces size nc data f).length = size * size * nc := by
  intro f hf
  simp only [flipFaces, if_pos hf]
  exact flipFace_length size nc f _ (hlen f hf)

theorem flipFaces_flipFaces (size nc : Nat) (data : Nat → List α)
    (hlen : ∀ f, f < 6 → (data f).length = size * size * nc) :
    flipFaces size nc (flipFaces size nc data) = data := by
  funext g
  by_cases hg : g < 6
  · simp only [flipFaces, if_pos hg]
    exact flipFace_flipFace size nc g _ (hlen g hg)
  · simp only [flipFaces, if_neg hg]

/-! ## flipYsides and flipY as functions on the face buffers -/

theorem flipYsides_front (size nc : Nat) (data : Nat → List α)
    (h2 : (data 2).length = size * size * nc) (h3 : (data 3).length = size * size * nc) :
    flipYsides data size nc =
      some (Function.update
        (Function.update data 2
          ((data 3).take (wrapU32 (size * size * nc * 4) / 4) ++
            (data 2).drop (wrapU32 (size * size * nc * 4) / 4)))
        3 ((data 2).take (wrapU32 (size * size * nc * 4) / 4) ++
            (data 3).drop (wrapU32 (size * size * nc * 4) / 4))) := by
  have hn : wrapU32 (size * size * nc * 4) / 4 ≤ size * size * nc := by
    unfold wrapU32; omega
  simp only [flipYsides]
  generalize wrapU32 (size * size * nc * 4) / 4 = n at hn ⊢
  have r2 : readFloats (data 2) 0 n = some ((data 2).take n) := by
    have : (0 : Int) ≤ 0 ∧ (0 : Int) + (n : Int) ≤ ((data 2).length : Int) := by
      rw [h2]; constructor
      · exact le_refl _
      · rw [zero_add]; exact_mod_cast hn
    unfold readFloats
    rw [if_pos this]
    simp
  have r3 : readFloats (data 3) 0 n = some ((data 3).take n) := by
    have : (0 : Int) ≤ 0 ∧ (0 : Int) + (n : Int) ≤ ((data 3).length : Int) := by
      rw [h3]; constructor
      · exact le_refl _
      · rw [zero_add]; exact_mod_cast hn
    unfold readFloats
    rw [if_pos this]
    simp
  have l2 : ((data 2).take n).length = n := by rw [List.length_take, h2]; omega
  have l3 : ((data 3).take n).length = n := by rw [List.length_take, h3]; omega
  have w2 : writeFloats (data 2) 0 ((data 3).take n) =
      some ((data 3).take n ++ (data 2).drop n) := by
    have : (0 : Int) ≤ 0 ∧ (0 : Int) + ((List.take n (data 3)).length : Int) ≤
        ((data 2).length : Int) := by
      rw [l3, h2]; constructor
      · exact le_refl _
      · rw [zero_add]; exact_mod_cast hn
    unfold writeFloats
    rw [if_pos this, l3]
    simp
  have w3 : writeFloats (data 3) 0 ((data 2).take n) =
      some ((data 2).take n ++ (data 3).drop n) := by
    have : (0 : Int) ≤ 0 ∧ (0 : Int) + ((List.take n (data 2)).length : Int) ≤
        ((data 3).length : Int) := by
      rw [l2, h3]; constructor
      · exact le_refl _
      · rw [zero_add]; exact_mod_cast hn
    unfold writeFloats
    rw [if_pos this, l2]
    simp
  simp only [memcpy, r2, r3, w2, w3, Option.bind_eq_bind, Option.some_bind,
    Option.bind_some]

theorem flipYsides_eq (size nc : Nat) (data : Nat → List α)
    (hb : size * size * nc < 1073741824)
    (h2 : (data 2).length = size * size * nc) (h3 : (data 3).length = size * size * nc) :
    flipYsides data size nc = some (fun g => data (sideOf g)) := by
  have e : Function.update (Function.update data 2 (data 3)) 3 (data 2) =
      fun g => data (sideOf g) := by
    funext g
    unfold sideOf
    by_cases g3 : g = 3
    · subst g3; simp
    · by_cases g2 : g = 2
      · subst g2; simp
      · simp [g2, g3]
  have hn : wrapU32 (size * size * nc * 4) / 4 = size * size * nc := by
    unfold wrapU32; omega
  rw [flipYsides_front size nc data h2 h3, hn]
  have t2 : (data 2).take (size * size * nc) = data 2 := by rw [← h2]; exact List.take_length _
  have t3 : (data 3).take (size * size * nc) = data 3 := by rw [← h3]; exact List.take_length _
  have d2 : (data 2).drop (size * size * nc) = [] := by rw [← h2]; exact List.drop_length _
  have d3 : (data 3).drop (size * size * nc) = [] := by rw [← h3]; exact List.drop_length _
  rw [t2, t3, d2, d3, List.append_nil, List.append_nil, e]

theorem flipY_eq (size nc : Nat) (data : Nat → List α) (flip_sides : Bool)
    (hb : size * size * nc < 2147483648)
    (hs : flip_sides = true → size * size * nc < 1073741824)
    (hlen : ∀ f, f < 6 → (data f).length = size * size * nc) :
    flipY data size nc flip_sides =
      some (if flip_sides then fun g => flipFaces size nc data (sideOf g)
        else flipFaces size nc data) := by
  obtain ⟨s, hs1, hd⟩ := flipYLoop_faces size nc data hb hlen
  have hl := flipFaces_length size nc data hlen
  show (flipYLoop size nc _).bind _ = _
  rw [hs1]
  cases flip_sides with
  | false => simp [hd]
  | true =>
    show flipYsides s.data size nc = _
    rw [hd]
    simp only [if_true]
    exact flipYsides_eq size nc _ (hs rfl) (hl 2 (by omega)) (hl 3 (by omega))

/-! ## The copy loops of load -/

theorem splice_set (A orig : List α) (n : Nat) (v : α) (hA : A.length = n)
    (hn : n < orig.length) :
    (A ++ orig.drop n).set n v = A ++ [v] ++ orig.drop (n + 1) := by
  rw [List.set_append_right n v (by omega), hA, Nat.sub_self,
    List.drop_eq_getElem_cons hn, List.set_cons_zero]
  simp

theorem storeAt_splice (A orig : List α) (n : Nat) (v : α) (hA : A.length = n)
    (hn : n < orig.length) :
    storeAt (A ++ orig.drop n) n v = some (A ++ [v] ++ orig.drop (n + 1)) := by
  unfold storeAt
  rw [if_pos (by simp [hA]; omega), splice_set A orig n v hA hn]

theorem copyLoop_spec (data : List α) (mapOffset faceSize j : Nat) (s0 : CopyState α)
    (hpix : (s0.pixels_i j).length = faceSize)
    (hfa : s0.facePixel + faceSize ≤ s0.faces_i.length)
    (hdata : mapOffset + s0.faceOffset + faceSize ≤ data.length) :
    ∃ s, forLoop (copyBody data mapOffset j) faceSize 0 s0 = some s ∧
      s.faceOffset = s0.faceOffset ∧ s.facePixel = s0.facePixel + faceSize ∧
      s.pixels_i = Function.update s0.pixels_i j
        ((data.drop (mapOffset + s0.faceOffset)).take faceSize) ∧
      s.faces_i = s0.faces_i.take s0.facePixel ++
        (data.drop (mapOffset + s0.faceOffset)).take faceSize ++
        s0.faces_i.drop (s0.facePixel + faceSize) := by
  have key := forLoop_inv (copyBody data mapOffset j)
    (fun k (s : CopyState α) =>
      s.faceOffset = s0.faceOffset ∧ s.facePixel = s0.facePixel + k ∧
      s.pixels_i = Function.update s0.pixels_i j
        ((data.drop (mapOffset + s0.faceOffset)).take k ++ (s0.pixels_i j).drop k) ∧
      s.faces_i = (s0.faces_i.take s0.facePixel ++
        (data.drop (mapOffset + s0.faceOffset)).take k) ++
        s0.faces_i.drop (s0.facePixel + k))
    faceSize 0 s0
    (by
      refine ⟨rfl, rfl, ?_, ?_⟩
      · simp
      · simp)
    (by
      intro k s1 _ hk ⟨ho, hp, hpx, hf⟩
      have hk' : k < faceSize := by omega
      have hidx : mapOffset + s0.faceOffset + k < data.length := by omega
      have hval : data[mapOffset + s1.faceOffset + k]? = some data[mapOffset + s0.faceOffset + k] := by
        rw [ho]; exact List.getElem?_eq_getElem hidx
      have hslice : ((data.drop (mapOffset + s0.faceOffset)).take k).length = k := by
        rw [List.length_take, List.length_drop]; omega
      have hsucc : (data.drop (mapOffset + s0.faceOffset)).take (k + 1) =
          (data.drop (mapOffset + s0.faceOffset)).take k ++ [data[mapOffset + s0.faceOffset + k]] := by
        rw [List.take_succ, List.getElem?_drop, List.getElem?_eq_getElem hidx]
        rfl
      have hst1 := storeAt_splice ((data.drop (mapOffset + s0.faceOffset)).take k)
        (s0.pixels_i j) k data[mapOffset + s0.faceOffset + k] hslice (by omega)
      have hst2 := storeAt_splice (s0.faces_i.take s0.facePixel ++
        (data.drop (mapOffset + s0.faceOffset)).take k) s0.faces_i (s0.facePixel + k)
        data[mapOffset + s0.faceOffset + k]
        (by rw [List.length_append, hslice, List.length_take]; omega) (by omega)
      refine ⟨⟨Function.update s1.pixels_i j
          ((data.drop (mapOffset + s0.faceOffset)).take (k + 1) ++ (s0.pixels_i j).drop (k + 1)),
          (s0.faces_i.take s0.facePixel ++ (data.drop (mapOffset + s0.faceOffset)).take (k + 1)) ++
            s0.faces_i.drop (s0.facePixel + (k + 1)),
          s1.faceOffset, s1.facePixel + 1⟩, ?_, ho, by simp [hp]; omega, ?_, rfl⟩
      · simp only [copyBody, hval, Option.bind_eq_bind, Option.some_bind, Option.bind_some]
        rw [hpx, Function.update_same, hst1, hf, hp, hst2, hsucc]
        simp [Nat.add_assoc]
      · show Function.update s1.pixels_i j _ = _
        rw [hpx, Function.update_idem])
  obtain ⟨s, hs, h1, h2, h3, h4⟩ := key
  refine ⟨s, hs, h1, by simpa using h2, ?_, ?_⟩
  · have hnil : (s0.pixels_i j).drop faceSize = [] := List.drop_of_length_le (by omega)
    rw [h3, Nat.zero_add, hnil, List.append_nil]
  · rw [h4, Nat.zero_add]

theorem drop_append_len (A R : List α) (n k : Nat) (hA : A.length = n) :
    (A ++ R).drop (n + k) = R.drop k := by
  subst hA; exact List.drop_append k

theorem newFloats_length (content : Nat → α) (n : Nat) : (newFloats content n).length = n := by
  simp [newFloats]

theorem faceLoop_spec (uninit : Buffer → Nat → α) (i : Nat) (data : List α)
    (mapOffset faceSize : Nat) (pix0 : Nat → List α) (fa0 : List α)
    (hfa0 : fa0.length = faceSize * N_FACES)
    (hdata : mapOffset + faceSize * N_FACES ≤ data.length) :
    ∃ c, forLoop (faceBody uninit i data mapOffset faceSize) N_FACES 0 ⟨pix0, fa0, 0, 0⟩ = some c ∧
      c.pixels_i = levelFaces data mapOffset faceSize pix0 ∧
      c.faces_i = levelSlice data mapOffset (faceSize * N_FACES) := by
  have key := forLoop_inv (faceBody uninit i data mapOffset faceSize)
    (fun j (s : CopyState α) =>
      s.faceOffset = j * faceSize ∧ s.facePixel = j * faceSize ∧
      s.pixels_i = (fun g => if g < j then faceSlice data mapOffset faceSize g else pix0 g) ∧
      s.faces_i = (data.drop mapOffset).take (j * faceSize) ++ fa0.drop (j * faceSize))
    N_FACES 0 ⟨pix0, fa0, 0, 0⟩
    (by
      refine ⟨by simp, by simp, ?_, ?_⟩
      · funext g; simp
      · simp)
    (by
      intro j s1 _ hj ⟨ho, hp, hpx, hf⟩
      obtain ⟨px, fa, fo, fp⟩ := s1
      simp only at ho hp hpx hf
      subst ho hp hpx hf
      simp only [N_FACES] at hj hdata hfa0 ⊢
      have hj1 : (j + 1) * faceSize = j * faceSize + faceSize := Nat.succ_mul j faceSize
      have hj6 : (j + 1) * faceSize ≤ 6 * faceSize := Nat.mul_le_mul_right faceSize (by omega)
      have htake : ((data.drop mapOffset).take (j * faceSize)).length = j * faceSize := by
        rw [List.length_take, List.length_drop]; omega
      obtain ⟨s2, hs2, h1, h2, h3, h4⟩ := copyLoop_spec data mapOffset faceSize j
        ⟨Function.update (fun g => if g < j then faceSlice data mapOffset faceSize g else pix0 g) j
            (newFloats (uninit (Buffer.pixels i j)) faceSize),
          (data.drop mapOffset).take (j * faceSize) ++ fa0.drop (j * faceSize),
          j * faceSize, j * faceSize⟩
        (by simp [newFloats_length])
        (by simp only [List.length_append, htake, List.length_drop]; omega)
        (by simp only; omega)
      simp only at h1 h2 h3 h4
      refine ⟨⟨s2.pixels_i, s2.faces_i, s2.faceOffset + faceSize, s2.facePixel⟩, ?_, ?_, ?_, ?_, ?_⟩
      · simp only [faceBody, hs2, Option.bind_eq_bind, Option.some_bind, Option.bind_some]
      · simp only [h1, hj1]
      · simp only [h2, hj1]
      · simp only [h3, Function.update_idem]
        funext g
        rw [Function.update_apply]
        by_cases hg : g = j
        · subst hg; simp [faceSlice]
        · by_cases hlt : g < j
          · have : g < j + 1 := by omega
            simp [hg, hlt, this]
          · have : ¬ g < j + 1 := by omega
            simp [hg, hlt, this]
      · rw [h4, List.take_left' htake, drop_append_len _ _ _ _ htake, List.drop_drop, hj1,
          List.take_add, List.drop_drop])
  obtain ⟨c, hc, _, _, h3, h4⟩ := key
  refine ⟨c, hc, ?_, ?_⟩
  · rw [h3]; funext g; simp [levelFaces]
  · rw [h4]
    have hnil : fa0.drop ((0 + N_FACES) * faceSize) = [] :=
      List.drop_of_length_le (by simp only [N_FACES] at hfa0 ⊢; omega)
    rw [hnil]
    simp [levelSlice, Nat.mul_comm]

/-! ## The size of the raw buffer -/

theorem freadFloats_length (content : Nat → α) (payload : List α) (n : Nat) :
    (freadFloats content payload n).length = n := by
  simp [freadFloats, newFloats_length]; omega

theorem freadFloats_full (content : Nat → α) (payload : List α) (n : Nat)
    (h : payload.length = n) : freadFloats content payload n = payload := by
  have hnil : (newFloats content n).drop payload.length = [] :=
    List.drop_of_length_le (by rw [newFloats_length, h])
  rw [freadFloats, hnil, List.append_nil, ← h, List.take_length]

theorem levelOffset_mono (width numChannels : Nat) :
    ∀ n i, i ≤ n → levelOffset width numChannels i ≤ levelOffset width numChannels n := by
  intro n
  induction n with
  | zero => intro i hi; have : i = 0 := by omega
            subst this; exact le_refl _
  | succ n ih =>
    intro i hi
    by_cases h : i = n + 1
    · subst h; exact le_refl _
    · have := ih i (by omega)
      simp only [levelOffset]; omega

theorem levelOffset_succ_le (width numChannels n i : Nat) (hi : i < n) :
    levelOffset width numChannels i +
      levelWidth width i * levelWidth width i * numChannels * N_FACES ≤
      levelOffset width numChannels n :=
  levelOffset_mono width numChannels n (i + 1) hi

theorem faceSlice_length (data : List α) (off faceSize g : Nat) (hg : g < N_FACES)
    (h : off + faceSize * N_FACES ≤ data.length) :
    (faceSlice data off faceSize g).length = faceSize := by
  simp only [N_FACES] at hg h
  have h1 : (g + 1) * faceSize ≤ 6 * faceSize := Nat.mul_le_mul_right faceSize (by omega)
  have h2 : (g + 1) * faceSize = g * faceSize + faceSize := Nat.succ_mul g faceSize
  simp only [faceSlice, List.length_take, List.length_drop]
  omega

theorem levelOffset_succ (width numChannels i : Nat) :
    levelOffset width numChannels (i + 1) =
      levelOffset width numChannels i +
        levelWidth width i * levelWidth width i * numChannels * N_FACES := rfl

theorem dataSizeStep_eq (width numChannels k : Nat)
    (h1 : levelWidth width k * levelWidth width k * N_FACES < 2147483648)
    (h2 : levelOffset width numChannels (k + 1) < 2147483648) :
    (do
      let ww ← checkedInt (levelWidth width k * levelWidth width k)
      let wwf ← checkedInt (ww * N_FACES)
      let levelSize ← checkedInt (wwf * numChannels)
      let dataSize ← checkedInt (levelOffset width numChannels k + levelSize)
      some (dataSize, levelWidth width (k + 1))) =
    some (levelOffset width numChannels (k + 1), levelWidth width (k + 1)) := by
  rw [levelOffset_succ] at h2
  have e : levelWidth width k * levelWidth width k * N_FACES * numChannels =
      levelWidth width k * levelWidth width k * numChannels * N_FACES :=
    Nat.mul_right_comm _ _ _
  simp only [N_FACES] at h1 h2 e
  have c1 := checkedInt_of_lt (levelWidth width k * levelWidth width k) (by omega)
  have c2 := checkedInt_of_lt (levelWidth width k * levelWidth width k * 6) h1
  have c3 := checkedInt_of_lt (levelWidth width k * levelWidth width k * 6 * numChannels)
    (by omega)
  have c4 := checkedInt_of_lt (levelOffset width numChannels k +
    levelWidth width k * levelWidth width k * 6 * numChannels) (by omega)
  simp only [N_FACES, c1, c2, c3, c4, Option.bind_eq_bind, Option.some_bind, levelOffset_succ]
  rw [e]

theorem dataSizeLoop_eq (nLevels width numChannels : Nat)
    (hfit : noOverflow nLevels width numChannels) :
    dataSizeLoop nLevels width numChannels =
      some (levelOffset width numChannels nLevels, levelWidth width nLevels) := by
  have key := forLoop_inv
    (fun i (st : Nat × Nat) => do
      let ww ← checkedInt (st.2 * st.2)
      let wwf ← checkedInt (ww * N_FACES)
      let levelSize ← checkedInt (wwf * numChannels)
      let dataSize ← checkedInt (st.1 + levelSize)
      some (dataSize, levelWidth width (i + 1)))
    (fun i st => st = (levelOffset width numChannels i, levelWidth width i))
    nLevels 0 (0, width)
    (by simp [levelOffset, levelWidth])
    (by
      intro k st _ hk hst
      subst hst
      obtain ⟨h1, h2⟩ := hfit k (by omega)
      exact ⟨_, dataSizeStep_eq width numChannels k h1 h2, rfl⟩)
  obtain ⟨st, hst, hinv⟩ := key
  rw [Nat.zero_add] at hinv
  rw [← hinv, ← hst]
  rfl

theorem dataSizeLoop_some (nLevels width numChannels : Nat) (st : Nat × Nat)
    (h : dataSizeLoop nLevels width numChannels = some st) :
    noOverflow nLevels width numChannels := by
  have key := forLoop_some_idx
    (fun i (st : Nat × Nat) => do
      let ww ← checkedInt (st.2 * st.2)
      let wwf ← checkedInt (ww * N_FACES)
      let levelSize ← checkedInt (wwf * numChannels)
      let dataSize ← checkedInt (st.1 + levelSize)
      some (dataSize, levelWidth width (i + 1)))
    (fun i st => st = (levelOffset width numChannels i, levelWidth width i) ∧
      noOverflow i width numChannels)
    (by
      intro k s s1 hb ⟨hs, hfit⟩
      subst hs
      simp only [Option.bind_eq_bind, Option.bind_eq_some] at hb
      obtain ⟨a, ha, b, hb1, c, hc, d, hd, heq⟩ := hb
      obtain ⟨ea, la⟩ := checkedInt_eq_some _ _ ha
      subst ea
      obtain ⟨eb, lb⟩ := checkedInt_eq_some _ _ hb1
      subst eb
      obtain ⟨ec, lc⟩ := checkedInt_eq_some _ _ hc
      subst ec
      obtain ⟨ed, ld⟩ := checkedInt_eq_some _ _ hd
      subst ed
      have e : levelWidth width k * levelWidth width k * N_FACES * numChannels =
          levelWidth width k * levelWidth width k * numChannels * N_FACES :=
        Nat.mul_right_comm _ _ _
      simp only [Option.some.injEq] at heq
      refine ⟨?_, ?_⟩
      · rw [← heq, levelOffset_succ, e]
      · intro i hi
        by_cases hik : i = k
        · subst hik
          refine ⟨lb, ?_⟩
          rw [levelOffset_succ, ← e]; exact ld
        · exact hfit i (by omega))
    nLevels 0 (0, width) st h
    ⟨by simp [levelOffset, levelWidth], fun i hi => absurd hi (Nat.not_lt_zero i)⟩
  rw [Nat.zero_add] at key
  exact key.2

theorem loadDataSize_eq (nLevels width numChannels : Nat)
    (hfit : noOverflow nLevels width numChannels) :
    loadDataSize nLevels width numChannels = some (levelOffset width numChannels nLevels) := by
  simp [loadDataSize, dataSizeLoop_eq nLevels width numChannels hfit]

theorem loadDataSize_some (nLevels width numChannels dataSize : Nat)
    (h : loadDataSize nLevels width numChannels = some dataSize) :
    noOverflow nLevels width numChannels ∧ dataSize = levelOffset width numChannels nLevels := by
  unfold loadDataSize at h
  cases hl : dataSizeLoop nLevels width numChannels with
  | none => rw [hl] at h; simp at h
  | some st =>
    have hfit := dataSizeLoop_some nLevels width numChannels st hl
    refine ⟨hfit, ?_⟩
    rw [dataSizeLoop_eq nLevels width numChannels hfit] at h
    simpa using h.symm

/-! ## The level loop of load -/

theorem levelSizes_eq (w numChannels : Nat) (hww : w * w < 2147483648)
    (hm : w * w * numChannels * N_FACES < 2147483648) :
    levelSizes w numChannels = some (w * w * numChannels, w * w * numChannels * N_FACES) := by
  simp only [N_FACES] at hm
  have c1 := checkedInt_of_lt (w * w) hww
  have c2 := checkedInt_of_lt (w * w * numChannels) (by omega)
  have c3 := checkedInt_of_lt (w * w * numChannels * 6) hm
  simp only [levelSizes, N_FACES, c1, c2, c3, Option.bind_eq_bind, Option.some_bind]

theorem levelBody_spec (uninit : Buffer → Nat → α) (HDREHeader : sHDREHeader) (i : Nat)
    (s : LevelState α) (data : List α) (hd : s.self.data = some data)
    (hnc : s.self.numChannels = HDREHeader.numChannels)
    (hww : s.w * s.w < 2147483648)
    (hfit : s.mapOffset + s.w * s.w * HDREHeader.numChannels * N_FACES < 2147483648)
    (hlen : s.mapOffset + s.w * s.w * HDREHeader.numChannels * N_FACES ≤ data.length) :
    levelBody uninit HDREHeader i s =
      some ⟨{ s.self with
          faces_array := Function.update s.self.faces_array i
            (levelSlice data s.mapOffset (s.w * s.w * HDREHeader.numChannels * N_FACES))
          pixels := Function.update s.self.pixels i
            (orient s.self.version i s.w HDREHeader.numChannels
              (levelFaces data s.mapOffset (s.w * s.w * HDREHeader.numChannels)
                (s.self.pixels i))) },
        levelWidth HDREHeader.width (i + 1),
        s.mapOffset + s.w * s.w * HDREHeader.numChannels * N_FACES⟩ := by
  obtain ⟨c, hc, hpx, hfa⟩ := faceLoop_spec uninit i data s.mapOffset
    (s.w * s.w * HDREHeader.numChannels) (s.self.pixels i)
    (newFloats (uninit (Buffer.faces_array i)) (s.w * s.w * HDREHeader.numChannels * N_FACES))
    (newFloats_length _ _) hlen
  have hflen : ∀ f, f < 6 →
      (levelFaces data s.mapOffset (s.w * s.w * HDREHeader.numChannels) (s.self.pixels i) f).length =
        s.w * s.w * HDREHeader.numChannels := by
    intro f hf
    have hf6 : f < N_FACES := hf
    simp only [levelFaces, if_pos hf6]
    exact faceSlice_length data _ _ f hf6 hlen
  have hF : s.w * s.w * HDREHeader.numChannels < 1073741824 := by
    simp only [N_FACES] at hfit; omega
  have hflip := fun b => flipY_eq s.w HDREHeader.numChannels
    (levelFaces data s.mapOffset (s.w * s.w * HDREHeader.numChannels) (s.self.pixels i)) b
    (by omega) (fun _ => hF) hflen
  have hsz := levelSizes_eq s.w HDREHeader.numChannels hww (by omega)
  have hmo := checkedInt_of_lt _ hfit
  simp only [levelBody, hsz, hd, hc, hnc, hpx, hfa, hflip, hmo, Option.bind_eq_bind,
    Option.some_bind, Option.bind_some, orient]
  by_cases hv : s.self.version < 3
  · simp [hv]
  · by_cases hi : i = 0
    · simp [hv, hi]
    · simp [hv, hi]
theorem loadFields_data (dataSize : Nat) (uninit : Buffer → Nat → α) (self : HDRE α)
    (file : HDREFile α) :
    (loadFields dataSize uninit self file).data =
      some (freadFloats (uninit Buffer.data) file.payload dataSize) := by
  simp only [loadFields]

theorem loadFields_version (dataSize : Nat) (uninit : Buffer → Nat → α) (self : HDRE α)
    (file : HDREFile α) :
    (loadFields dataSize uninit self file).version = file.header.version := by
  simp only [loadFields]
  split <;> rfl

theorem loadFields_numChannels (dataSize : Nat) (uninit : Buffer → Nat → α) (self : HDRE α)
    (file : HDREFile α) :
    (loadFields dataSize uninit self file).numChannels = file.header.numChannels := by
  simp only [loadFields]
  split <;> rfl

theorem loadFields_width (dataSize : Nat) (uninit : Buffer → Nat → α) (self : HDRE α)
    (file : HDREFile α) :
    (loadFields dataSize uninit self file).width = file.header.width := by
  simp only [loadFields]

theorem loadFields_faces_array (dataSize : Nat) (uninit : Buffer → Nat → α) (self : HDRE α)
    (file : HDREFile α) :
    (loadFields dataSize uninit self file).faces_array = self.faces_array := by
  simp only [loadFields]
  split <;> rfl

theorem loadFields_pixels (dataSize : Nat) (uninit : Buffer → Nat → α) (self : HDRE α)
    (file : HDREFile α) :
    (loadFields dataSize uninit self file).pixels = self.pixels := by
  simp only [loadFields]
  split <;> rfl

theorem loadedLevels_zero (nLevels : Nat) (uninit : Buffer → Nat → α) (self : HDRE α)
    (file : HDREFile α) :
    loadedLevels nLevels uninit self file 0 =
      loadFields (levelOffset file.header.width file.header.numChannels nLevels) uninit self
        file := by
  have h1 := loadFields_faces_array
    (levelOffset file.header.width file.header.numChannels nLevels) uninit self file
  have h2 := loadFields_pixels
    (levelOffset file.header.width file.header.numChannels nLevels) uninit self file
  simp only [loadedLevels, Nat.not_lt_zero, if_false]
  rw [← h1, ← h2]

theorem loadedLevels_data (nLevels : Nat) (uninit : Buffer → Nat → α) (self : HDRE α)
    (file : HDREFile α) (n : Nat) :
    (loadedLevels nLevels uninit self file n).data =
      some (freadFloats (uninit Buffer.data) file.payload
        (levelOffset file.header.width file.header.numChannels nLevels)) := by
  simp only [loadedLevels]; exact loadFields_data _ uninit self file

theorem loadedLevels_succ (nLevels : Nat) (uninit : Buffer → Nat → α) (self : HDRE α)
    (file : HDREFile α) (k : Nat) :
    { loadedLevels nLevels uninit self file k with
      faces_array := Function.update (loadedLevels nLevels uninit self file k).faces_array k
        (levelSlice
          (freadFloats (uninit Buffer.data) file.payload
            (levelOffset file.header.width file.header.numChannels nLevels))
          (levelOffset file.header.width file.header.numChannels k)
          (levelWidth file.header.width k * levelWidth file.header.width k *
            file.header.numChannels * N_FACES))
      pixels := Function.update (loadedLevels nLevels uninit self file k).pixels k
        (orient (loadedLevels nLevels uninit self file k).version k
          (levelWidth file.header.width k) file.header.numChannels
          (levelFaces
            (freadFloats (uninit Buffer.data) file.payload
              (levelOffset file.header.width file.header.numChannels nLevels))
            (levelOffset file.header.width file.header.numChannels k)
            (levelWidth file.header.width k * levelWidth file.header.width k *
              file.header.numChannels)
            ((loadedLevels nLevels uninit self file k).pixels k))) } =
      loadedLevels nLevels uninit self file (k + 1) := by
  have hv : (loadedLevels nLevels uninit self file k).version = file.header.version := by
    simp only [loadedLevels]; exact loadFields_version _ uninit self file
  rw [hv]
  simp only [loadedLevels]
  congr 1
  · funext lev
    rw [Function.update_apply]
    by_cases h1 : lev = k
    · subst h1; simp
    · by_cases h2 : lev < k
      · have : lev < k + 1 := by omega
        simp [h1, h2, this]
      · have : ¬ lev < k + 1 := by omega
        simp [h1, h2, this]
  · funext lev
    rw [Function.update_apply]
    by_cases h1 : lev = k
    · subst h1; simp
    · by_cases h2 : lev < k
      · have : lev < k + 1 := by omega
        simp [h1, h2, this]
      · have : ¬ lev < k + 1 := by omega
        simp [h1, h2, this]

theorem noOverflow_level (nLevels width numChannels i : Nat)
    (hfit : noOverflow nLevels width numChannels) (hi : i < nLevels) :
    levelWidth width i * levelWidth width i < 2147483648 ∧
      levelOffset width numChannels i +
        levelWidth width i * levelWidth width i * numChannels * N_FACES < 2147483648 ∧
      levelWidth width i * levelWidth width i * numChannels < 357913942 := by
  obtain ⟨h1, h2⟩ := hfit i hi
  rw [levelOffset_succ] at h2
  simp only [N_FACES] at h1 h2 ⊢
  omega

theorem loadLevels_eq (nLevels : Nat) (uninit : Buffer → Nat → α) (self : HDRE α)
    (file : HDREFile α) (hfit : noOverflow nLevels file.header.width file.header.numChannels) :
    ∀ n, n ≤ nLevels → loadLevels nLevels uninit self file n =
      some ⟨loadedLevels nLevels uninit self file n, levelWidth file.header.width n,
        levelOffset file.header.width file.header.numChannels n⟩ := by
  have key := fun n (hn : n ≤ nLevels) => forLoop_inv (levelBody uninit file.header)
    (fun i (s : LevelState α) =>
      s = ⟨loadedLevels nLevels uninit self file i, levelWidth file.header.width i,
        levelOffset file.header.width file.header.numChannels i⟩)
    n 0
    ⟨loadFields (levelOffset file.header.width file.header.numChannels nLevels) uninit self file,
      file.header.width, 0⟩
    (by simp [loadedLevels_zero, levelWidth, levelOffset])
    (by
      intro k s1 _ hk hs1
      subst hs1
      obtain ⟨b1, b2, _⟩ := noOverflow_level nLevels _ _ k hfit (by omega)
      have hlen : levelOffset file.header.width file.header.numChannels k +
          levelWidth file.header.width k * levelWidth file.header.width k *
            file.header.numChannels * N_FACES ≤
          (freadFloats (uninit Buffer.data) file.payload
            (levelOffset file.header.width file.header.numChannels nLevels)).length := by
        rw [freadFloats_length]
        exact levelOffset_succ_le _ _ nLevels k (by omega)
      have hstep := levelBody_spec uninit file.header k
        ⟨loadedLevels nLevels uninit self file k, levelWidth file.header.width k,
          levelOffset file.header.width file.header.numChannels k⟩
        (freadFloats (uninit Buffer.data) file.payload
          (levelOffset file.header.width file.header.numChannels nLevels))
        (loadedLevels_data nLevels uninit self file k)
        (by simp only [loadedLevels]; exact loadFields_numChannels _ uninit self file)
        b1 b2 hlen
      refine ⟨_, hstep, ?_⟩
      have hsucc := loadedLevels_succ nLevels uninit self file k
      simp only [LevelState.mk.injEq, levelOffset, and_true]
      exact hsucc)
  intro n hn
  obtain ⟨s, hs, hinv⟩ := key n hn
  simp only [loadLevels, loadDataSize_eq nLevels _ _ hfit, Option.bind_eq_bind, Option.some_bind]
  rw [hs, hinv]
  simp

theorem load_eq (nLevels : Nat) (uninit : Buffer → Nat → α) (fs : String → Option (HDREFile α))
    (self : HDRE α) (filename : String) (file : HDREFile α) (hfs : fs filename = some file)
    (htype : file.header.type = 3) (hver : 2 ≤ file.header.version)
    (hfit : noOverflow nLevels file.header.width file.header.numChannels) :
    load nLevels uninit fs self filename =
      some (true, loadedLevels nLevels uninit self file nLevels) := by
  have hv : ¬ file.header.version < 2 := not_lt.mpr hver
  simp only [load, hfs, htype, ne_eq, not_true_eq_false, if_false, hv,
    loadLevels_eq nLevels uninit self file hfit nLevels (le_refl _)]
  rfl

theorem load_accepted (nLevels : Nat) (uninit : Buffer → Nat → α)
    (fs : String → Option (HDREFile α)) (self : HDRE α) (filename : String)
    (file : HDREFile α) (hfs : fs filename = some file)
    (htype : file.header.type = 3) (hver : 2 ≤ file.header.version) :
    load nLevels uninit fs self filename =
      (loadLevels nLevels uninit self file nLevels).bind fun s => some (true, s.self) := by
  have hv : ¬ file.header.version < 2 := not_lt.mpr hver
  simp only [load, hfs, htype, ne_eq, not_true_eq_false, if_false, hv]

theorem load_true_fits (nLevels : Nat) (uninit : Buffer → Nat → α)
    (fs : String → Option (HDREFile α)) (self : HDRE α) (filename : String)
    (file : HDREFile α) (a : HDRE α) (hfs : fs filename = some file)
    (hload : load nLevels uninit fs self filename = some (true, a)) :
    file.header.type = 3 ∧ 2 ≤ file.header.version ∧
      noOverflow nLevels file.header.width file.header.numChannels ∧
      a = loadedLevels nLevels uninit self file nLevels := by
  have htype : file.header.type = 3 := by
    by_contra hne
    simp [load, hfs, hne] at hload
  have hver : 2 ≤ file.header.version := by
    by_contra hlt
    have hv : file.header.version < 2 := not_le.mp hlt
    simp [load, hfs, htype, hv] at hload
  have hfit : noOverflow nLevels file.header.width file.header.numChannels := by
    rw [load_accepted nLevels uninit fs self filename file hfs htype hver] at hload
    cases hd : loadDataSize nLevels file.header.width file.header.numChannels with
    | none => simp [loadLevels, hd] at hload
    | some d => exact (loadDataSize_some _ _ _ d hd).1
  refine ⟨htype, hver, hfit, ?_⟩
  rw [load_eq nLevels uninit fs self filename file hfs htype hver hfit] at hload
  simpa using hload.symm

theorem load_overflow_undefined (nLevels : Nat) (uninit : Buffer → Nat → α)
    (fs : String → Option (HDREFile α)) (self : HDRE α) (filename : String)
    (file : HDREFile α) (hfs : fs filename = some file)
    (htype : file.header.type = 3) (hver : 2 ≤ file.header.version)
    (hov : ¬ noOverflow nLevels file.header.width file.header.numChannels) :
    load nLevels uninit fs self filename = none := by
  rw [load_accepted nLevels uninit fs self filename file hfs htype hver]
  cases hd : loadDataSize nLevels file.header.width file.header.numChannels with
  | none => simp [loadLevels, hd]
  | some d => exact absurd (loadDataSize_some _ _ _ d hd).1 hov

/-! ## The loaded object, level by level -/

theorem loaded_pixels (nLevels : Nat) (uninit : Buffer → Nat → α) (self : HDRE α) (file : HDREFile α)
    (i : Nat) (hi : i < nLevels) :
    (loadedLevels nLevels uninit self file nLevels).pixels i =
      orient file.header.version i (levelWidth file.header.width i) file.header.numChannels
        (levelFaces
          (freadFloats (uninit Buffer.data) file.payload
            (levelOffset file.header.width file.header.numChannels nLevels))
          (levelOffset file.header.width file.header.numChannels i)
          (levelWidth file.header.width i * levelWidth file.header.width i *
            file.header.numChannels)
          (self.pixels i)) := by
  simp only [loadedLevels, if_pos hi]

theorem loaded_faces_array (nLevels : Nat) (uninit : Buffer → Nat → α) (self : HDRE α) (file : HDREFile α)
    (i : Nat) (hi : i < nLevels) :
    (loadedLevels nLevels uninit self file nLevels).faces_array i =
      levelSlice
        (freadFloats (uninit Buffer.data) file.payload
            (levelOffset file.header.width file.header.numChannels nLevels))
        (levelOffset file.header.width file.header.numChannels i)
        (levelWidth file.header.width i * levelWidth file.header.width i *
          file.header.numChannels * N_FACES) := by
  simp only [loadedLevels, if_pos hi]

theorem loaded_level_in_data (nLevels : Nat) (uninit : Buffer → Nat → α) (file : HDREFile α) (i : Nat)
    (hi : i < nLevels) :
    levelOffset file.header.width file.header.numChannels i +
        levelWidth file.header.width i * levelWidth file.header.width i *
          file.header.numChannels * N_FACES ≤
      (freadFloats (uninit Buffer.data) file.payload
            (levelOffset file.header.width file.header.numChannels nLevels)).length := by
  rw [freadFloats_length]
  exact levelOffset_succ_le _ _ nLevels i hi

theorem sideOf_lt (j : Nat) (hj : j < 6) : sideOf j < 6 := by
  unfold sideOf; split_ifs <;> omega

theorem levelFaces_length (data : List α) (off faceSize : Nat) (old : Nat → List α)
    (h : off + faceSize * N_FACES ≤ data.length) :
    ∀ f, f < 6 → (levelFaces data off faceSize old f).length = faceSize := by
  intro f hf
  have hf6 : f < N_FACES := hf
  simp only [levelFaces, if_pos hf6]
  exact faceSlice_length data off faceSize f hf6 h

theorem orient_length (version : ℚ) (i w nc : Nat) (faces : Nat → List α)
    (h : ∀ f, f < 6 → (faces f).length = w * w * nc) :
    ∀ j, j < 6 → (orient version i w nc faces j).length = w * w * nc := by
  intro j hj
  unfold orient
  split_ifs
  · exact flipFaces_length w nc faces h _ (sideOf_lt j hj)
  · exact flipFaces_length w nc faces h j hj
  · exact h j hj

theorem levelSlice_length (data : List α) (off mapSize : Nat) (h : off + mapSize ≤ data.length) :
    (levelSlice data off mapSize).length = mapSize := by
  simp only [levelSlice, List.length_take, List.length_drop]; omega

theorem faceSlice_getElem? (data : List α) (off faceSize j x : Nat) (hj : j < 6)
    (hx : x < faceSize) (h : off + faceSize * N_FACES ≤ data.length) :
    (faceSlice data off faceSize j)[x]? = data[off + j * faceSize + x]? ∧
      off + j * faceSize + x < data.length := by
  simp only [N_FACES] at h
  have h1 : (j + 1) * faceSize ≤ 6 * faceSize := Nat.mul_le_mul_right faceSize (by omega)
  have h2 : (j + 1) * faceSize = j * faceSize + faceSize := Nat.succ_mul j faceSize
  constructor
  · simp only [faceSlice]
    rw [List.getElem?_take_of_lt hx, List.getElem?_drop]
  · omega

theorem levelSlice_getElem? (data : List α) (off faceSize j x : Nat) (hj : j < 6)
    (hx : x < faceSize) :
    (levelSlice data off (faceSize * N_FACES))[j * faceSize + x]? =
      data[off + j * faceSize + x]? := by
  simp only [N_FACES]
  have h1 : (j + 1) * faceSize ≤ 6 * faceSize := Nat.mul_le_mul_right faceSize (by omega)
  have h2 : (j + 1) * faceSize = j * faceSize + faceSize := Nat.succ_mul j faceSize
  simp only [levelSlice]
  rw [List.getElem?_take_of_lt (by omega), List.getElem?_drop, Nat.add_assoc]

theorem flipped_slice_getElem? (data : List α) (off w nc : Nat) (old : Nat → List α)
    (g r c : Nat) (hg : g < 6) (hw : Even w ∨ w ≤ 1) (hr : r < w) (hc : c < w * nc)
    (h : off + w * w * nc * N_FACES ≤ data.length) :
    (flipFaces w nc (levelFaces data off (w * w * nc) old) g)[r * w * nc + c]? =
        data[off + g * (w * w * nc) + (w - 1 - r) * w * nc + c]? ∧
      off + g * (w * w * nc) + (w - 1 - r) * w * nc + c < data.length := by
  have hg6 : g < N_FACES := hg
  have hlen := faceSlice_length data off (w * w * nc) g hg6 h
  have hx : (w - 1 - r) * (w * nc) + c < w * w * nc := by
    have h1 : (w - 1 - r + 1) * (w * nc) ≤ w * (w * nc) := Nat.mul_le_mul_right _ (by omega)
    rw [Nat.succ_mul] at h1
    rw [Nat.mul_assoc]; omega
  obtain ⟨e1, e2⟩ := faceSlice_getElem? data off (w * w * nc) g _ hg hx h
  simp only [flipFaces, if_pos hg, levelFaces, if_pos hg6]
  rw [flipFace_even w nc g _ hw, Nat.mul_assoc r w nc, Nat.mul_assoc (w - 1 - r) w nc,
    reverse_rows_getElem? w nc _ r c hlen hr hc, e1]
  exact ⟨by congr 1; omega, by omega⟩

/-! ## flipY at a given iteration -/

theorem flipYLoop_upto (size nc : Nat) (data : Nat → List α) (rowsFn : Nat → List (List α))
    (hb : size * size * nc < 2147483648)
    (hdata : ∀ g, g < 6 → data g = (rowsFn g).flatten)
    (hlen : ∀ g, g < 6 → (rowsFn g).length = size)
    (hrows : ∀ g, g < 6 → ∀ r ∈ rowsFn g, r.length = size * nc) (n : Nat) (hn : n ≤ 6) :
    ∃ s, forLoop (fun f s1 => forLoop (fun _ s2 => flipYBody size nc f s2) (size / 2) 0 s1)
        n 0 ⟨data, 0, flipYLast size nc⟩ = some s ∧
      s.pos = ((rowAt (size - 1) (n * (size / 2)) * (size * nc) : Nat) : Int) ∧
      s.lastpos =
        (((size - 1 - rowAt (size - 1) (n * (size / 2))) * (size * nc) : Nat) : Int) ∧
      ∀ h, s.data h =
        if h < n then (permRows (facePerm size h) (rowsFn h)).flatten else data h := by
  have hreset : flipYLast size nc =
      (((size - 1 - rowAt (size - 1) 0) * (size * nc) : Nat) : Int) := by
    rw [flipYLast_eq size nc hb]; simp [rowAt]
  have key := forLoop_inv
    (fun f s1 => forLoop (fun _ s2 => flipYBody size nc f s2) (size / 2) 0 s1)
    (fun g (s : FlipState α) =>
      s.pos = ((rowAt (size - 1) (g * (size / 2)) * (size * nc) : Nat) : Int) ∧
      s.lastpos =
        (((size - 1 - rowAt (size - 1) (g * (size / 2))) * (size * nc) : Nat) : Int) ∧
      ∀ h, s.data h =
        if h < g then (permRows (facePerm size h) (rowsFn h)).flatten else data h)
    n 0 ⟨data, 0, flipYLast size nc⟩
    (by
      refine ⟨by simp [rowAt], ?_, fun h => by simp⟩
      show flipYLast size nc = _
      rw [hreset]; simp)
    (by
      intro g s1 _ hg ⟨hpos, hlast, hd⟩
      obtain ⟨d, ps, lp⟩ := s1
      simp only at hpos hlast hd
      subst hpos hlast
      have hg6 : g < 6 := by omega
      obtain ⟨s2, hs2, hp2, hl2, hd2⟩ := flipY_inner size nc g (g * (size / 2)) d (rowsFn g) hb
        (by rw [hd g, if_neg (lt_irrefl g)]; exact hdata g hg6) (hlen g hg6) (hrows g hg6)
        (size / 2) (by intro h; omega)
      refine ⟨s2, hs2, ?_, ?_, ?_⟩
      · rw [hp2, Nat.succ_mul]
      · rw [hl2, Nat.succ_mul]
      · intro h
        rw [hd2, Function.update_apply]
        by_cases hh : h = g
        · subst hh; simp [facePerm]
        · rw [if_neg hh, hd h]
          by_cases h1 : h < g
          · have : h < g + 1 := by omega
            simp [h1, this]
          · have : ¬ h < g + 1 := by omega
            simp [h1, this])
  obtain ⟨s, hs, h1, h2, h3⟩ := key
  refine ⟨s, hs, ?_, ?_, ?_⟩
  · simpa using h1
  · simpa using h2
  · intro h; simpa using h3 h

theorem flipYAt_rows (size nc : Nat) (data : Nat → List α)
    (hb : size * size * nc < 2147483648)
    (hlen : ∀ f, f < 6 → (data f).length = size * size * nc) (f i : Nat) (hf : f < 6)
    (hi : i < size / 2) :
    ∃ (s : FlipState α) (rows : List (List α)), flipYAt size nc data f i = some s ∧
      s.pos = ((rowAt (size - 1) (f * (size / 2) + i) * (size * nc) : Nat) : Int) ∧
      s.lastpos =
        (((size - 1 - rowAt (size - 1) (f * (size / 2) + i)) * (size * nc) : Nat) : Int) ∧
      s.data f = rows.flatten ∧ rows.length = size ∧ ∀ r ∈ rows, r.length = size * nc := by
  have hl : ∀ g, g < 6 → (data g).length = size * (size * nc) := by
    intro g hg; rw [hlen g hg, Nat.mul_assoc]
  obtain ⟨s1, hs1, hp1, hq1, hd1⟩ := flipYLoop_upto size nc data
    (fun g => toRows (size * nc) size (data g)) hb
    (fun g hg => (toRows_flatten _ _ _ (hl g hg)).symm)
    (fun g _ => toRows_length _ _ _)
    (fun g hg => toRows_row_length _ _ _ (hl g hg)) f (by omega)
  obtain ⟨d, ps, lp⟩ := s1
  simp only at hp1 hq1 hd1
  subst hp1 hq1
  have hdf : d f = (toRows (size * nc) size (data f)).flatten := by
    rw [hd1 f, if_neg (lt_irrefl f)]; exact (toRows_flatten _ _ _ (hl f hf)).symm
  obtain ⟨s2, hs2, hp2, hq2, hd2⟩ := flipY_inner size nc f (f * (size / 2)) d
    (toRows (size * nc) size (data f)) hb hdf (toRows_length _ _ _)
    (toRows_row_length _ _ _ (hl f hf)) i (by intro _; omega)
  have hσ := mirrorLike_stepPerm (size - 1) (f * (size / 2)) i
  refine ⟨s2, permRows (stepPerm (size - 1) (f * (size / 2)) i)
    (toRows (size * nc) size (data f)), ?_, hp2, hq2, ?_, ?_, ?_⟩
  · simp only [flipYAt, hs1, Option.bind_some]
    exact hs2
  · rw [hd2, Function.update_same]
  · rw [permRows_length, toRows_length]
  · apply permRows_row_length _ _ _ (toRows_row_length _ _ _ (hl f hf))
    intro j hj
    rw [toRows_length] at hj ⊢
    have := mirrorLike_le (size - 1) _ hσ j (by omega)
    omega

/-! ## load at a given iteration -/

theorem copyLoop_upto (data : List α) (mapOffset faceSize j : Nat) (s0 : CopyState α)
    (hpix : (s0.pixels_i j).length = faceSize)
    (hfa : s0.facePixel + faceSize ≤ s0.faces_i.length)
    (hdata : mapOffset + s0.faceOffset + faceSize ≤ data.length) (n : Nat)
    (hn : n ≤ faceSize) :
    ∃ s, forLoop (copyBody data mapOffset j) n 0 s0 = some s ∧
      s.faceOffset = s0.faceOffset ∧ s.facePixel = s0.facePixel + n ∧
      (s.pixels_i j).length = faceSize ∧ s.faces_i.length = s0.faces_i.length := by
  have key := forLoop_inv (copyBody data mapOffset j)
    (fun k (s : CopyState α) =>
      s.faceOffset = s0.faceOffset ∧ s.facePixel = s0.facePixel + k ∧
      (s.pixels_i j).length = faceSize ∧ s.faces_i.length = s0.faces_i.length)
    n 0 s0 ⟨rfl, rfl, hpix, rfl⟩
    (by
      intro k s1 _ hk ⟨ho, hp, hpx, hf⟩
      have hidx : mapOffset + s1.faceOffset + k < data.length := by rw [ho]; omega
      have h1 : storeAt (s1.pixels_i j) k data[mapOffset + s1.faceOffset + k] =
          some ((s1.pixels_i j).set k data[mapOffset + s1.faceOffset + k]) := by
        unfold storeAt; rw [if_pos (by omega)]
      have h2 : storeAt s1.faces_i s1.facePixel data[mapOffset + s1.faceOffset + k] =
          some (s1.faces_i.set s1.facePixel data[mapOffset + s1.faceOffset + k]) := by
        unfold storeAt; rw [if_pos (by omega)]
      refine ⟨⟨Function.update s1.pixels_i j
          ((s1.pixels_i j).set k data[mapOffset + s1.faceOffset + k]),
          s1.faces_i.set s1.facePixel data[mapOffset + s1.faceOffset + k],
          s1.faceOffset, s1.facePixel + 1⟩, ?_, ?_⟩
      · simp only [copyBody, List.getElem?_eq_getElem hidx, h1, h2, Option.bind_eq_bind,
          Option.some_bind, Option.bind_some]
      · refine ⟨ho, by simp only [hp]; omega, ?_, ?_⟩
        · simp only [Function.update_same, List.length_set, hpx]
        · simp only [List.length_set, hf])
  obtain ⟨s, hs, h1, h2, h3, h4⟩ := key
  exact ⟨s, hs, h1, by simpa using h2, h3, h4⟩

theorem faceLoop_upto (uninit : Buffer → Nat → α) (i : Nat) (data : List α)
    (mapOffset faceSize : Nat) (pix0 : Nat → List α) (fa0 : List α)
    (hfa0 : fa0.length = faceSize * N_FACES)
    (hdata : mapOffset + faceSize * N_FACES ≤ data.length) (n : Nat)
    (hn : n ≤ N_FACES) :
    ∃ c, forLoop (faceBody uninit i data mapOffset faceSize) n 0 ⟨pix0, fa0, 0, 0⟩ = some c ∧
      c.faceOffset = n * faceSize ∧ c.facePixel = n * faceSize ∧
      c.faces_i.length = faceSize * N_FACES := by
  have key := forLoop_inv (faceBody uninit i data mapOffset faceSize)
    (fun j (s : CopyState α) =>
      s.faceOffset = j * faceSize ∧ s.facePixel = j * faceSize ∧
      s.faces_i.length = faceSize * N_FACES)
    n 0 ⟨pix0, fa0, 0, 0⟩
    ⟨by simp, by simp, hfa0⟩
    (by
      intro j s1 _ hj ⟨ho, hp, hf⟩
      simp only [N_FACES] at hn hdata hf
      have hj1 : (j + 1) * faceSize = j * faceSize + faceSize := Nat.succ_mul j faceSize
      have hj6 : (j + 1) * faceSize ≤ 6 * faceSize := Nat.mul_le_mul_right faceSize (by omega)
      obtain ⟨s2, hs2, h1, h2, _, h4⟩ := copyLoop_upto data mapOffset faceSize j
        ⟨Function.update s1.pixels_i j (newFloats (uninit (Buffer.pixels i j)) faceSize),
          s1.faces_i, s1.faceOffset, s1.facePixel⟩
        (by simp [newFloats_length]) (by simp only [hp, hf]; omega) (by simp only [ho]; omega)
        faceSize (le_refl _)
      simp only at h1 h2 h4
      refine ⟨⟨s2.pixels_i, s2.faces_i, s2.faceOffset + faceSize, s2.facePixel⟩, ?_, ?_, ?_, ?_⟩
      · simp only [faceBody, hs2, Option.bind_eq_bind, Option.some_bind, Option.bind_some]
      · simp only [h1, ho, hj1]
      · simp only [h2, hp, hj1]
      · simp only [h4, hf, N_FACES])
  obtain ⟨c, hc, h1, h2, h3⟩ := key
  exact ⟨c, hc, by simpa using h1, by simpa using h2, h3⟩

theorem loadAt_spec (nLevels : Nat) (uninit : Buffer → Nat → α) (self : HDRE α)
    (file : HDREFile α) (hfit : noOverflow nLevels file.header.width file.header.numChannels)
    (i j k : Nat) (hi : i < nLevels) (hj : j < 6)
    (hk : k < levelWidth file.header.width i * levelWidth file.header.width i *
      file.header.numChannels) :
    ∃ (s : LevelState α) (c : CopyState α),
      loadAt nLevels uninit self file i j k = some (s, c) ∧
      s.self.data = some (freadFloats (uninit Buffer.data) file.payload
        (levelOffset file.header.width file.header.numChannels nLevels)) ∧
      s.mapOffset = levelOffset file.header.width file.header.numChannels i ∧
      c.faceOffset = j * (levelWidth file.header.width i * levelWidth file.header.width i *
        file.header.numChannels) ∧
      c.facePixel = j * (levelWidth file.header.width i * levelWidth file.header.width i *
        file.header.numChannels) + k ∧
      (c.pixels_i j).length = levelWidth file.header.width i * levelWidth file.header.width i *
        file.header.numChannels ∧
      c.faces_i.length = levelWidth file.header.width i * levelWidth file.header.width i *
        file.header.numChannels * N_FACES := by
  have hin := loaded_level_in_data nLevels uninit file i hi
  have hlev := loadLevels_eq nLevels uninit self file hfit i (by omega)
  have hd := loadedLevels_data nLevels uninit self file i
  obtain ⟨b1, b2, _⟩ := noOverflow_level nLevels _ _ i hfit hi
  have hsz := levelSizes_eq (levelWidth file.header.width i) file.header.numChannels b1
    (by omega)
  generalize hfsz : levelWidth file.header.width i * levelWidth file.header.width i *
    file.header.numChannels = fsz at hin hk hsz ⊢
  generalize hdat : freadFloats (uninit Buffer.data) file.payload
    (levelOffset file.header.width file.header.numChannels nLevels) = data at hin hd ⊢
  obtain ⟨c1, hc1, ho1, hp1, hf1⟩ := faceLoop_upto uninit i data
    (levelOffset file.header.width file.header.numChannels i) fsz
    ((loadedLevels nLevels uninit self file i).pixels i)
    (newFloats (uninit (Buffer.faces_array i)) (fsz * N_FACES)) (newFloats_length _ _)
    hin j (by simp only [N_FACES]; omega)
  have hj1 : (j + 1) * fsz ≤ 6 * fsz := Nat.mul_le_mul_right _ (by omega)
  rw [Nat.succ_mul] at hj1
  simp only [N_FACES] at hin hf1
  obtain ⟨c2, hc2, ho2, hp2, hx2, hf2⟩ := copyLoop_upto data
    (levelOffset file.header.width file.header.numChannels i) fsz j
    ⟨Function.update c1.pixels_i j (newFloats (uninit (Buffer.pixels i j)) fsz), c1.faces_i,
      c1.faceOffset, c1.facePixel⟩
    (by simp [newFloats_length]) (by simp only [hp1, hf1]; omega)
    (by simp only [ho1]; omega) k (by omega)
  simp only at ho2 hp2 hf2
  refine ⟨⟨loadedLevels nLevels uninit self file i, levelWidth file.header.width i,
      levelOffset file.header.width file.header.numChannels i⟩, c2, ?_, hd, rfl,
    by rw [ho2, ho1], by rw [hp2, hp1], hx2, by rw [hf2, hf1]; rfl⟩
  simp only [loadAt, hlev, hd, hsz, hc1, hc2, Option.bind_eq_bind, Option.some_bind,
    Option.bind_some]

/-! ## The index map of the partition -/

theorem level_of_index (width numChannels : Nat) : ∀ n p,
    p < levelOffset width numChannels n →
    ∃ i, i < n ∧ levelOffset width numChannels i ≤ p ∧
      p < levelOffset width numChannels (i + 1) := by
  intro n
  induction n with
  | zero => intro p hp; simp [levelOffset] at hp
  | succ n ih =>
    intro p hp
    by_cases h : p < levelOffset width numChannels n
    · obtain ⟨i, hi, h1, h2⟩ := ih p h
      exact ⟨i, by omega, h1, h2⟩
    · exact ⟨n, by omega, by omega, hp⟩

theorem face_index_lt (faceSize j k : Nat) (hj : j < 6) (hk : k < faceSize) :
    j * faceSize + k < faceSize * 6 := by
  have h1 : (j + 1) * faceSize ≤ 6 * faceSize := Nat.mul_le_mul_right faceSize (by omega)
  rw [Nat.succ_mul] at h1
  omega

theorem face_index_inj (faceSize j k j1 k1 : Nat) (hk : k < faceSize) (hk1 : k1 < faceSize)
    (h : j * faceSize + k = j1 * faceSize + k1) : j = j1 ∧ k = k1 := by
  have hpos : 0 < faceSize := by omega
  have e1 : (j * faceSize + k) / faceSize = j := by
    rw [Nat.mul_comm, Nat.mul_add_div hpos, Nat.div_eq_of_lt hk, Nat.add_zero]
  have e2 : (j1 * faceSize + k1) / faceSize = j1 := by
    rw [Nat.mul_comm, Nat.mul_add_div hpos, Nat.div_eq_of_lt hk1, Nat.add_zero]
  have hj : j = j1 := by rw [← e1, ← e2, h]
  subst hj
  exact ⟨rfl, by omega⟩

theorem partition_index_inj (width numChannels : Nat) (i j k i1 j1 k1 : Nat)
    (hj : j < 6) (hk : k < levelWidth width i * levelWidth width i * numChannels)
    (hj1 : j1 < 6) (hk1 : k1 < levelWidth width i1 * levelWidth width i1 * numChannels)
    (h : levelOffset width numChannels i +
        j * (levelWidth width i * levelWidth width i * numChannels) + k =
      levelOffset width numChannels i1 +
        j1 * (levelWidth width i1 * levelWidth width i1 * numChannels) + k1) :
    i = i1 ∧ j = j1 ∧ k = k1 := by
  have hb := face_index_lt _ j k hj hk
  have hb1 := face_index_lt _ j1 k1 hj1 hk1
  have hs : ∀ x, levelOffset width numChannels (x + 1) =
      levelOffset width numChannels x +
        levelWidth width x * levelWidth width x * numChannels * 6 := fun x => rfl
  rcases Nat.lt_trichotomy i i1 with hlt | heq | hgt
  · have := levelOffset_mono width numChannels i1 (i + 1) hlt
    rw [hs] at this
    omega
  · subst heq
    obtain ⟨e1, e2⟩ := face_index_inj _ j k j1 k1 hk hk1 (by omega)
    exact ⟨rfl, e1, e2⟩
  · have := levelOffset_mono width numChannels i (i1 + 1) hgt
    rw [hs] at this
    omega

theorem partition_index_surj (width numChannels n p : Nat)
    (hp : p < levelOffset width numChannels n) :
    ∃ i j k, i < n ∧ j < 6 ∧ k < levelWidth width i * levelWidth width i * numChannels ∧
      levelOffset width numChannels i +
        j * (levelWidth width i * levelWidth width i * numChannels) + k = p := by
  obtain ⟨i, hi, h1, h2⟩ := level_of_index width numChannels n p hp
  have hs : levelOffset width numChannels (i + 1) =
      levelOffset width numChannels i +
        levelWidth width i * levelWidth width i * numChannels * 6 := rfl
  rw [hs] at h2
  refine ⟨i, ?_⟩
  generalize levelWidth width i * levelWidth width i * numChannels = fsz at h2 ⊢
  have hpos : 0 < fsz := by
    rcases Nat.eq_zero_or_pos fsz with h0 | h0
    · subst h0; omega
    · exact h0
  refine ⟨(p - levelOffset width numChannels i) / fsz,
    (p - levelOffset width numChannels i) % fsz, hi, ?_, Nat.mod_lt _ hpos, ?_⟩
  · rw [Nat.div_lt_iff_lt_mul hpos]; omega
  · have := Nat.div_add_mod (p - levelOffset width numChannels i) fsz
    rw [Nat.mul_comm] at this
    omega

/-! ## clean on the object and the released allocations -/

theorem forLoop_some_inv {σ : Type} (body : Nat → σ → Option σ) (P : σ → Prop)
    (hbody : ∀ k s s1, body k s = some s1 → P s → P s1) :
    ∀ (count i : Nat) (s s1 : σ), forLoop body count i s = some s1 → P s → P s1 := by
  intro count
  induction count with
  | zero =>
    intro i s s1 h hp
    simp only [forLoop, Option.some.injEq] at h
    rw [← h]; exact hp
  | succ n ih =>
    intro i s s1 h hp
    simp only [forLoop] at h
    cases hb : body i s with
    | none => rw [hb] at h; simp at h
    | some s2 =>
      rw [hb] at h
      exact ih (i + 1) s2 s1 h (hbody i s s2 hb hp)

theorem release_keeps (b : Buffer) (s s1 : Owned α) (h : release b s = some s1)
    (self0 : HDRE α) (hp : s.self = self0 ∧ Buffer.data ∈ s.released) :
    s1.self = self0 ∧ Buffer.data ∈ s1.released := by
  unfold release at h
  split_ifs at h
  simp only [Option.some.injEq] at h
  rw [← h]
  exact ⟨hp.1, List.mem_cons_of_mem _ hp.2⟩

/-- Whenever clean returns true, the object is as before, its `data` is still
non-null, and a further clean is undefined: it deletes the raw buffer again. -/
theorem clean_again_undefined (nLevels : Nat) (s s1 : Owned α)
    (h : clean nLevels s = some (true, s1)) :
    s1.self = s.self ∧ s1.self.data ≠ none ∧ clean nLevels s1 = none := by
  unfold clean at h
  cases hd : s.self.data with
  | none => rw [hd] at h; simp at h
  | some buf =>
    rw [hd] at h
    simp only [Option.bind_eq_bind] at h
    cases hr : release Buffer.data s with
    | none => rw [hr] at h; simp at h
    | some t0 =>
      rw [hr] at h
      simp only [Option.some_bind] at h
      have ht0 : t0.self = s.self ∧ Buffer.data ∈ t0.released := by
        unfold release at hr
        split_ifs at hr
        simp only [Option.some.injEq] at hr
        rw [← hr]
        exact ⟨rfl, List.mem_cons_self _ _⟩
      cases hl : forLoop (fun i t =>
          (release (Buffer.faces_array i) t).bind fun t1 =>
            forLoop (fun j u => release (Buffer.pixels i j) u) N_FACES 0 t1) nLevels 0 t0 with
      | none => rw [hl] at h; simp at h
      | some t2 =>
        rw [hl] at h
        simp only [Option.some_bind, Option.some.injEq, Prod.mk.injEq, true_and] at h
        subst h
        have hP := forLoop_some_inv _ (fun t : Owned α => t.self = s.self ∧ Buffer.data ∈ t.released)
          (by
            intro i t t3 hb hp
            cases hr1 : release (Buffer.faces_array i) t with
            | none => rw [hr1] at hb; simp at hb
            | some t1 =>
              rw [hr1] at hb
              simp only [Option.some_bind] at hb
              have hp1 := release_keeps _ t t1 hr1 s.self hp
              exact forLoop_some_inv _
                (fun u : Owned α => u.self = s.self ∧ Buffer.data ∈ u.released)
                (fun j u u1 hu hpu => release_keeps _ u u1 hu s.self hpu)
                N_FACES 0 t1 t3 hb hp1)
          nLevels 0 t0 t2 hl ht0
        refine ⟨hP.1, by rw [hP.1, hd]; simp, ?_⟩
        unfold clean
        rw [hP.1, hd]
        simp [release, hP.2]

/-! ## flipY when the product for `lastpos` does not fit in an `int` -/

theorem readFloats_neg (buf : List α) (off : Int) (n : Nat) (h : off < 0) :
    readFloats buf off n = none := by
  unfold readFloats
  rw [if_neg (by omega)]

theorem flipYBody_neg_lastpos (size nc f : Nat) (s : FlipState α) (h : s.lastpos < 0) :
    flipYBody size nc f s = none := by
  simp only [flipYBody, memcpy, readFloats_neg _ _ _ h, Option.bind_eq_bind, Option.none_bind]
  cases readFloats (s.data f) s.pos (wrapU32 (size * nc * 4) / 4) <;> rfl

theorem flipYLoop_neg_lastpos (size nc : Nat) (s : FlipState α) (hsize : 2 ≤ size)
    (h : s.lastpos < 0) : flipYLoop size nc s = none := by
  obtain ⟨m, hm⟩ : ∃ m, size / 2 = m + 1 := ⟨size / 2 - 1, by omega⟩
  simp only [flipYLoop, forLoop, hm, flipYBody_neg_lastpos size nc 0 s h, Option.none_bind]

/-! ## Edges that a `float` holds exactly -/

theorem toFloat_of_lt (x : Nat) (h : x < 16777216) : toFloat x = x := by
  have he : floatExp x x = 0 := by
    cases x with
    | zero => rfl
    | succ n => simp [floatExp, h]
  simp [toFloat, he, Nat.mod_one]

theorem edge_lt_of_square (w : Nat) (h : w * w * N_FACES < 2147483648) : w < 16777216 := by
  by_contra hge
  have h1 : 16777216 ≤ w := by omega
  have h2 : 16777216 * 16777216 ≤ w * w := Nat.mul_le_mul h1 h1
  simp only [N_FACES] at h
  omega
/-! ## flipYsides: claims C8 and C9 -/

/-- C9, as amended: for six face buffers of `size * size * nc` floats with
`size * size * nc < 2^30` (so that the byte count `size * size * nc * 4` fits
in an `unsigned int`), flipYsides returns with faces 2 and 3 exchanged as whole
buffers, in unchanged pixel order, and with every other face unchanged. -/
theorem flipYsides_exchanges_faces_2_3 (size nc : Nat) (data : Nat → List α)
    (hb : size * size * nc < 1073741824)
    (hlen : ∀ f, f < 6 → (data f).length = size * size * nc) :
    ∃ d1, flipYsides data size nc = some d1 ∧
      (∀ k, k < size * size * nc → (d1 2)[k]? = (data 3)[k]? ∧ (d1 3)[k]? = (data 2)[k]?) ∧
      d1 2 = data 3 ∧ d1 3 = data 2 ∧
      ∀ f, f ≠ 2 → f ≠ 3 → d1 f = data f := by
  refine ⟨fun g => data (sideOf g),
    flipYsides_eq size nc data hb (hlen 2 (by omega)) (hlen 3 (by omega)), ?_, rfl, rfl, ?_⟩
  · intro k _; exact ⟨rfl, rfl⟩
  · intro f h2 h3
    simp [sideOf, h2, h3]

theorem flipYsides_exchanges_faces_2_3_witness :
    2 * 2 * 1 < 1073741824 ∧
    (∀ f, f < 6 → ((fun g => [10 * g, 10 * g + 1, 10 * g + 2, 10 * g + 3]) f).length = 2 * 2 * 1) ∧
    ∃ d1, flipYsides (fun g => [10 * g, 10 * g + 1, 10 * g + 2, 10 * g + 3]) 2 1 = some d1 ∧
      (∀ k, k < 2 * 2 * 1 →
        (d1 2)[k]? = ((fun g => [10 * g, 10 * g + 1, 10 * g + 2, 10 * g + 3]) 3)[k]? ∧
        (d1 3)[k]? = ((fun g => [10 * g, 10 * g + 1, 10 * g + 2, 10 * g + 3]) 2)[k]?) ∧
      d1 2 = (fun g => [10 * g, 10 * g + 1, 10 * g + 2, 10 * g + 3]) 3 ∧
      d1 3 = (fun g => [10 * g, 10 * g + 1, 10 * g + 2, 10 * g + 3]) 2 ∧
      ∀ f, f ≠ 2 → f ≠ 3 → d1 f = (fun g => [10 * g, 10 * g + 1, 10 * g + 2, 10 * g + 3]) f :=
  ⟨by decide, fun _ _ => rfl,
    flipYsides_exchanges_faces_2_3 2 1 (fun g => [10 * g, 10 * g + 1, 10 * g + 2, 10 * g + 3])
      (by decide) (fun _ _ => rfl)⟩

/-- C9 as stated fails for large faces: for size 32768 and one channel the byte
count `32768 * 32768 * 1 * 4` is 2^32, which is 0 as an `unsigned int`, so the
three memcpy calls copy nothing. With face `g` holding 2^30 floats of value `g`,
flipYsides returns the six buffers as they were: float 0 of face 2 is still 2
and not the 3 of face 3. -/
theorem flipYsides_wrapped_count_exchanges_nothing :
    wrapU32 (32768 * 32768 * 1 * 4) = 0 ∧
    (∀ f, f < 6 → ((fun g : Nat => List.replicate (32768 * 32768 * 1) g) f).length =
      32768 * 32768 * 1) ∧
    ∃ d1, flipYsides (fun g : Nat => List.replicate (32768 * 32768 * 1) g) 32768 1 = some d1 ∧
      d1 = (fun g : Nat => List.replicate (32768 * 32768 * 1) g) ∧
      (d1 2)[0]? = some 2 ∧
      ((fun g : Nat => List.replicate (32768 * 32768 * 1) g) 3)[0]? = some 3 := by
  have hw : wrapU32 (32768 * 32768 * 1 * 4) = 0 := by decide
  have hl : ∀ f, f < 6 → ((fun g : Nat => List.replicate (32768 * 32768 * 1) g) f).length =
      32768 * 32768 * 1 := fun _ _ => List.length_replicate _ _
  have hget : ∀ g : Nat, (List.replicate (32768 * 32768 * 1) g)[0]? = some g := by
    intro g
    rw [List.getElem?_replicate, if_pos (by decide)]
  refine ⟨hw, hl, _, flipYsides_front 32768 1 _ (hl 2 (by decide)) (hl 3 (by decide)), ?_,
    ?_, hget 3⟩
  · rw [hw]
    funext g
    simp only [Nat.zero_div, List.take_zero, List.drop_zero, List.nil_append,
      Function.update_eq_self]
  · rw [hw]
    simp only [Nat.zero_div, List.take_zero, List.drop_zero, List.nil_append,
      Function.update_eq_self]
    exact hget 2

/-- C8: flipYsides is an involution on six face buffers of `size * size * nc`
floats: both calls return, and the second one restores every face buffer. -/
theorem flipYsides_involution (size nc : Nat) (data : Nat → List α)
    (hlen : ∀ f, f < 6 → (data f).length = size * size * nc) :
    ∃ d1, flipYsides data size nc = some d1 ∧ flipYsides d1 size nc = some data := by
  have h2 := hlen 2 (by omega)
  have h3 := hlen 3 (by omega)
  have hn : wrapU32 (size * size * nc * 4) / 4 ≤ size * size * nc := by
    unfold wrapU32; omega
  have key : ∀ n, n ≤ size * size * nc → ∀ d1 : Nat → List α,
      d1 = Function.update (Function.update data 2 ((data 3).take n ++ (data 2).drop n)) 3
        ((data 2).take n ++ (data 3).drop n) →
      (d1 2).length = size * size * nc ∧ (d1 3).length = size * size * nc ∧
      Function.update (Function.update d1 2 ((d1 3).take n ++ (d1 2).drop n)) 3
        ((d1 2).take n ++ (d1 3).drop n) = data := by
    intro n hn d1 hd1
    have l2 : ((data 2).take n).length = n := by rw [List.length_take, h2]; omega
    have l3 : ((data 3).take n).length = n := by rw [List.length_take, h3]; omega
    have e3 : d1 3 = (data 2).take n ++ (data 3).drop n := by rw [hd1]; simp
    have e2 : d1 2 = (data 3).take n ++ (data 2).drop n := by rw [hd1]; simp
    refine ⟨?_, ?_, ?_⟩
    · rw [e2, List.length_append, l3, List.length_drop, h2]; omega
    · rw [e3, List.length_append, l2, List.length_drop, h3]; omega
    · rw [e2, e3, List.take_left' l2, List.take_left' l3, List.drop_left' l2,
        List.drop_left' l3, List.take_append_drop, List.take_append_drop, hd1]
      funext g
      by_cases g3 : g = 3
      · subst g3; simp
      · by_cases g2 : g = 2
        · subst g2; simp
        · simp [g2, g3]
  obtain ⟨a, b, c⟩ := key _ hn _ rfl
  refine ⟨_, flipYsides_front size nc data h2 h3, ?_⟩
  rw [flipYsides_front size nc _ a b, c]

theorem flipYsides_involution_witness :
    (∀ f, f < 6 → ((fun g => [10 * g, 10 * g + 1, 10 * g + 2, 10 * g + 3]) f).length = 2 * 2 * 1) ∧
    ∃ d1, flipYsides (fun g => [10 * g, 10 * g + 1, 10 * g + 2, 10 * g + 3]) 2 1 = some d1 ∧
      flipYsides d1 2 1 = some (fun g => [10 * g, 10 * g + 1, 10 * g + 2, 10 * g + 3]) :=
  ⟨fun _ _ => rfl,
    flipYsides_involution 2 1 (fun g => [10 * g, 10 * g + 1, 10 * g + 2, 10 * g + 3])
      (fun _ _ => rfl)⟩

/-! ## flipY: claims C2 and C7 -/

/-- C7, as amended: flipY without the side swap is an involution on six face
buffers of `size * size * nc` floats with `size * size * nc < 2^31` (so that
the row offsets fit in an `int`), for every such edge `size`, odd or even: both
calls return, and the second one restores every face buffer. -/
theorem flipY_involution (size nc : Nat) (data : Nat → List α)
    (hb : size * size * nc < 2147483648)
    (hlen : ∀ f, f < 6 → (data f).length = size * size * nc) :
    ∃ d1, flipY data size nc false = some d1 ∧ flipY d1 size nc false = some data := by
  have hs : false = true → size * size * nc < 1073741824 := fun h => absurd h (by decide)
  refine ⟨flipFaces size nc data, by simpa using flipY_eq size nc data false hb hs hlen, ?_⟩
  have h := flipY_eq size nc (flipFaces size nc data) false hb hs
    (flipFaces_length size nc data hlen)
  rw [flipFaces_flipFaces size nc data hlen] at h
  simpa using h

theorem flipY_involution_witness :
    3 * 3 * 1 < 2147483648 ∧
    (∀ f, f < 6 → ((fun g => (List.range 9).map (· + 10 * g)) f).length = 3 * 3 * 1) ∧
    ∃ d1, flipY (fun g => (List.range 9).map (· + 10 * g)) 3 1 false = some d1 ∧
      flipY d1 3 1 false = some (fun g => (List.range 9).map (· + 10 * g)) :=
  ⟨by decide, fun _ _ => rfl,
    flipY_involution 3 1 (fun g => (List.range 9).map (· + 10 * g)) (by decide)
      (fun _ _ => rfl)⟩

/-- C7 as stated fails for large faces: for size 46342 and one channel the
unsigned product `46342 * 46341 * 1` is 2147534622, which stored in
`int lastpos` is -2147432674, so the first row copy of flipY reads in front of
the face buffer: on six faces of `46342 * 46342` floats the first call of flipY
is undefined, and nothing is restored by a second call. -/
theorem flipY_large_edge_undefined :
    flipYLast 46342 1 = -2147432674 ∧
    (∀ f, f < 6 → ((fun _ : Nat => List.replicate (46342 * 46342 * 1) (0 : Nat)) f).length =
      46342 * 46342 * 1) ∧
    flipY (fun _ : Nat => List.replicate (46342 * 46342 * 1) (0 : Nat)) 46342 1 false = none := by
  have hlast : flipYLast 46342 1 = -2147432674 := by decide
  have hl : ∀ f, f < 6 →
      ((fun _ : Nat => List.replicate (46342 * 46342 * 1) (0 : Nat)) f).length =
        46342 * 46342 * 1 := fun _ _ => List.length_replicate _ _
  have hloop : flipYLoop 46342 1
      ⟨fun _ : Nat => List.replicate (46342 * 46342 * 1) (0 : Nat), 0, flipYLast 46342 1⟩ =
        none :=
    flipYLoop_neg_lastpos 46342 1 _ (by decide) (by rw [hlast]; decide)
  refine ⟨hlast, hl, ?_⟩
  simp only [flipY, hloop, Option.bind_eq_bind, Option.none_bind]

/-- Row reversal on the edges where flipY achieves it: for an even edge (and for
an edge of at most 1) flipY without the side swap reverses the row order of
each of the six faces, when `size * size * nc < 2^31`. -/
theorem flipY_reverses_rows_even (size nc : Nat) (data : Nat → List α)
    (hb : size * size * nc < 2147483648)
    (hsize : Even size ∨ size ≤ 1)
    (hlen : ∀ f, f < 6 → (data f).length = size * size * nc) :
    ∃ d1, flipY data size nc false = some d1 ∧
      ∀ f, f < 6 → ∀ r, r < size → ∀ c, c < size * nc →
        (d1 f)[r * size * nc + c]? = (data f)[(size - 1 - r) * size * nc + c]? := by
  have hs : false = true → size * size * nc < 1073741824 := fun h => absurd h (by decide)
  refine ⟨flipFaces size nc data, by simpa using flipY_eq size nc data false hb hs hlen, ?_⟩
  intro f hf r hr c hc
  simp only [flipFaces, if_pos hf]
  rw [flipFace_even size nc f _ hsize, Nat.mul_assoc, Nat.mul_assoc]
  exact reverse_rows_getElem? size nc (data f) r c (hlen f hf) hr hc

/-- C2 at the failing input: for the odd edge 3 (one channel, every face holding
the floats 0..8) flipY reverses the rows of faces 0, 2 and 4 and leaves faces
1, 3 and 5 as they were, where reversing their rows would give
6,7,8,3,4,5,0,1,2. -/
theorem flipY_odd_edge_keeps_face_1 :
    (flipY (fun _ => [0, 1, 2, 3, 4, 5, 6, 7, 8]) 3 1 false).map
        (fun d => [d 0, d 1, d 2, d 3, d 4, d 5]) =
      some [[6, 7, 8, 3, 4, 5, 0, 1, 2], [0, 1, 2, 3, 4, 5, 6, 7, 8],
        [6, 7, 8, 3, 4, 5, 0, 1, 2], [0, 1, 2, 3, 4, 5, 6, 7, 8],
        [6, 7, 8, 3, 4, 5, 0, 1, 2], [0, 1, 2, 3, 4, 5, 6, 7, 8]] := by
  decide

/-! ## The header checks: claim C10 -/

/-- The two checks of load and the failure path of Get, for a file that can be
opened. When the format tag is not 3 or the version is below 2.0, load returns
false and the raw buffer, the packed buffers and the face buffers of the object
are the ones it had before (no payload is read or partitioned); Get, on a miss
of the registry, then deletes the new object: it returns NULL when the `data`
member of that object is null, and is undefined when it is not. A header with
format tag 3 and version at least 2.0 (2.0 included) passes both checks: load
goes on to the payload, and returns true when no `int` overflows. -/
theorem load_header_checks (nLevels : Nat) (uninit : Buffer → Nat → α)
    (fs : String → Option (HDREFile α)) (self : HDRE α) (filename : String)
    (file : HDREFile α) (hfs : fs filename = some file) :
    (file.header.type ≠ 3 ∨ file.header.version < 2 →
      (∃ self1, load nLevels uninit fs self filename = some (false, self1) ∧
        self1.data = self.data ∧ self1.faces_array = self.faces_array ∧
        self1.pixels = self.pixels) ∧
      ∀ sHDRELoaded : List (String × HDRE α), sHDRELoaded.lookup filename = none →
        (self.data = none →
          Get nLevels uninit fs sHDRELoaded self filename = some (none, sHDRELoaded)) ∧
        (self.data ≠ none → Get nLevels uninit fs sHDRELoaded self filename = none)) ∧
    (file.header.type = 3 ∧ 2 ≤ file.header.version →
      load nLevels uninit fs self filename =
          ((loadLevels nLevels uninit self file nLevels).bind fun s => some (true, s.self)) ∧
        (noOverflow nLevels file.header.width file.header.numChannels →
          ∃ a, load nLevels uninit fs self filename = some (true, a))) := by
  constructor
  · intro hrej
    have hload : ∃ self1, load nLevels uninit fs self filename = some (false, self1) ∧
        self1.data = self.data ∧ self1.faces_array = self.faces_array ∧
        self1.pixels = self.pixels := by
      by_cases ht : file.header.type = 3
      · have hv : file.header.version < 2 := by
          rcases hrej with h | h
          · exact absurd ht h
          · exact h
        refine ⟨{ self with header := file.header, version := file.header.version }, ?_,
          rfl, rfl, rfl⟩
        simp [load, hfs, ht, hv]
      · exact ⟨self, by simp [load, hfs, ht], rfl, rfl, rfl⟩
    refine ⟨hload, ?_⟩
    intro reg hmiss
    obtain ⟨self1, h1, hd, _⟩ := hload
    constructor
    · intro hnull
      rw [← hd] at hnull
      simp [Get, hmiss, h1, deleteUnloaded, clean, hnull]
    · intro hset
      rw [← hd] at hset
      obtain ⟨buf, hbuf⟩ := Option.ne_none_iff_exists'.mp hset
      simp [Get, hmiss, h1, deleteUnloaded, clean, hbuf, release, allBuffers]
  · intro ⟨ht, hv⟩
    exact ⟨load_accepted nLevels uninit fs self filename file hfs ht hv,
      fun hfit => ⟨_, load_eq nLevels uninit fs self filename file hfs ht hv hfit⟩⟩

/-- C10 at the failing input: for a file whose format tag is 2, and for a file
of version 1.5, load returns false; Get then deletes the object it created,
whose `data` member no constructor has initialised. When that member is not
null the destructor deletes a pointer to no allocation, which is undefined, and
Get does not return NULL; it returns NULL only when the member happens to be
null. -/
theorem Get_rejected_file_unset_data :
    (load 3 (fun _ _ => 0) (sampleFs wrongTagFile) unsetHDRE "env.hdre").map Prod.fst =
      some false ∧
    Get 3 (fun _ _ => 0) (sampleFs wrongTagFile) [] unsetHDRE "env.hdre" = none ∧
    (load 3 (fun _ _ => 0) (sampleFs (sampleFile (3 / 2) 4 126)) unsetHDRE "env.hdre").map
      Prod.fst = some false ∧
    Get 3 (fun _ _ => 0) (sampleFs (sampleFile (3 / 2) 4 126)) [] unsetHDRE "env.hdre" = none ∧
    Get 3 (fun _ _ => 0) (sampleFs wrongTagFile) [] blankHDRE "env.hdre" = some (none, []) := by
  have h15 : (sampleFile (3 / 2) 4 126).header.version < 2 := by
    norm_num [sampleFile, sampleHeader]
  have ha := load_header_checks 3 (fun _ _ => (0 : Nat)) (sampleFs wrongTagFile) unsetHDRE
    "env.hdre" wrongTagFile rfl
  have hb := load_header_checks 3 (fun _ _ => (0 : Nat)) (sampleFs (sampleFile (3 / 2) 4 126))
    unsetHDRE "env.hdre" (sampleFile (3 / 2) 4 126) rfl
  have hc := load_header_checks 3 (fun _ _ => (0 : Nat)) (sampleFs wrongTagFile) blankHDRE
    "env.hdre" wrongTagFile rfl
  obtain ⟨⟨s1, hs1, _⟩, hg1⟩ := ha.1 (Or.inl (by decide))
  obtain ⟨⟨s2, hs2, _⟩, hg2⟩ := hb.1 (Or.inr h15)
  refine ⟨by rw [hs1]; rfl, (hg1 [] rfl).2 (by simp [unsetHDRE]), by rw [hs2]; rfl,
    (hg2 [] rfl).2 (by simp [unsetHDRE]), ((hc.1 (Or.inl (by decide))).2 [] rfl).1 rfl⟩

/-! ## The size of the raw buffer: claim C4 -/

theorem levelOffset_eq_sum (width numChannels : Nat) : ∀ n,
    levelOffset width numChannels n =
      ∑ i ∈ Finset.range n, (width / 2 ^ i) ^ 2 * 6 * numChannels := by
  intro n
  induction n with
  | zero => simp [levelOffset]
  | succ n ih =>
    rw [Finset.sum_range_succ, ← ih]
    simp only [levelOffset, levelWidth, N_FACES]
    ring

/-- C4: when no `int` of load overflows, the value of dataSize computed by load
is the sum over the levels i = 0 .. N_LEVELS-1 of floor(W / 2^i)^2 * 6 * C, and
for an accepted header it is the length of the raw buffer `data` of the loaded
object. -/
theorem load_dataSize_eq_sum (nLevels : Nat) (uninit : Buffer → Nat → α)
    (fs : String → Option (HDREFile α)) (self : HDRE α) (filename : String)
    (file : HDREFile α) (hfs : fs filename = some file)
    (htype : file.header.type = 3) (hver : 2 ≤ file.header.version)
    (hfit : noOverflow nLevels file.header.width file.header.numChannels) :
    loadDataSize nLevels file.header.width file.header.numChannels =
        some (∑ i ∈ Finset.range nLevels,
          (file.header.width / 2 ^ i) ^ 2 * 6 * file.header.numChannels) ∧
    ∃ a data, load nLevels uninit fs self filename = some (true, a) ∧
      a.data = some data ∧ getData a = some data ∧
      data.length = ∑ i ∈ Finset.range nLevels,
        (file.header.width / 2 ^ i) ^ 2 * 6 * file.header.numChannels := by
  have hsum := levelOffset_eq_sum file.header.width file.header.numChannels nLevels
  refine ⟨by rw [loadDataSize_eq _ _ _ hfit, hsum], loadedLevels nLevels uninit self file nLevels,
    freadFloats (uninit Buffer.data) file.payload
      (levelOffset file.header.width file.header.numChannels nLevels),
    load_eq nLevels uninit fs self filename file hfs htype hver hfit, ?_, ?_, ?_⟩
  · exact loadedLevels_data nLevels uninit self file nLevels
  · exact loadedLevels_data nLevels uninit self file nLevels
  · rw [freadFloats_length, hsum]

theorem load_dataSize_eq_sum_witness :
    sampleFs (sampleFile 3 4 126) "env.hdre" = some (sampleFile 3 4 126) ∧
    (sampleFile 3 4 126).header.type = 3 ∧ 2 ≤ (sampleFile 3 4 126).header.version ∧
    noOverflow 3 (sampleFile 3 4 126).header.width (sampleFile 3 4 126).header.numChannels ∧
    (loadDataSize 3 (sampleFile 3 4 126).header.width (sampleFile 3 4 126).header.numChannels =
        some (∑ i ∈ Finset.range 3,
          ((sampleFile 3 4 126).header.width / 2 ^ i) ^ 2 * 6 *
            (sampleFile 3 4 126).header.numChannels) ∧
      ∃ a data, load 3 (fun _ _ => 0) (sampleFs (sampleFile 3 4 126)) blankHDRE "env.hdre" =
          some (true, a) ∧
        a.data = some data ∧ getData a = some data ∧
        data.length = ∑ i ∈ Finset.range 3,
          ((sampleFile 3 4 126).header.width / 2 ^ i) ^ 2 * 6 *
            (sampleFile 3 4 126).header.numChannels) :=
  ⟨rfl, rfl, by norm_num [sampleFile, sampleHeader], by decide,
    load_dataSize_eq_sum 3 (fun _ _ => 0) (sampleFs (sampleFile 3 4 126)) blankHDRE "env.hdre"
      (sampleFile 3 4 126) rfl rfl (by norm_num [sampleFile, sampleHeader]) (by decide)⟩
/-! ## The sizes of the levels: claim C3 -/

/-- C3, as amended: for an accepted header of width W and C channels for which
no `int` of load overflows, load returns true, and for every level i below
N_LEVELS the edge `w` the level loop uses for level i is floor(W / 2^i), each
of the six face buffers pixels[i][j] has floor(W / 2^i)^2 * C floats,
faces_array[i] has 6 * floor(W / 2^i)^2 * C floats, and getLevel(i) reports
width = height = floor(W / 2^i). -/
theorem load_level_sizes (nLevels : Nat) (uninit : Buffer → Nat → α)
    (fs : String → Option (HDREFile α)) (self : HDRE α) (filename : String)
    (file : HDREFile α) (hfs : fs filename = some file)
    (htype : file.header.type = 3) (hver : 2 ≤ file.header.version)
    (hfit : noOverflow nLevels file.header.width file.header.numChannels) :
    ∃ a, load nLevels uninit fs self filename = some (true, a) ∧
      ∀ i, i < nLevels →
        (∃ s, loadLevels nLevels uninit self file i = some s ∧
          s.w = file.header.width / 2 ^ i) ∧
        (∀ j, j < 6 →
          (a.pixels i j).length = (file.header.width / 2 ^ i) ^ 2 * file.header.numChannels) ∧
        (a.faces_array i).length =
          6 * (file.header.width / 2 ^ i) ^ 2 * file.header.numChannels ∧
        (getLevel a i).width = file.header.width / 2 ^ i ∧
        (getLevel a i).height = file.header.width / 2 ^ i := by
  refine ⟨_, load_eq nLevels uninit fs self filename file hfs htype hver hfit, ?_⟩
  intro i hi
  have hin := loaded_level_in_data nLevels uninit file i hi
  have hwidth : (loadedLevels nLevels uninit self file nLevels).width = file.header.width := by
    simp only [loadedLevels]; exact loadFields_width _ uninit self file
  have hsmall : toFloat (levelWidth file.header.width i) = levelWidth file.header.width i :=
    toFloat_of_lt _ (edge_lt_of_square _ (hfit i hi).1)
  refine ⟨⟨_, loadLevels_eq nLevels uninit self file hfit i (by omega), rfl⟩, ?_, ?_, ?_, ?_⟩
  · intro j hj
    rw [loaded_pixels nLevels uninit self file i hi, sq]
    exact orient_length _ _ _ _ _ (levelFaces_length _ _ _ _ hin) j hj
  · rw [loaded_faces_array nLevels uninit self file i hi, levelSlice_length _ _ _ hin]
    simp only [levelWidth, N_FACES]
    ring
  · simp only [getLevel, hwidth, hsmall]; rfl
  · simp only [getLevel, hwidth, hsmall]; rfl

theorem load_level_sizes_witness :
    sampleFs (sampleFile 3 5 180) "env.hdre" = some (sampleFile 3 5 180) ∧
    (sampleFile 3 5 180).header.type = 3 ∧ 2 ≤ (sampleFile 3 5 180).header.version ∧
    noOverflow 3 (sampleFile 3 5 180).header.width (sampleFile 3 5 180).header.numChannels ∧
    ∃ a, load 3 (fun _ _ => 0) (sampleFs (sampleFile 3 5 180)) blankHDRE "env.hdre" =
        some (true, a) ∧
      ∀ i, i < 3 →
        (∃ s, loadLevels 3 (fun _ _ => 0) blankHDRE (sampleFile 3 5 180) i = some s ∧
          s.w = (sampleFile 3 5 180).header.width / 2 ^ i) ∧
        (∀ j, j < 6 →
          (a.pixels i j).length =
            ((sampleFile 3 5 180).header.width / 2 ^ i) ^ 2 *
              (sampleFile 3 5 180).header.numChannels) ∧
        (a.faces_array i).length =
          6 * ((sampleFile 3 5 180).header.width / 2 ^ i) ^ 2 *
            (sampleFile 3 5 180).header.numChannels ∧
        (getLevel a i).width = (sampleFile 3 5 180).header.width / 2 ^ i ∧
        (getLevel a i).height = (sampleFile 3 5 180).header.width / 2 ^ i :=
  ⟨rfl, rfl, by norm_num [sampleFile, sampleHeader], by decide,
    load_level_sizes 3 (fun _ _ => 0) (sampleFs (sampleFile 3 5 180)) blankHDRE "env.hdre"
      (sampleFile 3 5 180) rfl rfl (by norm_num [sampleFile, sampleHeader]) (by decide)⟩

/-- C3 as stated fails for large widths: the header of width 23354 with one
channel and version 3.0 passes both checks of load, but the size
6 * 23354^2 * 1 = 3272455896 that the claim gives faces_array[0] is no `int`
value: the product `w * w * N_FACES` of the first loop of load overflows, load
does not return true and no buffer of that size exists. (getLevel, too, is
exact only for edges that a `float` holds: it reports 16777216 for the edge
16777217.) -/
theorem load_level_sizes_overflow :
    (sampleFile 3 23354 0).header.type = 3 ∧ 2 ≤ (sampleFile 3 23354 0).header.version ∧
    6 * (23354 / 2 ^ 0) ^ 2 * 1 = 3272455896 ∧ ¬ (3272455896 < 2147483648) ∧
    loadDataSize 3 23354 1 = none ∧
    load 3 (fun _ _ => 0) (sampleFs (sampleFile 3 23354 0)) blankHDRE "env.hdre" = none ∧
    (getLevel { blankHDRE with width := 16777217 } 0).width = 16777216 :=
  ⟨rfl, by norm_num [sampleFile, sampleHeader], by decide, by decide, by decide, rfl, by decide⟩

/-! ## Orientation of the faces after load: claims C5 and C6 -/

theorem pow_two_edge (n i : Nat) : Even (2 ^ n / 2 ^ i) ∨ 2 ^ n / 2 ^ i ≤ 1 := by
  by_cases h : i < n
  · left
    rw [Nat.pow_div (le_of_lt h) (by norm_num)]
    obtain ⟨d, hd⟩ : ∃ d, n - i = d + 1 := ⟨n - i - 1, by omega⟩
    rw [hd, pow_succ]
    exact even_two.mul_left _
  · right
    have hle : 2 ^ n ≤ 2 ^ i := Nat.pow_le_pow_right (by norm_num) (by omega)
    have hpos : 0 < 2 ^ i := pow_pos (by norm_num) i
    calc 2 ^ n / 2 ^ i ≤ 2 ^ i / 2 ^ i := Nat.div_le_div_right hle
      _ = 1 := Nat.div_self hpos

/-- C5, as amended: for an accepted header with version at least 3.0 for which
no `int` of load overflows, and a payload of exactly dataSize floats, load
returns true with the payload as raw buffer, and
(a) every face of level 0 is its raw slice, untouched; (b) at every level
i >= 1 whose edge w = floor(W / 2^i) is even or at most 1, every face j holds
the rows of its own raw slice in reversed order, without exchange of faces;
`levelOffset W C i` is the sum of the sizes of the levels before i. Every level
of a power-of-two width (such as width 4) has such an edge. -/
theorem load_orientation_v3 (nLevels : Nat) (uninit : Buffer → Nat → α)
    (fs : String → Option (HDREFile α)) (self : HDRE α) (filename : String)
    (file : HDREFile α) (hfs : fs filename = some file)
    (htype : file.header.type = 3) (hver : 3 ≤ file.header.version)
    (hfit : noOverflow nLevels file.header.width file.header.numChannels)
    (hpay : loadDataSize nLevels file.header.width file.header.numChannels =
      some file.payload.length) :
    ∃ a, load nLevels uninit fs self filename = some (true, a) ∧
      a.data = some file.payload ∧
      (0 < nLevels → ∀ j k, j < 6 →
        k < file.header.width * file.header.width * file.header.numChannels →
        (a.pixels 0 j)[k]? =
            file.payload[j * (file.header.width * file.header.width *
              file.header.numChannels) + k]? ∧
          j * (file.header.width * file.header.width * file.header.numChannels) + k <
            file.payload.length) ∧
      (∀ i w, 1 ≤ i → i < nLevels → w = file.header.width / 2 ^ i → (Even w ∨ w ≤ 1) →
        ∀ j r c, j < 6 → r < w → c < w * file.header.numChannels →
          (a.pixels i j)[r * w * file.header.numChannels + c]? =
              file.payload[levelOffset file.header.width file.header.numChannels i +
                j * (w * w * file.header.numChannels) +
                (w - 1 - r) * w * file.header.numChannels + c]? ∧
            levelOffset file.header.width file.header.numChannels i +
                j * (w * w * file.header.numChannels) +
                (w - 1 - r) * w * file.header.numChannels + c < file.payload.length) ∧
      ∀ n i, Even (levelWidth (2 ^ n) i) ∨ levelWidth (2 ^ n) i ≤ 1 := by
  have hv2 : 2 ≤ file.header.version := le_trans (by norm_num) hver
  have hv3 : ¬ file.header.version < 3 := not_lt.mpr hver
  have hpl : file.payload.length =
      levelOffset file.header.width file.header.numChannels nLevels := by
    rw [loadDataSize_eq _ _ _ hfit] at hpay
    exact (Option.some.inj hpay).symm
  have hdata := freadFloats_full (uninit Buffer.data) file.payload _ hpl
  refine ⟨_, load_eq nLevels uninit fs self filename file hfs htype hv2 hfit, ?_, ?_, ?_,
    fun n i => pow_two_edge n i⟩
  · rw [loadedLevels_data, hdata]
  · intro hn j k hj hk
    have hin := loaded_level_in_data nLevels uninit file 0 hn
    rw [hdata] at hin
    have hw0 : levelWidth file.header.width 0 = file.header.width := by simp [levelWidth]
    rw [loaded_pixels nLevels uninit self file 0 hn, hdata]
    simp only [orient, hv3, if_false, ne_eq, not_true_eq_false, levelOffset, hw0] at hin ⊢
    have hj6 : j < N_FACES := hj
    simp only [levelFaces, if_pos hj6]
    have := faceSlice_getElem? file.payload 0 _ j k hj hk hin
    simpa using this
  · intro i w hi1 hi hw hev j r c hj hr hc
    have hin := loaded_level_in_data nLevels uninit file i hi
    rw [hdata] at hin
    have hwi : levelWidth file.header.width i = w := by rw [hw]; rfl
    have hi0 : i ≠ 0 := by omega
    rw [loaded_pixels nLevels uninit self file i hi, hdata]
    rw [hwi] at hin ⊢
    simp only [orient, hv3, if_false, hi0, ne_eq, not_false_eq_true, if_true]
    exact flipped_slice_getElem? file.payload _ w _ _ j r c hj hev hr hc hin

theorem load_orientation_v3_witness :
    sampleFs (sampleFile 3 4 126) "env.hdre" = some (sampleFile 3 4 126) ∧
    (sampleFile 3 4 126).header.type = 3 ∧ 3 ≤ (sampleFile 3 4 126).header.version ∧
    noOverflow 3 (sampleFile 3 4 126).header.width (sampleFile 3 4 126).header.numChannels ∧
    loadDataSize 3 (sampleFile 3 4 126).header.width (sampleFile 3 4 126).header.numChannels =
      some (sampleFile 3 4 126).payload.length ∧
    ∃ a, load 3 (fun _ _ => 0) (sampleFs (sampleFile 3 4 126)) blankHDRE "env.hdre" = some (true, a) ∧
      a.data = some (sampleFile 3 4 126).payload ∧
      (0 < 3 → ∀ j k, j < 6 →
        k < (sampleFile 3 4 126).header.width * (sampleFile 3 4 126).header.width *
          (sampleFile 3 4 126).header.numChannels →
        (a.pixels 0 j)[k]? =
            (sampleFile 3 4 126).payload[j * ((sampleFile 3 4 126).header.width *
              (sampleFile 3 4 126).header.width *
              (sampleFile 3 4 126).header.numChannels) + k]? ∧
          j * ((sampleFile 3 4 126).header.width * (sampleFile 3 4 126).header.width *
            (sampleFile 3 4 126).header.numChannels) + k <
            (sampleFile 3 4 126).payload.length) ∧
      (∀ i w, 1 ≤ i → i < 3 → w = (sampleFile 3 4 126).header.width / 2 ^ i →
        (Even w ∨ w ≤ 1) →
        ∀ j r c, j < 6 → r < w → c < w * (sampleFile 3 4 126).header.numChannels →
          (a.pixels i j)[r * w * (sampleFile 3 4 126).header.numChannels + c]? =
              (sampleFile 3 4 126).payload[levelOffset (sampleFile 3 4 126).header.width
                  (sampleFile 3 4 126).header.numChannels i +
                j * (w * w * (sampleFile 3 4 126).header.numChannels) +
                (w - 1 - r) * w * (sampleFile 3 4 126).header.numChannels + c]? ∧
            levelOffset (sampleFile 3 4 126).header.width
                  (sampleFile 3 4 126).header.numChannels i +
                j * (w * w * (sampleFile 3 4 126).header.numChannels) +
                (w - 1 - r) * w * (sampleFile 3 4 126).header.numChannels + c <
              (sampleFile 3 4 126).payload.length) ∧
      ∀ n i, Even (levelWidth (2 ^ n) i) ∨ levelWidth (2 ^ n) i ≤ 1 :=
  ⟨rfl, rfl, by norm_num [sampleFile, sampleHeader], by decide,
    by set_option maxRecDepth 100000 in decide,
    load_orientation_v3 3 (fun _ _ => 0) (sampleFs (sampleFile 3 4 126)) blankHDRE "env.hdre"
      (sampleFile 3 4 126) rfl rfl (by norm_num [sampleFile, sampleHeader]) (by decide)
      (by set_option maxRecDepth 100000 in decide)⟩

/-- C5 as stated fails for large widths: the header of width 23354 with one
channel and version 3.0 is accepted by both checks, but for no payload does
load return true and fill pixels[0][j]: level 0 alone has
6 * 23354^2 = 3272455896 floats, the `int` product overflows, and dataSize is
undefined. -/
theorem load_orientation_v3_overflow :
    (sampleHeader 3 23354).type = 3 ∧ 3 ≤ (sampleHeader 3 23354).version ∧
    ¬ noOverflow 3 23354 1 ∧ loadDataSize 3 23354 1 = none ∧
    ∀ payload : List Nat,
      load 3 (fun _ _ => 0) (sampleFs ⟨sampleHeader 3 23354, payload⟩) blankHDRE "env.hdre" =
        none := by
  have hov : ¬ noOverflow 3 23354 1 := by decide
  refine ⟨rfl, by norm_num [sampleHeader], hov, by decide, ?_⟩
  intro payload
  exact load_overflow_undefined 3 _ _ blankHDRE "env.hdre" ⟨sampleHeader 3 23354, payload⟩ rfl
    rfl (by norm_num [sampleHeader]) hov

/-- C6, as amended: for an accepted header with 2.0 <= version < 3.0 for which
no `int` of load overflows, and a payload of exactly dataSize floats, load
returns true with the payload as raw buffer, and
at every level i (level 0 included) whose edge w = floor(W / 2^i) is even or
at most 1, face j holds the rows, in reversed order, of the raw slice of face
`sideOf j`, where sideOf 2 = 3, sideOf 3 = 2 and sideOf j = j otherwise;
`levelOffset W C i` is the sum of the sizes of the levels before i. -/
theorem load_orientation_v2 (nLevels : Nat) (uninit : Buffer → Nat → α)
    (fs : String → Option (HDREFile α)) (self : HDRE α) (filename : String)
    (file : HDREFile α) (hfs : fs filename = some file)
    (htype : file.header.type = 3) (hver : 2 ≤ file.header.version)
    (hlt : file.header.version < 3)
    (hfit : noOverflow nLevels file.header.width file.header.numChannels)
    (hpay : loadDataSize nLevels file.header.width file.header.numChannels =
      some file.payload.length) :
    ∃ a, load nLevels uninit fs self filename = some (true, a) ∧
      a.data = some file.payload ∧
      ∀ i w, i < nLevels → w = file.header.width / 2 ^ i → (Even w ∨ w ≤ 1) →
        ∀ j r c, j < 6 → r < w → c < w * file.header.numChannels →
          (a.pixels i j)[r * w * file.header.numChannels + c]? =
              file.payload[levelOffset file.header.width file.header.numChannels i +
                sideOf j * (w * w * file.header.numChannels) +
                (w - 1 - r) * w * file.header.numChannels + c]? ∧
            levelOffset file.header.width file.header.numChannels i +
                sideOf j * (w * w * file.header.numChannels) +
                (w - 1 - r) * w * file.header.numChannels + c < file.payload.length := by
  have hpl : file.payload.length =
      levelOffset file.header.width file.header.numChannels nLevels := by
    rw [loadDataSize_eq _ _ _ hfit] at hpay
    exact (Option.some.inj hpay).symm
  have hdata := freadFloats_full (uninit Buffer.data) file.payload _ hpl
  refine ⟨_, load_eq nLevels uninit fs self filename file hfs htype hver hfit, ?_, ?_⟩
  · rw [loadedLevels_data, hdata]
  · intro i w hi hw hev j r c hj hr hc
    have hin := loaded_level_in_data nLevels uninit file i hi
    rw [hdata] at hin
    have hwi : levelWidth file.header.width i = w := by rw [hw]; rfl
    rw [loaded_pixels nLevels uninit self file i hi, hdata]
    rw [hwi] at hin ⊢
    simp only [orient, hlt, if_true]
    exact flipped_slice_getElem? file.payload _ w _ _ (sideOf j) r c (sideOf_lt j hj) hev hr hc
      hin

theorem load_orientation_v2_witness :
    sampleFs (sampleFile (5 / 2) 4 126) "env.hdre" = some (sampleFile (5 / 2) 4 126) ∧
    (sampleFile (5 / 2) 4 126).header.type = 3 ∧
    2 ≤ (sampleFile (5 / 2) 4 126).header.version ∧
    (sampleFile (5 / 2) 4 126).header.version < 3 ∧
    noOverflow 3 (sampleFile (5 / 2) 4 126).header.width
      (sampleFile (5 / 2) 4 126).header.numChannels ∧
    loadDataSize 3 (sampleFile (5 / 2) 4 126).header.width
        (sampleFile (5 / 2) 4 126).header.numChannels =
      some (sampleFile (5 / 2) 4 126).payload.length ∧
    ∃ a, load 3 (fun _ _ => 0) (sampleFs (sampleFile (5 / 2) 4 126)) blankHDRE "env.hdre" = some (true, a) ∧
      a.data = some (sampleFile (5 / 2) 4 126).payload ∧
      ∀ i w, i < 3 → w = (sampleFile (5 / 2) 4 126).header.width / 2 ^ i → (Even w ∨ w ≤ 1) →
        ∀ j r c, j < 6 → r < w → c < w * (sampleFile (5 / 2) 4 126).header.numChannels →
          (a.pixels i j)[r * w * (sampleFile (5 / 2) 4 126).header.numChannels + c]? =
              (sampleFile (5 / 2) 4 126).payload[
                levelOffset (sampleFile (5 / 2) 4 126).header.width
                  (sampleFile (5 / 2) 4 126).header.numChannels i +
                sideOf j * (w * w * (sampleFile (5 / 2) 4 126).header.numChannels) +
                (w - 1 - r) * w * (sampleFile (5 / 2) 4 126).header.numChannels + c]? ∧
            levelOffset (sampleFile (5 / 2) 4 126).header.width
                  (sampleFile (5 / 2) 4 126).header.numChannels i +
                sideOf j * (w * w * (sampleFile (5 / 2) 4 126).header.numChannels) +
                (w - 1 - r) * w * (sampleFile (5 / 2) 4 126).header.numChannels + c <
              (sampleFile (5 / 2) 4 126).payload.length :=
  ⟨rfl, rfl, by norm_num [sampleFile, sampleHeader], by norm_num [sampleFile, sampleHeader],
    by decide, by set_option maxRecDepth 100000 in decide,
    load_orientation_v2 3 (fun _ _ => 0) (sampleFs (sampleFile (5 / 2) 4 126)) blankHDRE
      "env.hdre" (sampleFile (5 / 2) 4 126) rfl rfl (by norm_num [sampleFile, sampleHeader])
      (by norm_num [sampleFile, sampleHeader]) (by decide)
      (by set_option maxRecDepth 100000 in decide)⟩

/-- C6 as stated fails for large widths: the header of width 23354 with one
channel and version 2.0 is accepted by both checks, but for no payload does
load return true and fill pixels[i][j]: level 0 alone has
6 * 23354^2 = 3272455896 floats, the `int` product overflows, and dataSize is
undefined. -/
theorem load_orientation_v2_overflow :
    (sampleHeader 2 23354).type = 3 ∧ 2 ≤ (sampleHeader 2 23354).version ∧
    (sampleHeader 2 23354).version < 3 ∧
    ¬ noOverflow 3 23354 1 ∧ loadDataSize 3 23354 1 = none ∧
    ∀ payload : List Nat,
      load 3 (fun _ _ => 0) (sampleFs ⟨sampleHeader 2 23354, payload⟩) blankHDRE "env.hdre" =
        none := by
  have hov : ¬ noOverflow 3 23354 1 := by decide
  refine ⟨rfl, by norm_num [sampleHeader], by norm_num [sampleHeader], hov, by decide, ?_⟩
  intro payload
  exact load_overflow_undefined 3 _ _ blankHDRE "env.hdre" ⟨sampleHeader 2 23354, payload⟩ rfl
    rfl (by norm_num [sampleHeader]) hov

/-! ## The packed view and the per-face view: claim C1 -/

/-- C1 at the scenario of the spec (version 3.0, width 4, one channel, three
levels, payload 0, 1, ..., 125): load returns true, and at level 1 the first
float of the packed buffer is 96 while the first float of face 0 is 98, so
faces_array[1] is not the concatenation of pixels[1][0..5]. -/
theorem load_packed_view_differs :
    ∃ a, load 3 (fun _ _ => 0) (sampleFs (sampleFile 3 4 126)) blankHDRE "env.hdre" = some (true, a) ∧
      (a.faces_array 1)[0 * ((4 / 2 ^ 1) ^ 2 * 1) + 0]? = some 96 ∧
      (a.pixels 1 0)[0]? = some 98 ∧
      (a.faces_array 1)[0 * ((4 / 2 ^ 1) ^ 2 * 1) + 0]? ≠ (a.pixels 1 0)[0]? := by
  have e : (load 3 (fun _ _ => 0) (sampleFs (sampleFile 3 4 126)) blankHDRE "env.hdre").map
      (fun r => (r.1, (r.2.faces_array 1)[0]?, (r.2.pixels 1 0)[0]?)) =
      some (true, some 96, some 98) := by
    set_option maxRecDepth 100000 in decide
  cases h : load 3 (fun _ _ => 0) (sampleFs (sampleFile 3 4 126)) blankHDRE "env.hdre" with
  | none => rw [h] at e; simp at e
  | some r =>
    obtain ⟨b, a⟩ := r
    rw [h] at e
    simp only [Option.map_some', Option.some.injEq, Prod.mk.injEq] at e
    obtain ⟨e1, e2, e3⟩ := e
    subst e1
    refine ⟨a, rfl, e2, e3, ?_⟩
    show (a.faces_array 1)[0]? ≠ (a.pixels 1 0)[0]?
    rw [e2, e3]
    decide

/-- C1 as amended: for an accepted header load returns true whenever no `int`
of load overflows, and after every load that returns true, for every level i
below N_LEVELS (of edge w = floor(W / 2^i)) the face loop of load returns with
buffers such that faces_array[i] of the loaded object is the packed buffer of
that loop and equals, element for element, the concatenation in face order of
the six per-face buffers the loop has filled; pixels[i] of the loaded object is
what the orientation pass makes of those six buffers (flipY with the side swap
below version 3.0, flipY alone at the levels i >= 1 from version 3.0 on,
nothing at level 0 from version 3.0 on), so that the equality
faces_array[i][j * faceSize + k] = pixels[i][j][k] holds on the loaded object
at level 0 from version 3.0 on. -/
theorem load_packed_view (nLevels : Nat) (uninit : Buffer → Nat → α)
    (fs : String → Option (HDREFile α)) (self : HDRE α) (filename : String)
    (file : HDREFile α) (hfs : fs filename = some file)
    (htype : file.header.type = 3) (hver : 2 ≤ file.header.version) :
    (noOverflow nLevels file.header.width file.header.numChannels →
      ∃ a, load nLevels uninit fs self filename = some (true, a)) ∧
    ∀ a, load nLevels uninit fs self filename = some (true, a) →
      ∃ data, a.data = some data ∧
      ∀ i w, i < nLevels → w = file.header.width / 2 ^ i →
        (∃ c, forLoop
            (faceBody uninit i data (levelOffset file.header.width file.header.numChannels i)
              (w * w * file.header.numChannels)) N_FACES 0
            ⟨self.pixels i,
              newFloats (uninit (Buffer.faces_array i))
                (w * w * file.header.numChannels * N_FACES),
              0, 0⟩ = some c ∧
          a.faces_array i = c.faces_i ∧
          (∀ j k, j < 6 → k < w * w * file.header.numChannels →
            (c.faces_i)[j * (w * w * file.header.numChannels) + k]? = (c.pixels_i j)[k]? ∧
              k < (c.pixels_i j).length) ∧
          some (a.pixels i) =
            if file.header.version < 3 then flipY c.pixels_i w file.header.numChannels true
            else if i ≠ 0 then flipY c.pixels_i w file.header.numChannels false
            else some c.pixels_i) ∧
        (3 ≤ file.header.version → i = 0 →
          ∀ j k, j < 6 → k < w * w * file.header.numChannels →
            (a.faces_array i)[j * (w * w * file.header.numChannels) + k]? =
                (a.pixels i j)[k]? ∧
              k < (a.pixels i j).length) := by
  refine ⟨fun hfit => ⟨_, load_eq nLevels uninit fs self filename file hfs htype hver hfit⟩, ?_⟩
  intro a hload
  obtain ⟨_, _, hfit, ha⟩ := load_true_fits nLevels uninit fs self filename file a hfs hload
  subst ha
  refine ⟨freadFloats (uninit Buffer.data) file.payload
      (levelOffset file.header.width file.header.numChannels nLevels),
    loadedLevels_data nLevels uninit self file nLevels, ?_⟩
  intro i w hi hw
  have hin := loaded_level_in_data nLevels uninit file i hi
  have hwi : levelWidth file.header.width i = w := by rw [hw]; rfl
  obtain ⟨_, _, hF⟩ := noOverflow_level nLevels _ _ i hfit hi
  rw [hwi] at hin hF
  have hpix := loaded_pixels nLevels uninit self file i hi
  have hfa := loaded_faces_array nLevels uninit self file i hi
  rw [hwi] at hpix hfa
  obtain ⟨c, hc, hcp, hcf⟩ := faceLoop_spec uninit i
    (freadFloats (uninit Buffer.data) file.payload
      (levelOffset file.header.width file.header.numChannels nLevels))
    (levelOffset file.header.width file.header.numChannels i)
    (w * w * file.header.numChannels) (self.pixels i)
    (newFloats (uninit (Buffer.faces_array i)) (w * w * file.header.numChannels * N_FACES))
    (newFloats_length _ _) hin
  have hsame : ∀ j k, j < 6 → k < w * w * file.header.numChannels →
      (c.faces_i)[j * (w * w * file.header.numChannels) + k]? = (c.pixels_i j)[k]? ∧
        k < (c.pixels_i j).length := by
    intro j k hj hk
    have hj6 : j < N_FACES := hj
    rw [hcf, hcp, levelSlice_getElem? _ _ _ j k hj hk]
    simp only [levelFaces, if_pos hj6]
    rw [(faceSlice_getElem? _ _ _ j k hj hk hin).1, faceSlice_length _ _ _ j hj6 hin]
    exact ⟨rfl, hk⟩
  have hflen := levelFaces_length _ _ _ (self.pixels i) hin
  refine ⟨⟨c, hc, by rw [hfa, hcf], hsame, ?_⟩, ?_⟩
  · rw [hpix, hcp, flipY_eq w file.header.numChannels _ true (by omega) (fun _ => by omega)
        hflen,
      flipY_eq w file.header.numChannels _ false (by omega) (fun _ => by omega) hflen]
    unfold orient
    by_cases hv : file.header.version < 3
    · simp only [hv, if_true]
    · by_cases hi0 : i = 0
      · simp [hv, hi0]
      · simp [hv, hi0]
  · intro hv3 hi0 j k hj hk
    have hnv : ¬ file.header.version < 3 := not_lt.mpr hv3
    have hor : orient file.header.version i w file.header.numChannels c.pixels_i =
        c.pixels_i := by
      simp [orient, hnv, hi0]
    rw [hfa, hpix, ← hcf, ← hcp, hor]
    exact hsame j k hj hk

theorem load_packed_view_witness :
    sampleFs (sampleFile 3 4 126) "env.hdre" = some (sampleFile 3 4 126) ∧
    (sampleFile 3 4 126).header.type = 3 ∧ 2 ≤ (sampleFile 3 4 126).header.version ∧
    (noOverflow 3 (sampleFile 3 4 126).header.width (sampleFile 3 4 126).header.numChannels →
      ∃ a, load 3 (fun _ _ => 0) (sampleFs (sampleFile 3 4 126)) blankHDRE "env.hdre" =
        some (true, a)) ∧
    ∀ a, load 3 (fun _ _ => 0) (sampleFs (sampleFile 3 4 126)) blankHDRE "env.hdre" =
        some (true, a) →
      ∃ data, a.data = some data ∧
      ∀ i w, i < 3 → w = (sampleFile 3 4 126).header.width / 2 ^ i →
        (∃ c, forLoop
            (faceBody (fun _ _ => 0) i data
              (levelOffset (sampleFile 3 4 126).header.width
                (sampleFile 3 4 126).header.numChannels i)
              (w * w * (sampleFile 3 4 126).header.numChannels)) N_FACES 0
            ⟨blankHDRE.pixels i,
              newFloats ((fun _ _ => 0) (Buffer.faces_array i))
                (w * w * (sampleFile 3 4 126).header.numChannels * N_FACES),
              0, 0⟩ = some c ∧
          a.faces_array i = c.faces_i ∧
          (∀ j k, j < 6 → k < w * w * (sampleFile 3 4 126).header.numChannels →
            (c.faces_i)[j * (w * w * (sampleFile 3 4 126).header.numChannels) + k]? =
                (c.pixels_i j)[k]? ∧
              k < (c.pixels_i j).length) ∧
          some (a.pixels i) =
            if (sampleFile 3 4 126).header.version < 3 then
              flipY c.pixels_i w (sampleFile 3 4 126).header.numChannels true
            else if i ≠ 0 then flipY c.pixels_i w (sampleFile 3 4 126).header.numChannels false
            else some c.pixels_i) ∧
        (3 ≤ (sampleFile 3 4 126).header.version → i = 0 →
          ∀ j k, j < 6 → k < w * w * (sampleFile 3 4 126).header.numChannels →
            (a.faces_array i)[j * (w * w * (sampleFile 3 4 126).header.numChannels) + k]? =
                (a.pixels i j)[k]? ∧
              k < (a.pixels i j).length) :=
  ⟨rfl, rfl, by norm_num [sampleFile, sampleHeader],
    load_packed_view 3 (fun _ _ => 0) (sampleFs (sampleFile 3 4 126)) blankHDRE "env.hdre"
      (sampleFile 3 4 126) rfl rfl (by norm_num [sampleFile, sampleHeader])⟩

/-! ## The packed view is the raw buffer: claim C17 -/

theorem packed_concat (data : List α) (width numChannels : Nat) : ∀ n,
    levelOffset width numChannels n ≤ data.length →
    ((List.range n).map fun i =>
        levelSlice data (levelOffset width numChannels i)
          (levelWidth width i * levelWidth width i * numChannels * N_FACES)).flatten =
      data.take (levelOffset width numChannels n) := by
  intro n
  induction n with
  | zero => intro _; simp [levelOffset]
  | succ n ih =>
    intro h
    have hn : levelOffset width numChannels n ≤ data.length :=
      le_trans (levelOffset_mono width numChannels (n + 1) n (by omega)) h
    rw [List.range_succ, List.map_append, List.flatten_append, ih hn]
    simp only [List.map_cons, List.map_nil, List.flatten, List.append_nil, levelSlice,
      levelOffset]
    rw [List.take_add]

/-- C17: for an accepted header (any version from 2.0 on, any payload) load
returns true whenever no `int` of load overflows, and after every load that
returns true, for every level i the packed buffer faces_array[i] is the slice
of the raw buffer that starts at `levelOffset W C i`, the sum of the sizes of
the levels before i: faces_array[i][p] = data[off_i + p] for every
p < 6 * faceSize_i; the concatenation of faces_array[0 .. N_LEVELS-1] is the
raw buffer that getData returns. -/
theorem load_packed_view_is_raw (nLevels : Nat) (uninit : Buffer → Nat → α)
    (fs : String → Option (HDREFile α)) (self : HDRE α) (filename : String)
    (file : HDREFile α) (hfs : fs filename = some file) (htype : file.header.type = 3)
    (hver : 2 ≤ file.header.version) :
    (noOverflow nLevels file.header.width file.header.numChannels →
      ∃ a, load nLevels uninit fs self filename = some (true, a)) ∧
    ∀ a, load nLevels uninit fs self filename = some (true, a) →
      ∃ data, getData a = some data ∧
      (∀ i w p, i < nLevels → w = file.header.width / 2 ^ i →
        p < 6 * (w * w * file.header.numChannels) →
        (a.faces_array i)[p]? =
            data[levelOffset file.header.width file.header.numChannels i + p]? ∧
          levelOffset file.header.width file.header.numChannels i + p < data.length) ∧
      ((List.range nLevels).map a.faces_array).flatten = data := by
  refine ⟨fun hfit => ⟨_, load_eq nLevels uninit fs self filename file hfs htype hver hfit⟩, ?_⟩
  intro a hload
  obtain ⟨_, _, _, ha⟩ := load_true_fits nLevels uninit fs self filename file a hfs hload
  subst ha
  refine ⟨freadFloats (uninit Buffer.data) file.payload
      (levelOffset file.header.width file.header.numChannels nLevels),
    loadedLevels_data nLevels uninit self file nLevels, ?_, ?_⟩
  · intro i w p hi hw hp
    have hin := loaded_level_in_data nLevels uninit file i hi
    have hwi : levelWidth file.header.width i = w := by rw [hw]; rfl
    rw [loaded_faces_array nLevels uninit self file i hi]
    rw [hwi] at hin ⊢
    simp only [N_FACES] at hin ⊢
    constructor
    · simp only [levelSlice]
      rw [List.getElem?_take_of_lt (by omega), List.getElem?_drop]
    · omega
  · have hlen := freadFloats_length (uninit Buffer.data) file.payload
      (levelOffset file.header.width file.header.numChannels nLevels)
    have hmap : (List.range nLevels).map
        (loadedLevels nLevels uninit self file nLevels).faces_array =
        (List.range nLevels).map fun i =>
          levelSlice
            (freadFloats (uninit Buffer.data) file.payload
              (levelOffset file.header.width file.header.numChannels nLevels))
            (levelOffset file.header.width file.header.numChannels i)
            (levelWidth file.header.width i * levelWidth file.header.width i *
              file.header.numChannels * N_FACES) := by
      apply List.map_congr_left
      intro i hi
      exact loaded_faces_array nLevels uninit self file i (List.mem_range.mp hi)
    rw [hmap, packed_concat _ _ _ nLevels (by rw [hlen])]
    apply List.take_of_length_le
    rw [hlen]

theorem load_packed_view_is_raw_witness :
    sampleFs (sampleFile 2 4 126) "env.hdre" = some (sampleFile 2 4 126) ∧
    (sampleFile 2 4 126).header.type = 3 ∧ 2 ≤ (sampleFile 2 4 126).header.version ∧
    (noOverflow 3 (sampleFile 2 4 126).header.width (sampleFile 2 4 126).header.numChannels →
      ∃ a, load 3 (fun _ _ => 0) (sampleFs (sampleFile 2 4 126)) blankHDRE "env.hdre" =
        some (true, a)) ∧
    ∀ a, load 3 (fun _ _ => 0) (sampleFs (sampleFile 2 4 126)) blankHDRE "env.hdre" =
        some (true, a) →
      ∃ data, getData a = some data ∧
      (∀ i w p, i < 3 → w = (sampleFile 2 4 126).header.width / 2 ^ i →
        p < 6 * (w * w * (sampleFile 2 4 126).header.numChannels) →
        (a.faces_array i)[p]? =
            data[levelOffset (sampleFile 2 4 126).header.width
              (sampleFile 2 4 126).header.numChannels i + p]? ∧
          levelOffset (sampleFile 2 4 126).header.width
              (sampleFile 2 4 126).header.numChannels i + p < data.length) ∧
      ((List.range 3).map a.faces_array).flatten = data :=
  ⟨rfl, rfl, by norm_num [sampleFile, sampleHeader],
    load_packed_view_is_raw 3 (fun _ _ => 0) (sampleFs (sampleFile 2 4 126)) blankHDRE
      "env.hdre" (sampleFile 2 4 126) rfl rfl (by norm_num [sampleFile, sampleHeader])⟩
/-! ## A payload shorter than dataSize: claim C11 -/

theorem freadFloats_getElem? (content : Nat → α) (payload : List α) (n k : Nat) (hk : k < n) :
    (freadFloats content payload n)[k]? =
      if k < payload.length then payload[k]? else some (content k) := by
  unfold freadFloats newFloats
  by_cases h : k < payload.length
  · rw [if_pos h, List.getElem?_append_left (by rw [List.length_take]; omega),
      List.getElem?_take_of_lt hk]
  · rw [if_neg h, List.getElem?_append_right (by rw [List.length_take]; omega),
      List.length_take, List.getElem?_drop, List.getElem?_map]
    have e : payload.length + (k - min n payload.length) = k := by omega
    rw [e, List.getElem?_range hk]
    rfl

/-- C11 at a truncated file: the header (width 2, one channel, version 3.0, two
levels) asks for 30 floats and the file holds 5 of them; load returns true
with a raw buffer of the 5 floats followed by the 25 cells of the allocation
that the read did not reach (here cell k held 100 + k), and Get returns the
object instead of NULL. -/
theorem load_truncated_payload_accepted :
    loadDataSize 2 2 1 = some 30 ∧ (sampleFile 3 2 5).payload.length = 5 ∧
    (load 2 (fun _ k => 100 + k) (sampleFs (sampleFile 3 2 5)) blankHDRE "env.hdre").map
        (fun r => (r.1, r.2.data)) =
      some (true, some ([0, 1, 2, 3, 4] ++ (List.range 25).map (· + 105))) ∧
    (Get 2 (fun _ k => 100 + k) (sampleFs (sampleFile 3 2 5)) [] blankHDRE "env.hdre").map
        (fun r => r.1.isSome) = some true := by
  refine ⟨by decide, by decide, ?_, ?_⟩
  · set_option maxRecDepth 100000 in decide
  · set_option maxRecDepth 100000 in decide

/-- C11 as amended: for a file with an accepted header for which no `int` of
load overflows and in which fewer than dataSize floats are available, load does
not fail: it returns true, the raw buffer has dataSize floats, namely the
floats of the file followed by the cells of the allocation that the read did
not reach, each with the content it had, and Get, on a miss of the registry,
returns the object and not NULL. -/
theorem load_truncated_payload (nLevels : Nat) (uninit : Buffer → Nat → α)
    (fs : String → Option (HDREFile α)) (self : HDRE α) (filename : String)
    (file : HDREFile α) (dataSize : Nat) (hfs : fs filename = some file)
    (htype : file.header.type = 3) (hver : 2 ≤ file.header.version)
    (hfit : noOverflow nLevels file.header.width file.header.numChannels)
    (hsize : loadDataSize nLevels file.header.width file.header.numChannels = some dataSize)
    (hshort : file.payload.length < dataSize) :
    ∃ a data, load nLevels uninit fs self filename = some (true, a) ∧
      a.data = some data ∧ data.length = dataSize ∧
      (∀ k, k < file.payload.length → data[k]? = file.payload[k]?) ∧
      (∀ k, file.payload.length ≤ k → k < dataSize → data[k]? = some (uninit Buffer.data k)) ∧
      ∀ sHDRELoaded : List (String × HDRE α), sHDRELoaded.lookup filename = none →
        Get nLevels uninit fs sHDRELoaded self filename = some (some a, sHDRELoaded) := by
  have hload := load_eq nLevels uninit fs self filename file hfs htype hver hfit
  have hds : dataSize = levelOffset file.header.width file.header.numChannels nLevels := by
    rw [loadDataSize_eq _ _ _ hfit] at hsize
    exact (Option.some.inj hsize).symm
  subst hds
  refine ⟨_, _, hload, loadedLevels_data nLevels uninit self file nLevels,
    freadFloats_length _ _ _, ?_, ?_, ?_⟩
  · intro k hk
    rw [freadFloats_getElem? _ _ _ k (by omega), if_pos hk]
  · intro k hk1 hk2
    rw [freadFloats_getElem? _ _ _ k hk2, if_neg (by omega)]
  · intro reg hmiss
    simp [Get, hmiss, hload]

theorem load_truncated_payload_witness :
    sampleFs (sampleFile 3 2 5) "env.hdre" = some (sampleFile 3 2 5) ∧
    (sampleFile 3 2 5).header.type = 3 ∧ 2 ≤ (sampleFile 3 2 5).header.version ∧
    noOverflow 2 (sampleFile 3 2 5).header.width (sampleFile 3 2 5).header.numChannels ∧
    loadDataSize 2 (sampleFile 3 2 5).header.width (sampleFile 3 2 5).header.numChannels =
      some 30 ∧
    (sampleFile 3 2 5).payload.length < 30 ∧
    ∃ a data, load 2 (fun _ k => 100 + k) (sampleFs (sampleFile 3 2 5)) blankHDRE "env.hdre" =
        some (true, a) ∧
      a.data = some data ∧ data.length = 30 ∧
      (∀ k, k < (sampleFile 3 2 5).payload.length → data[k]? = (sampleFile 3 2 5).payload[k]?) ∧
      (∀ k, (sampleFile 3 2 5).payload.length ≤ k → k < 30 →
        data[k]? = some ((fun (_ : Buffer) k => 100 + k) Buffer.data k)) ∧
      ∀ sHDRELoaded : List (String × HDRE Nat), sHDRELoaded.lookup "env.hdre" = none →
        Get 2 (fun _ k => 100 + k) (sampleFs (sampleFile 3 2 5)) sHDRELoaded blankHDRE
          "env.hdre" = some (some a, sHDRELoaded) :=
  ⟨rfl, rfl, by norm_num [sampleFile, sampleHeader], by decide, by decide, by decide,
    load_truncated_payload 2 (fun _ k => 100 + k) (sampleFs (sampleFile 3 2 5)) blankHDRE
      "env.hdre" (sampleFile 3 2 5) 30 rfl rfl (by norm_num [sampleFile, sampleHeader])
      (by decide) (by decide) (by decide)⟩

/-! ## The registry: claim C12 -/

/-- C12 at the failing input: with an empty registry and a file that decodes,
Get returns an object, and the registry it leaves does not contain the path;
a second Get with that registry goes to the file again: once the file can no
longer be opened it returns NULL instead of the object of the first call. -/
theorem Get_does_not_register :
    (Get 3 (fun _ _ => 0) (sampleFs (sampleFile 3 4 126)) [] blankHDRE "env.hdre").map
        (fun r => (r.1.isSome, (r.2.lookup "env.hdre").isSome)) = some (true, false) ∧
    ((Get 3 (fun _ _ => 0) (sampleFs (sampleFile 3 4 126)) [] blankHDRE "env.hdre").bind fun r =>
        (Get 3 (fun _ _ => 0) (fun _ => none) r.2 blankHDRE "env.hdre").map
          (fun r2 => r2.1.isSome)) = some false := by
  constructor
  · set_option maxRecDepth 100000 in decide
  · set_option maxRecDepth 100000 in decide

/-! ## The object after a rejected header: claim C13 -/

/-- C13 at a header of version 1.5: load returns false, and the member
`version` of the object, 0 before the call, is 1.5 after it. -/
theorem load_rejected_version_changes_object :
    ∃ self1, load 3 (fun _ _ => 0) (sampleFs (sampleFile (3 / 2) 4 126)) blankHDRE "env.hdre" =
        some (false, self1) ∧
      blankHDRE.version = 0 ∧ self1.version = 3 / 2 ∧ self1.version ≠ blankHDRE.version := by
  refine ⟨{ blankHDRE with
      header := (sampleFile (3 / 2) 4 126).header
      version := (sampleFile (3 / 2) 4 126).header.version }, ?_, rfl, rfl, ?_⟩
  · have hv : (sampleFile (3 / 2) 4 126).header.version < 2 := by
      norm_num [sampleFile, sampleHeader]
    have ht : (sampleFile (3 / 2) 4 126).header.type = 3 := rfl
    have hfs : sampleFs (sampleFile (3 / 2) 4 126) "env.hdre" =
        some (sampleFile (3 / 2) 4 126) := rfl
    simp only [load, hfs, ht, ne_eq, not_true_eq_false, if_false, hv, if_true]
  · show (sampleFile (3 / 2) 4 126).header.version ≠ blankHDRE.version
    norm_num [sampleFile, sampleHeader, blankHDRE]

/-- C13 as amended: for a file that can be opened, a call of load that returns
false because the format tag is not 3 leaves every member of the object as it
was; a call that returns false because the version is below 2.0 leaves every
member as it was except `header` and `version`, which hold the header and the
version of the rejected file. -/
theorem load_rejected_object (nLevels : Nat) (uninit : Buffer → Nat → α) (fs : String → Option (HDREFile α))
    (self : HDRE α) (filename : String) (file : HDREFile α) (hfs : fs filename = some file) :
    (file.header.type ≠ 3 → load nLevels uninit fs self filename = some (false, self)) ∧
    (file.header.type = 3 → file.header.version < 2 →
      load nLevels uninit fs self filename =
        some (false,
          { header := file.header, version := file.header.version,
            numChannels := self.numChannels, bitsPerChannel := self.bitsPerChannel,
            maxLuminance := self.maxLuminance, type := self.type,
            numCoeffs := self.numCoeffs, coeffs := self.coeffs, width := self.width,
            height := self.height, data := self.data, faces_array := self.faces_array,
            pixels := self.pixels })) := by
  constructor
  · intro ht
    simp [load, hfs, ht]
  · intro ht hv
    simp [load, hfs, ht, hv]

theorem load_rejected_object_witness :
    sampleFs (sampleFile (3 / 2) 4 126) "env.hdre" = some (sampleFile (3 / 2) 4 126) ∧
    load 3 (fun _ _ => 0) (sampleFs (sampleFile (3 / 2) 4 126)) blankHDRE "env.hdre" =
      some (false,
        { header := (sampleFile (3 / 2) 4 126).header,
          version := (sampleFile (3 / 2) 4 126).header.version,
          numChannels := blankHDRE.numChannels, bitsPerChannel := blankHDRE.bitsPerChannel,
          maxLuminance := blankHDRE.maxLuminance, type := blankHDRE.type,
          numCoeffs := blankHDRE.numCoeffs, coeffs := blankHDRE.coeffs,
          width := blankHDRE.width, height := blankHDRE.height, data := blankHDRE.data,
          faces_array := blankHDRE.faces_array, pixels := blankHDRE.pixels }) :=
  ⟨rfl,
    (load_rejected_object 3 (fun _ _ => 0) (sampleFs (sampleFile (3 / 2) 4 126)) blankHDRE "env.hdre"
      (sampleFile (3 / 2) 4 126) rfl).2 rfl (by norm_num [sampleFile, sampleHeader])⟩

/-! ## Teardown: claim C14 -/

/-- C14 at the failing input: for the object loaded from the sample file (three
levels), a first clean returns true, releases the 22 allocations (the raw
buffer, 3 packed buffers, 18 face buffers) and leaves `data` non-null; a second
clean therefore passes the test of `data` and deletes the raw buffer a second
time, which is undefined, instead of returning false. -/
theorem clean_twice_not_guarded :
    ((load 3 (fun _ _ => 0) (sampleFs (sampleFile 3 4 126)) blankHDRE "env.hdre").bind fun r =>
        (clean 3 ⟨r.2, []⟩).map fun c =>
          (r.1, c.1, c.2.self.data.isSome, c.2.released.length, (clean 3 c.2).isSome)) =
      some (true, true, true, 22, false) := by
  set_option maxRecDepth 100000 in decide

/-! ## flipY stays inside the buffers: claim C16 -/

/-- C16, as amended: for six face buffers of `size * size * nc` floats with
`size * size * nc < 2^31` (so that the row offsets fit in an `int`) and every
such edge `size`, odd or even, every iteration of the double loop of flipY
(iteration i of face f) starts with offsets such that 0 <= pos, 0 <= lastpos,
pos + size * nc <= size * size * nc and lastpos + size * nc <= size * size * nc,
on a face buffer that still has `size * size * nc` floats; the row read into
the temporary buffer has `size * nc` floats, and the three copies of the
iteration are defined. -/
theorem flipY_offsets_in_bounds (size nc : Nat) (data : Nat → List α)
    (hb : size * size * nc < 2147483648)
    (hlen : ∀ f, f < 6 → (data f).length = size * size * nc) :
    ∀ f i, f < 6 → i < size / 2 →
      ∃ s, flipYAt size nc data f i = some s ∧
        0 ≤ s.pos ∧ 0 ≤ s.lastpos ∧
        s.pos + ((size * nc : Nat) : Int) ≤ ((size * size * nc : Nat) : Int) ∧
        s.lastpos + ((size * nc : Nat) : Int) ≤ ((size * size * nc : Nat) : Int) ∧
        (s.data f).length = size * size * nc ∧
        (∃ temp, readFloats (s.data f) s.pos (wrapU32 (size * nc * 4) / 4) = some temp ∧
          temp.length = size * nc ∧ temp.length ≤ wrapU32 (size * nc)) ∧
        ∃ s1, flipYBody size nc f s = some s1 := by
  intro f i hf hi
  obtain ⟨s, rows, hs, hpos, hlast, hd, hrl, hrows⟩ :=
    flipYAt_rows size nc data hb hlen f i hf hi
  have hsize : 2 ≤ size := by omega
  have hmul : size * size * nc = size * (size * nc) := Nat.mul_assoc _ _ _
  have h2R : 2 * (size * nc) ≤ size * (size * nc) := Nat.mul_le_mul_right _ hsize
  have hrow : wrapU32 (size * nc) = size * nc := wrapU32_of_lt _ (by omega)
  have hrs : wrapU32 (size * nc * 4) / 4 = size * nc := by unfold wrapU32; omega
  have hp := rowAt_le (size - 1) (f * (size / 2) + i)
  have hpl : rowAt (size - 1) (f * (size / 2) + i) < rows.length := by omega
  have hb1 : (rowAt (size - 1) (f * (size / 2) + i) + 1) * (size * nc) ≤ size * (size * nc) :=
    Nat.mul_le_mul_right _ (by omega)
  have hb2 : (size - 1 - rowAt (size - 1) (f * (size / 2) + i) + 1) * (size * nc) ≤
      size * (size * nc) := Nat.mul_le_mul_right _ (by omega)
  rw [Nat.succ_mul] at hb1 hb2
  have hflat : (s.data f).length = size * size * nc := by
    rw [hd, length_flatten_rows (size * nc) rows hrows, hrl, Nat.mul_assoc]
  obtain ⟨d, ps, lp⟩ := s
  simp only at hpos hlast hd hflat
  subst hpos hlast
  refine ⟨_, hs, Int.natCast_nonneg _, Int.natCast_nonneg _, ?_, ?_, hflat, ?_, ?_⟩
  · rw [Nat.mul_assoc]
    show ((rowAt (size - 1) (f * (size / 2) + i) * (size * nc) : Nat) : Int) +
      ((size * nc : Nat) : Int) ≤ ((size * (size * nc) : Nat) : Int)
    exact_mod_cast hb1
  · rw [Nat.mul_assoc]
    show (((size - 1 - rowAt (size - 1) (f * (size / 2) + i)) * (size * nc) : Nat) : Int) +
      ((size * nc : Nat) : Int) ≤ ((size * (size * nc) : Nat) : Int)
    exact_mod_cast hb2
  · refine ⟨rows.getD (rowAt (size - 1) (f * (size / 2) + i)) [], ?_, ?_, ?_⟩
    · show readFloats (d f) _ _ = _
      rw [hd, hrs]
      exact readFloats_rows (size * nc) rows _ hrows hpl
    · exact getD_row_length _ rows _ hrows hpl
    · rw [hrow, getD_row_length _ rows _ hrows hpl]
  · exact ⟨_, flipYBody_rows size nc f _ d rows hb hsize hp hd hrl hrows⟩

theorem flipY_offsets_in_bounds_witness :
    3 * 3 * 1 < 2147483648 ∧
    (∀ f, f < 6 → ((fun g => (List.range 9).map (· + 10 * g)) f).length = 3 * 3 * 1) ∧
    ∀ f i, f < 6 → i < 3 / 2 →
      ∃ s, flipYAt 3 1 (fun g => (List.range 9).map (· + 10 * g)) f i = some s ∧
        0 ≤ s.pos ∧ 0 ≤ s.lastpos ∧
        s.pos + ((3 * 1 : Nat) : Int) ≤ ((3 * 3 * 1 : Nat) : Int) ∧
        s.lastpos + ((3 * 1 : Nat) : Int) ≤ ((3 * 3 * 1 : Nat) : Int) ∧
        (s.data f).length = 3 * 3 * 1 ∧
        (∃ temp, readFloats (s.data f) s.pos (wrapU32 (3 * 1 * 4) / 4) = some temp ∧
          temp.length = 3 * 1 ∧ temp.length ≤ wrapU32 (3 * 1)) ∧
        ∃ s1, flipYBody 3 1 f s = some s1 :=
  ⟨by decide, fun _ _ => rfl,
    flipY_offsets_in_bounds 3 1 (fun g => (List.range 9).map (· + 10 * g)) (by decide)
      (fun _ _ => rfl)⟩

/-- C16 as stated fails for large faces: for size 46342 and one channel, on six
faces of `46342 * 46342` floats, the first iteration of the double loop (face 0,
iteration 0) starts with `lastpos` = -2147432674, the `int` that the unsigned
product `46342 * 46341 * 1` = 2147534622 becomes; 0 <= lastpos fails, and the
row copy from `fdata + lastpos` leaves the buffer: the iteration is
undefined. -/
theorem flipY_large_edge_offset_negative :
    (∀ f, f < 6 → ((fun _ : Nat => List.replicate (46342 * 46342 * 1) (0 : Nat)) f).length =
      46342 * 46342 * 1) ∧
    0 < 46342 / 2 ∧
    ∃ s, flipYAt 46342 1 (fun _ : Nat => List.replicate (46342 * 46342 * 1) (0 : Nat)) 0 0 =
        some s ∧
      s.lastpos = -2147432674 ∧ ¬ (0 ≤ s.lastpos) ∧ flipYBody 46342 1 0 s = none := by
  have hlast : flipYLast 46342 1 = -2147432674 := by decide
  have hl : ∀ f, f < 6 →
      ((fun _ : Nat => List.replicate (46342 * 46342 * 1) (0 : Nat)) f).length =
        46342 * 46342 * 1 := fun _ _ => List.length_replicate _ _
  refine ⟨hl, by decide,
    ⟨fun _ : Nat => List.replicate (46342 * 46342 * 1) (0 : Nat), 0, flipYLast 46342 1⟩,
    rfl, hlast, ?_, ?_⟩
  · show ¬ (0 ≤ flipYLast 46342 1)
    rw [hlast]; decide
  · exact flipYBody_neg_lastpos 46342 1 0 _ (by show flipYLast 46342 1 < 0; rw [hlast]; decide)

/-! ## The partition loop stays inside the buffers: claim C15 -/

/-- C15: for every width W and channel count C for which no `int` of load
overflows, dataSize is defined and every iteration of the copy loop of load
(iteration k of face j of level i, of edge w = floor(W / 2^i)) starts with
variables such that the read index mapOffset + faceOffset + k is
`levelOffset W C i + j * faceSize + k` and lies below dataSize, the length of
the raw buffer, and the write index facePixel lies below mapSize, the length
of the packed buffer of the level, and k lies inside the face buffer, so that
the iteration is defined; the map (i, j, k) -> mapOffset_i + j * faceSize_i + k
is injective on the iterations and reaches every index below dataSize; and
mapOffset equals dataSize when the level loop ends. -/
theorem load_partition_in_bounds (nLevels : Nat) (uninit : Buffer → Nat → α) (self : HDRE α)
    (file : HDREFile α)
    (hfit : noOverflow nLevels file.header.width file.header.numChannels) :
    ∃ dataSize, loadDataSize nLevels file.header.width file.header.numChannels = some dataSize ∧
    (∀ i j k w, i < nLevels → j < 6 → w = file.header.width / 2 ^ i →
      k < w * w * file.header.numChannels →
      ∃ (s : LevelState α) (c : CopyState α) (data : List α),
        loadAt nLevels uninit self file i j k = some (s, c) ∧
        s.self.data = some data ∧
        data.length = dataSize ∧
        s.mapOffset + c.faceOffset + k =
          levelOffset file.header.width file.header.numChannels i +
            j * (w * w * file.header.numChannels) + k ∧
        s.mapOffset + c.faceOffset + k < dataSize ∧
        c.facePixel < w * w * file.header.numChannels * N_FACES ∧
        c.faces_i.length = w * w * file.header.numChannels * N_FACES ∧
        k < (c.pixels_i j).length ∧
        ∃ c1, copyBody data s.mapOffset j k c = some c1) ∧
    (∀ i j k i1 j1 k1, i < nLevels → j < 6 →
      k < (file.header.width / 2 ^ i) * (file.header.width / 2 ^ i) *
        file.header.numChannels →
      i1 < nLevels → j1 < 6 →
      k1 < (file.header.width / 2 ^ i1) * (file.header.width / 2 ^ i1) *
        file.header.numChannels →
      levelOffset file.header.width file.header.numChannels i +
          j * ((file.header.width / 2 ^ i) * (file.header.width / 2 ^ i) *
            file.header.numChannels) + k =
        levelOffset file.header.width file.header.numChannels i1 +
          j1 * ((file.header.width / 2 ^ i1) * (file.header.width / 2 ^ i1) *
            file.header.numChannels) + k1 →
      i = i1 ∧ j = j1 ∧ k = k1) ∧
    (∀ p, p < dataSize →
      ∃ i j k, i < nLevels ∧ j < 6 ∧
        k < (file.header.width / 2 ^ i) * (file.header.width / 2 ^ i) *
          file.header.numChannels ∧
        levelOffset file.header.width file.header.numChannels i +
          j * ((file.header.width / 2 ^ i) * (file.header.width / 2 ^ i) *
            file.header.numChannels) + k = p) ∧
    ∃ s, loadLevels nLevels uninit self file nLevels = some s ∧ s.mapOffset = dataSize := by
  refine ⟨levelOffset file.header.width file.header.numChannels nLevels,
    loadDataSize_eq _ _ _ hfit, ?_, ?_, ?_, ?_⟩
  · intro i j k w hi hj hw hk
    have hwi : levelWidth file.header.width i = w := by rw [hw]; rfl
    have hk2 : k < levelWidth file.header.width i * levelWidth file.header.width i *
        file.header.numChannels := by rw [hwi]; exact hk
    obtain ⟨s, c, hs, hd, hm, ho, hp, hx, hf⟩ :=
      loadAt_spec nLevels uninit self file hfit i j k hi hj hk2
    rw [hwi] at ho hp hx hf
    have hin := loaded_level_in_data nLevels uninit file i hi
    rw [hwi, freadFloats_length] at hin
    have hlen := freadFloats_length (uninit Buffer.data) file.payload
      (levelOffset file.header.width file.header.numChannels nLevels)
    have hb := face_index_lt _ j k hj hk
    simp only [N_FACES] at hin hf ⊢
    have hidx : s.mapOffset + c.faceOffset + k <
        levelOffset file.header.width file.header.numChannels nLevels := by
      rw [hm, ho]; omega
    have hst1 : k < (c.pixels_i j).length := by rw [hx]; exact hk
    have hst2 : c.facePixel < c.faces_i.length := by rw [hp, hf]; exact hb
    refine ⟨s, c, _, hs, hd, hlen, by rw [hm, ho], hidx, by rw [hp]; exact hb, hf, hst1, ?_⟩
    have hget : (freadFloats (uninit Buffer.data) file.payload
        (levelOffset file.header.width file.header.numChannels nLevels))[
          s.mapOffset + c.faceOffset + k]? =
        some ((freadFloats (uninit Buffer.data) file.payload
          (levelOffset file.header.width file.header.numChannels nLevels))[
            s.mapOffset + c.faceOffset + k]) :=
      List.getElem?_eq_getElem (by rw [hlen]; exact hidx)
    simp only [copyBody, hget, storeAt, if_pos hst1, if_pos hst2, Option.bind_eq_bind,
      Option.some_bind, Option.bind_some]
    exact ⟨_, rfl⟩
  · intro i j k i1 j1 k1 _ hj hk _ hj1 hk1 h
    exact partition_index_inj file.header.width file.header.numChannels i j k i1 j1 k1
      hj hk hj1 hk1 h
  · intro p hp
    exact partition_index_surj file.header.width file.header.numChannels nLevels p hp
  · exact ⟨_, loadLevels_eq nLevels uninit self file hfit nLevels (le_refl _), rfl⟩

theorem load_partition_in_bounds_witness :
    noOverflow 3 file5.header.width file5.header.numChannels ∧
    ∃ dataSize, loadDataSize 3 file5.header.width file5.header.numChannels = some dataSize ∧
    (∀ i j k w, i < 3 → j < 6 → w = file5.header.width / 2 ^ i →
      k < w * w * file5.header.numChannels →
      ∃ (s : LevelState Nat) (c : CopyState Nat) (data : List Nat),
        loadAt 3 (fun _ _ => 0) blankHDRE file5 i j k = some (s, c) ∧
        s.self.data = some data ∧
        data.length = dataSize ∧
        s.mapOffset + c.faceOffset + k =
          levelOffset file5.header.width file5.header.numChannels i +
            j * (w * w * file5.header.numChannels) + k ∧
        s.mapOffset + c.faceOffset + k < dataSize ∧
        c.facePixel < w * w * file5.header.numChannels * N_FACES ∧
        c.faces_i.length = w * w * file5.header.numChannels * N_FACES ∧
        k < (c.pixels_i j).length ∧
        ∃ c1, copyBody data s.mapOffset j k c = some c1) ∧
    (∀ i j k i1 j1 k1, i < 3 → j < 6 →
      k < (file5.header.width / 2 ^ i) * (file5.header.width / 2 ^ i) *
        file5.header.numChannels →
      i1 < 3 → j1 < 6 →
      k1 < (file5.header.width / 2 ^ i1) * (file5.header.width / 2 ^ i1) *
        file5.header.numChannels →
      levelOffset file5.header.width file5.header.numChannels i +
          j * ((file5.header.width / 2 ^ i) * (file5.header.width / 2 ^ i) *
            file5.header.numChannels) + k =
        levelOffset file5.header.width file5.header.numChannels i1 +
          j1 * ((file5.header.width / 2 ^ i1) * (file5.header.width / 2 ^ i1) *
            file5.header.numChannels) + k1 →
      i = i1 ∧ j = j1 ∧ k = k1) ∧
    (∀ p, p < dataSize →
      ∃ i j k, i < 3 ∧ j < 6 ∧
        k < (file5.header.width / 2 ^ i) * (file5.header.width / 2 ^ i) *
          file5.header.numChannels ∧
        levelOffset file5.header.width file5.header.numChannels i +
          j * ((file5.header.width / 2 ^ i) * (file5.header.width / 2 ^ i) *
            file5.header.numChannels) + k = p) ∧
    ∃ s, loadLevels 3 (fun _ _ => 0) blankHDRE file5 3 = some s ∧ s.mapOffset = dataSize :=
  ⟨by decide, load_partition_in_bounds 3 (fun _ _ => 0) blankHDRE file5 (by decide)⟩

end Hdre
